import Mathlib

/-!
# Barrister for Go: the schema-directed conversion engine

A shallow embedding of `convert.go` (the `Convert` engine: `Run`,
`convertSlice`, `convertStruct`, `returnVal`, `convertedVal`, `capitalize`)
together with the part of Go's `reflect` package the engine relies on.

Conventions of the embedding:

* Go strings are Lean `String`s; a byte of a Go string that encodes nothing is
  written U+FFFD, which is how Go reads it when it ranges over the string.
* A struct type lists its members with their embedding and export flags;
  `FieldByName` finds the members promoted from embedded structs, and a member
  of a record is addressed by its index sequence, as in `reflect`.
* `int` is the 64-bit `int` of a 64-bit platform.
* A `float64` is an exact dyadic number, an infinity or NaN (`F64`).
* A Go `map` is an association list read with `List.lookup`; ranging over the
  map visits the list in its order, which stands for the order Go happens to pick.
* The pair `(reflect.Value, error)` returned by the engine is an `Outcome`;
  a run-time panic of `reflect` is the third outcome.
-/

namespace Barrister

/-! ## Types of the Go program, as seen through `reflect` -/

/-- The kinds of `reflect.Kind` that values of this program can have. -/
inductive Kind
  | invalid | bool | int | int8 | int16 | int32 | int64
  | uint | uint8 | uint16 | uint32 | uint64
  | float32 | float64 | interface | map | ptr | slice | string | struct
  deriving DecidableEq, Repr

/-- The text of `Kind.String()`. -/
def Kind.toString : Kind → String
  | .invalid => "invalid"
  | .bool => "bool"
  | .int => "int"
  | .int8 => "int8"
  | .int16 => "int16"
  | .int32 => "int32"
  | .int64 => "int64"
  | .uint => "uint"
  | .uint8 => "uint8"
  | .uint16 => "uint16"
  | .uint32 => "uint32"
  | .uint64 => "uint64"
  | .float32 => "float32"
  | .float64 => "float64"
  | .interface => "interface"
  | .map => "map"
  | .ptr => "ptr"
  | .slice => "slice"
  | .string => "string"
  | .struct => "struct"

/-- The predeclared scalar types of Go. -/
inductive Basic
  | bool | int | int8 | int16 | int32 | int64
  | uint | uint8 | uint16 | uint32 | uint64
  | float32 | float64 | string
  deriving DecidableEq, Repr

/-- The kind of a predeclared type. -/
def Basic.kind : Basic → Kind
  | .bool => .bool
  | .int => .int
  | .int8 => .int8
  | .int16 => .int16
  | .int32 => .int32
  | .int64 => .int64
  | .uint => .uint
  | .uint8 => .uint8
  | .uint16 => .uint16
  | .uint32 => .uint32
  | .uint64 => .uint64
  | .float32 => .float32
  | .float64 => .float64
  | .string => .string

mutual
/-- A Go type (`reflect.Type`): a predeclared type, a defined type
`type name underlying`, a pointer, a slice, a struct literal,
`map[string]interface{}` or `interface{}`. -/
inductive GoType
  | basic (b : Basic)
  | named (name : String) (underlying : GoType)
  | ptr (elem : GoType)
  | slice (elem : GoType)
  | struct (fields : GoFields)
  | mapStrAny
  | any
  deriving DecidableEq
/-- The members of a struct type, in declaration order: the name of each member,
its type, whether it is an embedded member (named after its type, as in
`struct { Base; Name string }`) and whether it is exported. Exportedness is the
flag that the compiler stores with the name of a member (set for a name that
starts with an upper-case letter, of any script) and that `reflect` reads. -/
inductive GoFields
  | nil
  | cons (name : String) (type : GoType) (embedded : Bool) (exported : Bool) (rest : GoFields)
  deriving DecidableEq
end

/-- The result of `Type.Kind()`. -/
def GoType.kind : GoType → Kind
  | .basic b => b.kind
  | .named _ u => u.kind
  | .ptr _ => .ptr
  | .slice _ => .slice
  | .struct _ => .struct
  | .mapStrAny => .map
  | .any => .interface

/-- The underlying type: defined-type wrappers removed. -/
def GoType.underlying : GoType → GoType
  | .named _ u => u.underlying
  | t => t

/-- Whether the type is a named (predeclared or defined) type. -/
def GoType.isNamed : GoType → Bool
  | .basic _ => true
  | .named _ _ => true
  | _ => false

/-- The result of `Type.Elem()` on a type of kind `Ptr` or `Slice`
(`none` stands for the panic on any other kind modelled here). -/
def GoType.elem (t : GoType) : Option GoType :=
  match t.underlying with
  | .ptr e => some e
  | .slice e => some e
  | _ => none

/-- The part of a `reflect.StructField` that the engine uses: the name and the
type of the member, the index sequence that leads to it (one index for a member
of the struct itself, more for a member promoted from an embedded struct), and
whether the member is exported (`PkgPath` empty). -/
structure StructField where
  Name : String
  Typ : GoType
  Index : List Nat
  exported : Bool
  deriving DecidableEq

mutual
/-- The nesting depth of a type, a bound on the depth at which it embeds
structs. -/
def GoType.depth : GoType → Nat
  | .named _ u => u.depth + 1
  | .ptr e => e.depth + 1
  | .slice e => e.depth + 1
  | .struct fs => fs.depth + 1
  | _ => 0
/-- The nesting depth of the members of a struct. -/
def GoFields.depth : GoFields → Nat
  | .nil => 0
  | .cons _ t _ _ rest => max (t.depth + 1) rest.depth
end

/-- The members of the struct that an embedded member of type `t` embeds, when
`t` is `T` or `*T` for a `T` of kind `Struct`. -/
def GoType.embeddedStruct (t : GoType) : Option GoFields :=
  match t.underlying with
  | .struct fs => some fs
  | .ptr e =>
    match e.underlying with
    | .struct fs => some fs
    | _ => none
  | _ => none

/-- The members called `name` among the members of a struct; `i` is the index
of the first member of the list. -/
def GoFields.named (name : String) : GoFields → Nat → List StructField
  | .nil, _ => []
  | .cons n t _ ex rest, i =>
    if n = name then ⟨n, t, [i], ex⟩ :: rest.named name (i + 1) else rest.named name (i + 1)

/-- The structs embedded among the members of a struct, each with the index of
its member; `i` is the index of the first member of the list. -/
def GoFields.embedded : GoFields → Nat → List (Nat × GoFields)
  | .nil, _ => []
  | .cons _ t emb _ rest, i =>
    match (if emb then t.embeddedStruct else none) with
    | some fs => (i, fs) :: rest.embedded (i + 1)
    | none => rest.embedded (i + 1)

/-- The members called `name` at embedding depth `d` below a struct: for depth
0 those of the struct itself, for depth `d + 1` those at depth `d` of the
structs it embeds, the index of the embedded member put in front. -/
def GoFields.namedAt (name : String) : Nat → GoFields → List StructField
  | 0, fs => fs.named name 0
  | d + 1, fs =>
    ((fs.embedded 0).map (fun p =>
      (GoFields.namedAt name d p.2).map (fun sf => { sf with Index := p.1 :: sf.Index }))).flatten

/-- The search of `FieldByName` from embedding depth `d` on, through at most
`n` depths: the members of the struct itself come first (the first one called
`name` wins); then the embedded structs are searched breadth first, and the
search stops at the shallowest depth that has a member called `name`: one such
member is the result, several cancel each other. -/
def GoFields.fieldByName (name : String) (fs : GoFields) : Nat → Nat → Option StructField
  | 0, _ => none
  | n + 1, d =>
    match fs.namedAt name d with
    | [] => GoFields.fieldByName name fs n (d + 1)
    | [sf] => some sf
    | sf :: _ :: _ => if d = 0 then some sf else none

/-- The result of `Type.FieldByName(name)` on a type of kind `Struct`: the
member of that name, which may be a member promoted from an embedded struct.
No struct is embedded deeper than the nesting depth of the type, so that the
search visits every depth that has members. -/
def GoType.fieldByName (t : GoType) (name : String) : Option StructField :=
  match t.underlying with
  | .struct fs => fs.fieldByName name (fs.depth + 1) 0
  | _ => none

/-- The name of a predeclared type. -/
def Basic.toString (b : Basic) : String := b.kind.toString

mutual
/-- The text of `Type.String()`, which `%v` prints for a `reflect.Type`. -/
def GoType.toString : GoType → String
  | .basic b => b.toString
  | .named n _ => n
  | .ptr e => "*" ++ e.toString
  | .slice e => "[]" ++ e.toString
  | .struct .nil => "struct \x7b\x7d"
  | .struct fs => "struct \x7b" ++ fs.toString ++ " \x7d"
  | .mapStrAny => "map[string]interface \x7b\x7d"
  | .any => "interface \x7b\x7d"
/-- The members of a struct literal as `Type.String()` prints them. -/
def GoFields.toString : GoFields → String
  | .nil => ""
  | .cons n t emb _ .nil => (if emb then " " else " " ++ n ++ " ") ++ t.toString
  | .cons n t emb _ rest =>
    (if emb then " " else " " ++ n ++ " ") ++ t.toString ++ ";" ++ rest.toString
end

/-- Go's assignability of a value of type `v` to a variable of type `t`, as
`reflect.Value.Set` and `reflect.Append` check it: identical types, any type to
an empty interface, or identical underlying types of which one is not named. -/
def assignableTo (v t : GoType) : Bool :=
  decide (v = t) || decide (t.kind = Kind.interface) ||
    (decide (v.underlying = t.underlying) && (!v.isNamed || !t.isNamed))

/-! ## Floating-point numbers -/

/-- A `float64` (or `float32`) value: the exact number `m * 2 ^ e`, an
infinity, or NaN. Negative zero is not distinguished from zero. -/
inductive F64
  | fin (m : Int) (e : Int)
  | inf (neg : Bool)
  | nan

/-- Go's `==` on floats: value equality; NaN equals nothing. -/
def F64.eq : F64 → F64 → Bool
  | .fin m1 e1, .fin m2 e2 =>
    decide (m1 * 2 ^ (e1 - min e1 e2).toNat = m2 * 2 ^ (e2 - min e1 e2).toNat)
  | .inf a, .inf b => a == b
  | _, _ => false

/-- The smallest two's-complement `int64`. -/
def minInt64 : Int := -(2 ^ 63)

/-- Go's `int64(f)`: truncation toward zero. For NaN, the infinities and values
outside the `int64` range the result is implementation-specific; this is the
result on amd64. -/
def F64.toInt64 : F64 → Int
  | .fin m e =>
    let n := if 0 ≤ e then m * 2 ^ e.toNat else Int.tdiv m (2 ^ (-e).toNat)
    if minInt64 ≤ n ∧ n < 2 ^ 63 then n else minInt64
  | _ => minInt64

/-- The least shift `s'` at or above `s` with `a / 2 ^ s' < 2 ^ 53`, looked for
in `fuel` steps. -/
def F64.normShift (a : Nat) : Nat → Nat → Nat
  | 0, s => s
  | fuel + 1, s => if a / 2 ^ s < 2 ^ 53 then s else F64.normShift a fuel (s + 1)

/-- Go's `float64(n)` for an integer `n` of at most 64 bits: `n` rounded to the
nearest number with a 53-bit mantissa, ties to even. -/
def F64.ofInt (n : Int) : F64 :=
  let a := n.natAbs
  let sh := F64.normShift a 11 0
  let q := a / 2 ^ sh
  let r := a % 2 ^ sh
  let half := 2 ^ (sh - 1)
  let q2 := if half < r ∨ (r = half ∧ q % 2 = 1) then q + 1 else q
  .fin (if n < 0 then -(q2 : Int) else (q2 : Int)) sh

/-- Go's conversion of an integer to the two's-complement `int64`/`int`
(`reflect.Value.SetInt` on a 64-bit kind stores the value unchanged when it fits). -/
def wrapInt64 (n : Int) : Int := (n + 2 ^ 63) % 2 ^ 64 - 2 ^ 63

/-! ## Values -/

/-- A Go value together with its dynamic type: what an `interface{}` holds.
`nil` is the nil interface. A slice is its element sequence (a nil slice is the
empty sequence); a map is its entry list. -/
inductive GoVal
  | nil
  | bool (t : GoType) (b : Bool)
  | int (t : GoType) (n : Int)
  | float (t : GoType) (f : F64)
  | str (t : GoType) (s : String)
  | ptr (t : GoType) (target : GoVal)
  | nilPtr (t : GoType)
  | slice (t : GoType) (elems : List GoVal)
  | map (t : GoType) (entries : List (String × GoVal))
  | struct (t : GoType) (members : List (String × GoVal))

/-- The result of `reflect.TypeOf`: `none` for the nil interface. -/
def GoVal.typeOf : GoVal → Option GoType
  | .nil => none
  | .bool t _ => some t
  | .int t _ => some t
  | .float t _ => some t
  | .str t _ => some t
  | .ptr t _ => some t
  | .nilPtr t => some t
  | .slice t _ => some t
  | .map t _ => some t
  | .struct t _ => some t

/-- The type assertion `actual.(string)`. -/
def GoVal.asString : GoVal → Option String
  | .str (.basic .string) s => some s
  | _ => none

/-- The type assertion `actual.(int)`. -/
def GoVal.asInt : GoVal → Option Int
  | .int (.basic .int) n => some n
  | _ => none

/-- The type assertion `actual.(int64)`. -/
def GoVal.asInt64 : GoVal → Option Int
  | .int (.basic .int64) n => some n
  | _ => none

/-- The type assertion `actual.(int32)`. -/
def GoVal.asInt32 : GoVal → Option Int
  | .int (.basic .int32) n => some n
  | _ => none

/-- The type assertion `actual.(float64)`. -/
def GoVal.asFloat64 : GoVal → Option F64
  | .float (.basic .float64) f => some f
  | _ => none

/-- The type assertion `actual.(float32)`. -/
def GoVal.asFloat32 : GoVal → Option F64
  | .float (.basic .float32) f => some f
  | _ => none

/-- The type assertion `actual.(bool)`. -/
def GoVal.asBool : GoVal → Option Bool
  | .bool (.basic .bool) b => some b
  | _ => none

mutual
/-- The zero value of a type whose underlying type is the second argument,
tagged with the first. -/
def zeroAs (tag : GoType) : GoType → GoVal
  | .basic .bool => .bool tag false
  | .basic .string => .str tag ""
  | .basic .float32 => .float tag (.fin 0 0)
  | .basic .float64 => .float tag (.fin 0 0)
  | .basic _ => .int tag 0
  | .named _ u => zeroAs tag u
  | .ptr _ => .nilPtr tag
  | .slice _ => .slice tag []
  | .struct fs => .struct tag (zeroMembers fs)
  | .mapStrAny => .map tag []
  | .any => .nil
/-- The zero values of the members of a struct. -/
def zeroMembers : GoFields → List (String × GoVal)
  | .nil => []
  | .cons n t _ _ rest => (n, zeroAs t t) :: zeroMembers rest
end

/-- The zero value of a type. -/
def zeroOf (t : GoType) : GoVal := zeroAs t t

/-- A `reflect.Value`: the zero Value (`zeroVal`, also `reflect.ValueOf(nil)`),
or a value with its addressability flag. -/
inductive RVal
  | invalid
  | val (v : GoVal) (addressable : Bool)

/-- The result of `Value.Kind()`. -/
def RVal.kind : RVal → Kind
  | .invalid => .invalid
  | .val v _ => match v.typeOf with
    | some t => t.kind
    | none => .invalid

/-- The result of `Value.Type()` (`none` for the zero Value). -/
def RVal.type : RVal → Option GoType
  | .invalid => none
  | .val v _ => v.typeOf

/-- The result of `reflect.ValueOf`. -/
def valueOf : GoVal → RVal
  | .nil => .invalid
  | v => .val v false

/-- The result of `reflect.New(t)`: a pointer to a fresh zero value of `t`. -/
def reflectNew (t : GoType) : RVal := .val (.ptr (.ptr t) (zeroOf t)) false

/-- The result of `Value.Elem()` on a pointer: the addressable target, or the
zero Value for a nil pointer. `none` stands for the panic on a non-pointer. -/
def RVal.elem : RVal → Option RVal
  | .val (.ptr _ target) _ => some (.val target true)
  | .val (.nilPtr _) _ => some .invalid
  | _ => none

/-- The result of `Value.Addr()`: a pointer to an addressable value. `none`
stands for the panic on the zero Value or an unaddressable value. -/
def RVal.addr : RVal → Option RVal
  | .val v true => match v.typeOf with
    | some t => some (.val (.ptr (.ptr t) v) false)
    | none => none
  | _ => none

/-- The effect of `p.Elem().SetString(s)` and its siblings on a pointer `p`
obtained from `reflect.New`: the target is replaced. -/
def RVal.store (p : RVal) (v : GoVal) : RVal :=
  match p with
  | .val (.ptr t _) a => .val (.ptr t v) a
  | other => other

/-- The result of `reflect.Append(s, x)`. `none` stands for the panic when `x`
is the zero Value or its type is not assignable to the element type. -/
def reflectAppend (s x : RVal) : Option RVal :=
  match s, x with
  | .val (.slice t elems) _, .val v _ =>
    match t.elem, v.typeOf with
    | some et, some vt =>
      if assignableTo vt et then some (.val (.slice t (elems ++ [v])) false) else none
    | _, _ => none
  | _, _ => none

/-- The result of `f.Set(x)` for a struct member `f` of type `ft`: the value
stored. `none` stands for the panic when `x` is the zero Value, the member is
not exported, or the type of `x` is not assignable to `ft`. -/
def reflectSet (ft : GoType) (exported : Bool) (x : RVal) : Option GoVal :=
  match x with
  | .invalid => none
  | .val v _ =>
    match v.typeOf with
    | some vt => if exported && assignableTo vt ft then some v else none
    | none => none

/-- The members of the struct that the value of an embedded member gives access
to: those of the struct itself, or of the target of a pointer to a struct.
`none` for a nil pointer. -/
def GoVal.promoted : GoVal → Option (List (String × GoVal))
  | .struct _ ms => some ms
  | .ptr _ (.struct _ ms) => some ms
  | _ => none

/-- The value of an embedded member with the members of its struct replaced. -/
def GoVal.withPromoted : GoVal → List (String × GoVal) → GoVal
  | .struct t _, ms => .struct t ms
  | .ptr t (.struct t2 _), ms => .ptr t (.struct t2 ms)
  | v, _ => v

/-- The result of `Value.FieldByIndex(index)` on a struct with the given
members: the member that the index sequence leads to, through the embedded
structs on the way. `none` stands for the panic of `reflect` on a nil pointer
to an embedded struct (and on an index that the struct does not have). -/
def fieldByIndex : List Nat → List (String × GoVal) → Option GoVal
  | [], _ => none
  | [i], ms =>
    match ms[i]? with
    | some (_, v) => some v
    | none => none
  | i :: j :: rest, ms =>
    match ms[i]? with
    | some (_, v) =>
      match v.promoted with
      | some inner => fieldByIndex (j :: rest) inner
      | none => none
    | none => none

/-- The members of a struct after `Set` on the member that the index sequence
leads to: that member replaced, inside the embedded structs on the way. -/
def setByIndex : List Nat → GoVal → List (String × GoVal) → List (String × GoVal)
  | [], _, ms => ms
  | [i], x, ms =>
    match ms[i]? with
    | some (n, _) => ms.set i (n, x)
    | none => ms
  | i :: j :: rest, x, ms =>
    match ms[i]? with
    | some (n, v) =>
      match v.promoted with
      | some inner => ms.set i (n, v.withPromoted (setByIndex (j :: rest) x inner))
      | none => ms
    | none => ms

/-! ## The schema -/

/-- Modelled from the spec: the `Field` descriptor of the schema (its Go
declaration is in a file of the repository that is not under `src/`). `Typ` is
the Go member `Type`. -/
structure Field where
  Name : String
  Typ : String
  Optional : Bool
  IsArray : Bool
  deriving DecidableEq, Repr

/-- Modelled from the spec: one value of an enum. -/
structure EnumValue where
  Value : String
  Comment : String
  deriving DecidableEq, Repr

/-- Modelled from the spec: a schema struct. `computed` is the map from member
name to `Field` (own and inherited members) that `convertStruct` ranges over. -/
structure Struct where
  Name : String
  Extends : String
  Fields : List Field
  computed : List (String × Field)

/-- Modelled from the spec: the part of the schema root the engine reads, the
maps from enum name to values and from struct name to struct. -/
structure Idl where
  Enums : List (String × List EnumValue)
  Structs : List (String × Struct)

/-! ## The conversion engine (`convert.go`) -/

/-- The error type of the engine. -/
structure TypeError where
  path : String
  msg : String
  deriving DecidableEq, Repr

/-- The method `TypeError.Error`. -/
def TypeError.Error (e : TypeError) : String :=
  "barrister: " ++ e.path ++ ": " ++ e.msg

/-- What a call of the engine ends with: `(value, nil)`, `(zeroVal, err)`, or a
run-time panic raised by `reflect`. -/
inductive Outcome
  | ok (v : RVal)
  | error (e : TypeError)
  | panic

/-- The function `capitalize`: the first byte upper-cased, the rest unchanged.
A first character outside ASCII is cut by the byte slice `s[0:1]`:
`strings.ToUpper` turns the cut first byte into U+FFFD, and the remaining bytes
of the character follow it as bytes that encode nothing. A byte that encodes
nothing is written U+FFFD here, which is how Go itself reads it when it ranges
over the string; so a character of `k` bytes becomes `k` times U+FFFD. (No
member of a Go struct has U+FFFD in its name, so that such a result names no
member.) -/
def capitalize (s : String) : String :=
  match s.data with
  | [] => s
  | c :: rest =>
    if c.val < 128 then ⟨c.toUpper :: rest⟩
    else ⟨List.replicate c.utf8Size (Char.ofNat 0xFFFD) ++ rest⟩

/-- The method `convertedVal`. -/
def convertedVal (desirePtr : Bool) (converted : RVal) : Outcome :=
  if desirePtr || converted.kind != Kind.ptr then .ok converted
  else
    match converted.elem with
    | some v => .ok v
    | none => .panic

/-- The method `returnVal`. -/
def returnVal (field : Field) (path : String) (desirePtr : Bool) (converted : RVal)
    (convertedType : String) : Outcome :=
  if field.Typ ≠ convertedType then
    .error ⟨path, "Type mismatch for '" ++ path ++ "' - Expected: " ++ field.Typ ++
      " Got: " ++ convertedType⟩
  else convertedVal desirePtr converted

/-- What `%v` prints for an `EnumValue`. -/
def fmtEnumValue (ev : EnumValue) : String :=
  "\x7b" ++ ev.Value ++ " " ++ ev.Comment ++ "\x7d"

/-- What `%v` prints for a `[]EnumValue`. -/
def fmtEnum (enum : List EnumValue) : String :=
  "[" ++ " ".intercalate (enum.map fmtEnumValue) ++ "]"

/-- The text `goal` that `Run` builds for its last error message. -/
def goalText (path : String) (actType desired : GoType) : String :=
  "convert: " ++ path ++ " - " ++ actType.kind.toString ++ " to " ++ desired.toString

/-- The pointer test of `Run`: for a desired type of kind `Ptr`, `desirePtr` is
set and the desired type becomes its element type. -/
def stripPtr (desired : GoType) : Bool × GoType :=
  match desired.underlying with
  | .ptr e => (true, e)
  | _ => (false, desired)

/-- The assignment of a converted member in `convertStruct` (the four-way
`f.Set`): the value stored in the member of type `ft`, `none` for a panic. -/
def assignMember (ft : GoType) (exported : Bool) (conv : RVal) : Option GoVal :=
  if ft.kind = Kind.ptr then
    if conv.kind = Kind.ptr then reflectSet ft exported conv
    else
      match conv.addr with
      | some a => reflectSet ft exported a
      | none => none
  else
    if conv.kind = Kind.ptr then
      match conv.elem with
      | some e => reflectSet ft exported e
      | none => none
    else reflectSet ft exported conv

/-- The loop of `convertStruct` over the computed fields, from a given point on,
and the final `convertedVal`. `members` are the members of the record under
construction (`val.Elem()`); `run sField type fname` is the nested
`fieldConv.Run()` on `m[fname]`, `none` when `m` has no key `fname`.
`val.Elem().FieldByName(goName)` is the lookup of `goName` in the type of the
record followed by `FieldByIndex`; the member found can be set when it is
exported, whatever the embedded members on the way to it. -/
def convertStructFrom (field : Field) (desired : GoType) (desirePtr : Bool) (path : String)
    (run : Field → GoType → String → Option Outcome) :
    List (String × Field) → List (String × GoVal) → Outcome
  | [], members =>
    convertedVal desirePtr (.val (.ptr (.ptr desired) (.struct desired members)) false)
  | (fname, sField) :: rest, members =>
    let found : Option (String × StructField) :=
      match desired.fieldByName fname with
      | some sf => some (fname, sf)
      | none =>
        match desired.fieldByName (capitalize fname) with
        | some sf => some (capitalize fname, sf)
        | none => none
    match found with
    | none =>
      .error ⟨path, "Struct: " ++ desired.toString ++ " is missing required field: " ++ fname⟩
    | some (goName, structField) =>
      match run sField structField.Typ fname with
      | none =>
        if !sField.Optional then
          .error ⟨path, "Struct value: " ++ field.Typ ++ " is missing required field: " ++ fname⟩
        else convertStructFrom field desired desirePtr path run rest members
      | some (.error e) => .error e
      | some .panic => .panic
      | some (.ok conv) =>
        match desired.fieldByName goName with
        | none =>
          .error ⟨path, "Instance: " ++ field.Typ ++ " is missing required field: " ++ goName⟩
        | some f =>
          match fieldByIndex f.Index members with
          | none => .panic
          | some _ =>
            match assignMember f.Typ f.exported conv with
            | none => .panic
            | some v =>
              convertStructFrom field desired desirePtr path run rest
                (setByIndex f.Index v members)

/-- The method `convertStruct`, given the nested conversion `run`. -/
def convertStruct (idl : Idl) (field : Field) (desired : GoType) (desirePtr : Bool)
    (path : String) (run : Field → GoType → String → Option Outcome) : Outcome :=
  match idl.Structs.lookup field.Typ with
  | none => .error ⟨path, "Struct not found in IDL: " ++ field.Typ⟩
  | some idlStruct =>
    match zeroOf desired with
    | .struct _ members =>
      convertStructFrom field desired desirePtr path run idlStruct.computed members
    | _ => .panic

/-- The body of the method `Convert.Run`, with its two nested conversions
supplied by the caller: `convSlice desired desirePtr` is the call of
`convertSlice` and `convStruct desired desirePtr` the call of `convertStruct`
(on the desired type with the pointer removed); each is `none` when the source
is not a slice, respectively not a `map[string]interface{}`. -/
def runWith (idl : Idl) (field : Field) (desired : GoType) (actual : GoVal) (path : String)
    (convSlice convStruct : GoType → Bool → Option Outcome) : Outcome :=
  match actual.typeOf with
  | none =>
    if desired.kind = Kind.ptr then
      if field.Optional then .ok (valueOf GoVal.nil)
      else .error ⟨path, "null not allowed"⟩
    else .error ⟨path, "Unable to convert nil to non-pointer"⟩
  | some actType =>
    if actType = desired then .ok (valueOf actual)
    else
      let desirePtr := (stripPtr desired).1
      let desired2 := (stripPtr desired).2
      let kind := desired2.kind
      let converted := reflectNew desired2
      let fail : Outcome := .error ⟨path, "Unable to " ++ goalText path actType desired⟩
      match (if actType.kind = kind ∧ kind = Kind.string then actual.asString else none) with
      | some s =>
        if field.Typ ≠ "string" then
          match idl.Enums.lookup field.Typ with
          | some enum =>
            if enum.any (fun enumVal => enumVal.Value == s) then
              convertedVal desirePtr (converted.store (.str desired2 s))
            else
              .error ⟨path, "Value " ++ s ++ " not in enum values: " ++ fmtEnum enum⟩
          | none => returnVal field path desirePtr converted "string"
        else returnVal field path desirePtr converted "string"
      | none =>
        match kind with
        | .string =>
          match actual.asString with
          | some _ => returnVal field path desirePtr converted "string"
          | none => fail
        | .int =>
          match actual.asInt with
          | some s =>
            returnVal field path desirePtr (converted.store (.int desired2 (wrapInt64 s))) "int"
          | none =>
            match actual.asInt64 with
            | some s2 =>
              returnVal field path desirePtr (converted.store (.int desired2 (wrapInt64 s2))) "int"
            | none => fail
        | .int64 =>
          match actual.asInt64 with
          | some s =>
            returnVal field path desirePtr (converted.store (.int desired2 (wrapInt64 s))) "int"
          | none =>
            match actual.asInt with
            | some s2 =>
              returnVal field path desirePtr (converted.store (.int desired2 (wrapInt64 s2))) "int"
            | none =>
              match actual.asFloat64 with
              | some s3 =>
                if (F64.ofInt s3.toInt64).eq s3 then
                  returnVal field path desirePtr (converted.store (.int desired2 s3.toInt64)) "int"
                else fail
              | none => fail
        | .float32 =>
          match actual.asFloat32 with
          | some s => returnVal field path desirePtr (converted.store (.float desired2 s)) "float"
          | none => fail
        | .float64 =>
          match actual.asFloat64 with
          | some s => returnVal field path desirePtr (converted.store (.float desired2 s)) "float"
          | none =>
            match actual.asFloat32 with
            | some s3 =>
              returnVal field path desirePtr (converted.store (.float desired2 s3)) "float"
            | none =>
              match actual.asInt with
              | some s4 =>
                returnVal field path desirePtr
                  (converted.store (.float desired2 (F64.ofInt s4))) "float"
              | none =>
                match actual.asInt64 with
                | some s5 =>
                  returnVal field path desirePtr
                    (converted.store (.float desired2 (F64.ofInt s5))) "float"
                | none =>
                  match actual.asInt32 with
                  | some s6 =>
                    returnVal field path desirePtr
                      (converted.store (.float desired2 (F64.ofInt s6))) "float"
                  | none => fail
        | .bool =>
          match actual.asBool with
          | some b => returnVal field path desirePtr (converted.store (.bool desired2 b)) "bool"
          | none => fail
        | .slice =>
          match convSlice desired2 desirePtr with
          | some r => r
          | none => fail
        | .struct =>
          match convStruct desired2 desirePtr with
          | some r => r
          | none => fail
        | _ => fail

mutual
/-- The method `Convert.Run` on `NewConvert(idl, field, desired, actual, path)`:
`runWith` with `convertSlice` run on a source of kind `Slice` and
`convertStruct` on a source that is a `map[string]interface{}`. -/
def Run (idl : Idl) (field : Field) (desired : GoType) (actual : GoVal) (path : String) :
    Outcome :=
  runWith idl field desired actual path
    (fun desired2 desirePtr =>
      match actual with
      | .slice _ elems =>
        match desired2.elem with
        | some sliceType =>
          some (convertSliceFrom idl
            { Name := field.Name, Typ := field.Typ, Optional := field.Optional,
              IsArray := false }
            sliceType desirePtr path elems 0 (.val (zeroOf desired2) true))
        | none => some .panic
      | _ => none)
    (fun desired2 desirePtr =>
      match actual with
      | .map t m =>
        if t = GoType.mapStrAny then
          some (convertStruct idl field desired2 desirePtr path
            (fun sField type fname => runKey idl sField type (path ++ "." ++ fname) fname m))
        else none
      | _ => none)
/-- The loop of `convertSlice` from index `x` on, with the slice built so far,
and the final `convertedVal`. -/
def convertSliceFrom (idl : Idl) (elemField : Field) (sliceType : GoType) (desirePtr : Bool)
    (path : String) : List GoVal → Nat → RVal → Outcome
  | [], _, slice => convertedVal desirePtr slice
  | el :: rest, x, slice =>
    match Run idl elemField sliceType el (path ++ "[" ++ toString x ++ "]") with
    | .error err => .error err
    | .panic => .panic
    | .ok conv =>
      match reflectAppend slice conv with
      | none => .panic
      | some slice2 => convertSliceFrom idl elemField sliceType desirePtr path rest (x + 1) slice2
/-- The lookup `m[fname]` followed by the nested `Run` on the value found;
`none` when the map has no such key. -/
def runKey (idl : Idl) (sField : Field) (type : GoType) (path : String) (fname : String) :
    List (String × GoVal) → Option Outcome
  | [] => none
  | (k, v) :: rest =>
    if fname == k then some (Run idl sField type v path)
    else runKey idl sField type path fname rest
end

/-- The method `convertSlice` on a source sequence `elems`, for a desired type
`desired` of kind `Slice` (the pointer already removed). -/
def convertSlice (idl : Idl) (field : Field) (desired : GoType) (desirePtr : Bool)
    (path : String) (elems : List GoVal) : Outcome :=
  match desired.elem with
  | some sliceType =>
    convertSliceFrom idl
      { Name := field.Name, Typ := field.Typ, Optional := field.Optional, IsArray := false }
      sliceType desirePtr path elems 0 (.val (zeroOf desired) true)
  | none => .panic

/-! ## Notions used to state the properties -/

/-- The integer kinds. -/
def Kind.isInteger : Kind → Bool
  | .int | .int8 | .int16 | .int32 | .int64 => true
  | .uint | .uint8 | .uint16 | .uint32 | .uint64 => true
  | _ => false

/-- The signed integer kinds. -/
def Kind.isSignedInt : Kind → Bool
  | .int | .int8 | .int16 | .int32 | .int64 => true
  | _ => false

/-- The floating-point kinds. -/
def Kind.isFloat : Kind → Bool
  | .float32 | .float64 => true
  | _ => false

/-- The integer a result holds, directly or behind a pointer. -/
def RVal.intValue : RVal → Option Int
  | .val (.int _ n) _ => some n
  | .val (.ptr _ (.int _ n)) _ => some n
  | _ => none

/-- The source/desired combinations that a rule of `Run` handles: null
handling, the identity shortcut, and, by the kind of the desired type with the
pointer removed, the scalar rules, the array rule and the struct rule. -/
def ruleApplies (desired : GoType) (actual : GoVal) : Bool :=
  match actual.typeOf with
  | none => true
  | some actType =>
    decide (actType = desired) ||
      match (stripPtr desired).2.kind with
      | .string => actual.asString.isSome
      | .int => actual.asInt.isSome || actual.asInt64.isSome
      | .int64 =>
        actual.asInt64.isSome || actual.asInt.isSome ||
          match actual.asFloat64 with
          | some s3 => (F64.ofInt s3.toInt64).eq s3
          | none => false
      | .float32 => actual.asFloat32.isSome
      | .float64 =>
        actual.asFloat64.isSome || actual.asFloat32.isSome || actual.asInt.isSome ||
          actual.asInt64.isSome || actual.asInt32.isSome
      | .bool => actual.asBool.isSome
      | .slice =>
        match actual with
        | .slice _ _ => true
        | _ => false
      | .struct =>
        match actual with
        | .map t _ => decide (t = GoType.mapStrAny)
        | _ => false
      | _ => false

/-- The elements `elems`, at the indices from `x` on, all convert against
`elemField` and the element type `sliceType` to values that `reflect.Append`
accepts (valid, of a type assignable to `sliceType`); `vs` are the converted
values, in order. -/
inductive ElemsConvert (idl : Idl) (elemField : Field) (sliceType : GoType) (path : String) :
    Nat → List GoVal → List GoVal → Prop
  | nil (x : Nat) : ElemsConvert idl elemField sliceType path x [] []
  | cons (x : Nat) (el v : GoVal) (a : Bool) (vt : GoType) (rest vs : List GoVal)
      (hrun : Run idl elemField sliceType el (path ++ "[" ++ toString x ++ "]") =
        Outcome.ok (RVal.val v a))
      (htype : v.typeOf = some vt) (hassign : assignableTo vt sliceType = true)
      (hrest : ElemsConvert idl elemField sliceType path (x + 1) rest vs) :
      ElemsConvert idl elemField sliceType path x (el :: rest) (v :: vs)

/-- One step of a path below a value: the array index `[i]` or the member
`.name`. -/
inductive Seg
  | index (i : Nat)
  | member (name : String)

/-- The text a step adds to a path. -/
def Seg.text : Seg → String
  | .index i => "[" ++ toString i ++ "]"
  | .member name => "." ++ name

/-- The text a sequence of steps adds to a path. -/
def segsText : List Seg → String
  | [] => ""
  | s :: rest => s.text ++ segsText rest

/-- The sub-value of a source value that a sequence of steps leads to: through
the elements of slices and the entries of maps. -/
def subValue : List Seg → GoVal → Option GoVal
  | [], v => some v
  | .index i :: rest, .slice _ elems =>
    match elems[i]? with
    | some el => subValue rest el
    | none => none
  | .member name :: rest, .map _ m =>
    match m.lookup name with
    | some v => subValue rest v
    | none => none
  | _, _ => none

/-- The member of the target record that `convertStruct` uses for the schema
field `fname`, under the name it is found by: the member called `fname`, else
the member called `capitalize fname`. -/
def targetMember (desired : GoType) (fname : String) : Option (String × StructField) :=
  match desired.fieldByName fname with
  | some sf => some (fname, sf)
  | none =>
    match desired.fieldByName (capitalize fname) with
    | some sf => some (capitalize fname, sf)
    | none => none

/-- The index sequence of the member of the target record used for the schema
field `fname`. -/
def targetIndex (desired : GoType) (fname : String) : Option (List Nat) :=
  (targetMember desired fname).map (fun p => p.2.Index)

/-- Two index sequences lead to members that have no storage in common: they
differ at a position that both have, so that neither member is the other or
lies inside the other. -/
def apart : List Nat → List Nat → Bool
  | i :: is, j :: js => if i = j then apart is js else true
  | _, _ => false

/-- The value a struct member holds once the result of a conversion has been
set into it: the converted value itself, a pointer to it (member of pointer
type, result not a pointer), or the target of it (result a pointer, member not
of pointer type). -/
inductive MemberHolds : RVal → GoVal → Prop
  | same (v : GoVal) (a : Bool) : MemberHolds (RVal.val v a) v
  | addr (v : GoVal) (t : GoType) : MemberHolds (RVal.val v true) (GoVal.ptr t v)
  | elem (v : GoVal) (t : GoType) (a : Bool) : MemberHolds (RVal.val (GoVal.ptr t v) a) v

/-- The nested conversion that `Run` hands to `convertStruct` for the source
map `m`: the lookup `m[fname]` and the `Run` of the value found, at the path
extended by `.fname`. -/
def runMember (idl : Idl) (path : String) (m : List (String × GoVal)) :
    Field → GoType → String → Option Outcome :=
  fun sField type fname => runKey idl sField type (path ++ "." ++ fname) fname m

/-- The shapes a result can have: the desired type, or, for a desired pointer,
a pointer to the element type or (for a slice) the element type itself. -/
def ResultShape (desired : GoType) (r : RVal) : Prop :=
  r.type = some desired ∨
    ((stripPtr desired).1 = true ∧
      (r.type = some (GoType.ptr (stripPtr desired).2) ∨
        ((stripPtr desired).2.kind = Kind.slice ∧ r.type = some (stripPtr desired).2)))

/-- Two schema fields do not share storage of the target record: when both have
a member there, the two members are apart (they are not the same member, and
neither is a member of an embedded struct that is the other). -/
def DistinctTargets (desired : GoType) (p q : String × Field) : Prop :=
  (match targetIndex desired p.1, targetIndex desired q.1 with
    | some i, some j => apart i j
    | _, _ => true) = true

/-- No two of the schema fields share storage of the target record. -/
def NoSharedMember (desired : GoType) (fields : List (String × Field)) : Prop :=
  fields.Pairwise (DistinctTargets desired)

/-- What one iteration of the loop of `convertStruct` does to the record when it
neither fails nor panics: nothing (`some none`, the key is absent and the field
optional) or the assignment of a value to a member. `none` when the iteration
fails or panics. -/
def fieldAction (desired : GoType) (run : Field → GoType → String → Option Outcome)
    (p : String × Field) : Option (Option (List Nat × GoVal)) :=
  match targetMember desired p.1 with
  | none => none
  | some (_, sf) =>
    match run p.2 sf.Typ p.1 with
    | none => if p.2.Optional then some none else none
    | some (.ok conv) =>
      match assignMember sf.Typ sf.exported conv with
      | some v => some (some (sf.Index, v))
      | none => none
    | some _ => none

/-- The members of the record after an action of an iteration; `none` when the
member assigned to cannot be reached. -/
def applyAction (members : List (String × GoVal)) :
    Option (List Nat × GoVal) → Option (List (String × GoVal))
  | none => some members
  | some (index, v) =>
    match fieldByIndex index members with
    | some _ => some (setByIndex index v members)
    | none => none

/-- The position of the offending sub-value below a source map, following the
loop of `convertStruct` over the computed fields from a given point on: the
first computed field, in the order of the loop, at which the loop fails. When
the value under the key of that field fails to convert, the position is
`.fname` followed by the position below that value (`sub`); when the target
record has no member for the field, or the field is required and the map has no
key for it, the map itself offends and the position is empty. -/
def offendingFrom (desired : GoType) (run : Field → GoType → String → Option Outcome)
    (sub : Field → GoType → String → List Seg) : List (String × Field) → List Seg
  | [] => []
  | (fname, sField) :: rest =>
    match targetMember desired fname with
    | none => []
    | some (_, sf) =>
      match run sField sf.Typ fname with
      | none => if sField.Optional then offendingFrom desired run sub rest else []
      | some (.error _) => Seg.member fname :: sub sField sf.Typ fname
      | some _ => offendingFrom desired run sub rest

mutual
/-- The position of the offending sub-value below a source value that does not
convert: for a slice converted to a slice, `[i]` for the first element, in
index order, whose conversion fails, followed by the position below that
element; for a map converted to a struct, the position that the loop over the
computed fields gives; in every other case the value itself offends and the
position is empty. -/
def offending (idl : Idl) (field : Field) (desired : GoType) (actual : GoVal) (path : String) :
    List Seg :=
  match actual with
  | .slice t elems =>
    if t ≠ desired ∧ (stripPtr desired).2.kind = Kind.slice then
      match (stripPtr desired).2.elem with
      | some sliceType =>
        offendingElem idl
          { Name := field.Name, Typ := field.Typ, Optional := field.Optional, IsArray := false }
          sliceType path elems 0
      | none => []
    else []
  | .map t m =>
    if t = GoType.mapStrAny ∧ t ≠ desired ∧ (stripPtr desired).2.kind = Kind.struct then
      match idl.Structs.lookup field.Typ with
      | some idlStruct =>
        offendingFrom (stripPtr desired).2
          (fun sField type fname => runKey idl sField type (path ++ "." ++ fname) fname m)
          (fun sField type fname => offendingKey idl sField type (path ++ "." ++ fname) fname m)
          idlStruct.computed
      | none => []
    else []
  | _ => []
/-- The position below a slice, from index `x` on: the first element whose
conversion fails. -/
def offendingElem (idl : Idl) (elemField : Field) (sliceType : GoType) (path : String) :
    List GoVal → Nat → List Seg
  | [], _ => []
  | el :: rest, x =>
    match Run idl elemField sliceType el (path ++ "[" ++ toString x ++ "]") with
    | .error _ =>
      Seg.index x :: offending idl elemField sliceType el (path ++ "[" ++ toString x ++ "]")
    | _ => offendingElem idl elemField sliceType path rest (x + 1)
/-- The position below the value that a map has under the key `fname`. -/
def offendingKey (idl : Idl) (sField : Field) (type : GoType) (path : String) (fname : String) :
    List (String × GoVal) → List Seg
  | [] => []
  | (k, v) :: rest =>
    if fname == k then offending idl sField type v path
    else offendingKey idl sField type path fname rest
end

/-! ## The generator (`generate.go`) -/

/-- The variable `reservedWords`. -/
def reservedWords : List String :=
  ["break", "default", "func", "interface", "select",
    "case", "defer", "go", "map", "struct",
    "chan", "else", "goto", "package", "switch",
    "const", "fallthrough", "if", "range", "type",
    "continue", "for", "import", "return", "var"]

/-- The loop of `escReserved` over the words not yet compared. -/
def escReservedFrom (s : String) : List String → String
  | [] => s
  | word :: rest => if word = s then "_" ++ s else escReservedFrom s rest

/-- The function `escReserved`. -/
def escReserved (s : String) : String := escReservedFrom s reservedWords

/-- Modelled from the spec: a method of an interface (its Go declaration is in
a file of the repository that is not under `src/`). -/
structure Function where
  Name : String
  Params : List Field
  Returns : Field

/-- Go's `strings.ToLower` on a string whose upper-case letters are all ASCII
letters: these are lower-cased and every other character is kept. (An
upper-case letter outside ASCII, which `strings.ToLower` would lower-case as
well, is kept as it is.) -/
def toLower (s : String) : String := ⟨s.data.map Char.toLower⟩

/-- The order of Go strings (`sort.Strings`): lexicographic in the code points,
which is the order of the UTF-8 bytes. -/
def strLe : List Char → List Char → Bool
  | [], _ => true
  | _ :: _, [] => false
  | a :: as, b :: bs =>
    if a.toNat < b.toNat then true
    else if b.toNat < a.toNat then false
    else strLe as bs

/-- The function `sortedKeys`: the keys of the map, sorted. -/
def sortedKeys (m : List (String × List Function)) : List String :=
  (m.map Prod.fst).insertionSort (fun a b => strLe a.data b.data = true)

/-- The function `line`: the buffer with `level` tabs, `s` and a newline added. -/
def line (b : String) (level : Nat) (s : String) : String :=
  b ++ String.mk (List.replicate level (Char.ofNat 9)) ++ s ++ "\n"

/-- The first loop of `generateNewServer`, from a given key on: the parameter
list `ifaces` and the argument list `ifaceIdents`. -/
def newServerParams : List String → String × String → String × String
  | [], acc => acc
  | name :: rest, (ifaces, ifaceIdents) =>
    let upper := capitalize name
    let lower := escReserved (toLower name)
    newServerParams rest (ifaces ++ ", " ++ lower ++ " " ++ upper, ifaceIdents ++ ", " ++ lower)

/-- The second loop of `generateNewServer`, from a given key on: one
`_svr.AddHandler` line for each interface. -/
def addHandlerLines : List String → String → String
  | [], b => b
  | name :: rest, b =>
    let lower := toLower name
    addHandlerLines rest (line b 1 ("_svr.AddHandler(\x22" ++ name ++ "\x22, " ++ lower ++ ")"))

/-- The method `generateNewServer` on the interfaces of the schema: the text it
adds to the buffer `b`. -/
def generateNewServer (interfaces : List (String × List Function)) (b : String) : String :=
  let ifaceKeys := sortedKeys interfaces
  let ifaces := (newServerParams ifaceKeys ("", "")).1
  let ifaceIdents := (newServerParams ifaceKeys ("", "")).2
  let b1 := line b 0 ("func NewJSONServer(idl *barrister.Idl, forceASCII bool" ++ ifaces ++
    ") barrister.Server \x7b")
  let b2 := line b1 1 ("return NewServer(idl, &barrister.JsonSerializer\x7bforceASCII\x7d" ++
    ifaceIdents ++ ")")
  let b3 := line b2 0 "\x7d\n"
  let b4 := line b3 0 ("func NewServer(idl *barrister.Idl, ser barrister.Serializer" ++ ifaces ++
    ") barrister.Server \x7b")
  let b5 := line b4 1 "_svr := barrister.NewServer(idl, ser)"
  let b6 := addHandlerLines ifaceKeys b5
  let b7 := line b6 1 "return _svr"
  line b7 0 "\x7d"

/-! ## Values used in the examples

The schema and the Go types of `TestConvert` in `barrister_test.go`. -/

/-- The Go type `string`. -/
def tString : GoType := .basic .string

/-- The Go type `int`. -/
def tInt : GoType := .basic .int

/-- The Go type `int32`. -/
def tInt32 : GoType := .basic .int32

/-- The Go type `int64`. -/
def tInt64 : GoType := .basic .int64

/-- The Go type `float64`. -/
def tFloat64 : GoType := .basic .float64

/-- The Go type `float32`. -/
def tFloat32 : GoType := .basic .float32

/-- The Go type `bool`. -/
def tBool : GoType := .basic .bool

/-- The test's `type StringAlias string`. -/
def tStringAlias : GoType := .named "barrister.StringAlias" tString

/-- The test's `strField`. -/
def strField : Field := { Name := "", Typ := "string", Optional := false, IsArray := false }

/-- The test's `enumField`. -/
def enumField : Field := { Name := "", Typ := "StringAlias", Optional := false, IsArray := false }

/-- The test's `arrField`. -/
def arrField : Field := { Name := "", Typ := "float", Optional := false, IsArray := true }

/-- A field of type `int`. -/
def intField : Field := { Name := "", Typ := "int", Optional := false, IsArray := false }

/-- An optional field of type `string`. -/
def optStrField : Field := { Name := "", Typ := "string", Optional := true, IsArray := false }

/-- The schema of the test: the enum `StringAlias` with the values `blah` and `foo`. -/
def testIdl : Idl :=
  { Enums := [("StringAlias", [⟨"blah", ""⟩, ⟨"foo", ""⟩])], Structs := [] }

/-- The test's `type NoNesting struct`. -/
def tNoNesting : GoType :=
  .named "barrister.NoNesting"
    (.struct (.cons "A" tString false true (.cons "B" tInt64 false true
      (.cons "C" tFloat64 false true (.cons "D" tBool false true
        (.cons "E" (.slice tString) false true .nil))))))

/-- The test's `type Nested struct`. -/
def tNested : GoType :=
  .named "barrister.Nested"
    (.struct (.cons "Name" tString false true (.cons "Nest" tNoNesting false true .nil)))

/-- The fields of the test's `noNestStruct`. -/
def noNestFields : List Field :=
  [⟨"a", "string", true, false⟩, ⟨"b", "int", true, false⟩, ⟨"C", "float", true, false⟩,
    ⟨"d", "bool", true, false⟩, ⟨"E", "string", true, true⟩]

/-- The test's `noNestStruct`, with its computed fields. -/
def noNestStruct : Struct :=
  { Name := "NoNesting", Extends := "", Fields := noNestFields,
    computed := noNestFields.map (fun f => (f.Name, f)) }

/-- The fields of the test's `nestStruct`. -/
def nestFields : List Field :=
  [⟨"name", "string", false, false⟩, ⟨"Nest", "NoNesting", false, false⟩]

/-- The test's `nestStruct`, with its computed fields. -/
def nestStruct : Struct :=
  { Name := "Nested", Extends := "", Fields := nestFields,
    computed := nestFields.map (fun f => (f.Name, f)) }

/-- The test's `noNestField`. -/
def noNestField : Field := { Name := "", Typ := "NoNesting", Optional := false, IsArray := true }

/-- The test's `nestField`. -/
def nestField : Field := { Name := "", Typ := "Nested", Optional := false, IsArray := true }

/-- A record with an optional pointer member and a required member:
`type PtrRec struct { P *string; R string }`. -/
def tPtrRec : GoType :=
  .named "barrister.PtrRec"
    (.struct (.cons "P" (.ptr tString) false true (.cons "R" tString false true .nil)))

/-- The fields of the schema struct `PtrRec`: `p` optional, `r` required. -/
def ptrRecFields : List Field :=
  [⟨"p", "string", true, false⟩, ⟨"r", "string", false, false⟩]

/-- The schema struct `PtrRec`. -/
def ptrRecStruct : Struct :=
  { Name := "PtrRec", Extends := "", Fields := ptrRecFields,
    computed := ptrRecFields.map (fun f => (f.Name, f)) }

/-- A field of type `PtrRec`. -/
def ptrRecField : Field := { Name := "", Typ := "PtrRec", Optional := false, IsArray := false }

/-- A record with one member: `type Flag struct { D bool }`. -/
def tFlag : GoType := .named "barrister.Flag" (.struct (.cons "D" tBool false true .nil))

/-- The schema struct `Flag` with the required field `d`. -/
def flagStruct : Struct :=
  { Name := "Flag", Extends := "", Fields := [⟨"d", "bool", false, false⟩],
    computed := [("d", ⟨"d", "bool", false, false⟩)] }

/-- The schema struct `OptFlag` with the optional field `d`. -/
def optFlagStruct : Struct :=
  { Name := "OptFlag", Extends := "", Fields := [⟨"d", "bool", true, false⟩],
    computed := [("d", ⟨"d", "bool", true, false⟩)] }

/-- A record with one member: `type Both struct { A string }`. -/
def tBoth : GoType := .named "barrister.Both" (.struct (.cons "A" tString false true .nil))

/-- The schema struct `Both` with the optional fields `a` and `A`, which share
the member `A` of the target record. -/
def bothStruct : Struct :=
  { Name := "Both", Extends := "", Fields := [⟨"a", "string", true, false⟩,
      ⟨"A", "string", true, false⟩],
    computed := [("a", ⟨"a", "string", true, false⟩), ("A", ⟨"A", "string", true, false⟩)] }

/-- A field of type `Flag`. -/
def flagField : Field := { Name := "", Typ := "Flag", Optional := false, IsArray := false }

/-- A field of type `OptFlag`. -/
def optFlagField : Field := { Name := "", Typ := "OptFlag", Optional := false, IsArray := false }

/-- A field of type `Both`. -/
def bothField : Field := { Name := "", Typ := "Both", Optional := false, IsArray := false }

/-- The schema of the test (`createTestIdl`), with the further structs of the
examples. -/
def structIdl : Idl :=
  { Enums := [("StringAlias", [⟨"blah", ""⟩, ⟨"foo", ""⟩])],
    Structs := [("NoNesting", noNestStruct), ("Nested", nestStruct), ("PtrRec", ptrRecStruct),
      ("Flag", flagStruct), ("OptFlag", optFlagStruct), ("Both", bothStruct)] }

/-- The source type `[]interface{}`. -/
def tAnySlice : GoType := .slice .any

/-- The schema struct `Both` with its computed fields in the other order. -/
def bothStructSwapped : Struct :=
  { Name := "Both", Extends := "", Fields := bothStruct.Fields,
    computed := [("A", ⟨"A", "string", true, false⟩), ("a", ⟨"a", "string", true, false⟩)] }

/-- The schema of the examples with the computed fields of `Both` and of
`NoNesting` in another order. -/
def swappedIdl : Idl :=
  { Enums := structIdl.Enums,
    Structs := [("NoNesting", { noNestStruct with computed := noNestStruct.computed.reverse }),
      ("Both", bothStructSwapped)] }

/-- The record of a schema struct without parent:
`type Base struct { Status string }`. -/
def tBase : GoType := .named "barrister.Base" (.struct (.cons "Status" tString false true .nil))

/-- The record of a schema struct that extends `Base`; the generator embeds the
record of the parent: `type Derived struct { Base; Name string }`. -/
def tDerived : GoType :=
  .named "barrister.Derived"
    (.struct (.cons "Base" tBase true true (.cons "Name" tString false true .nil)))

/-- The schema struct `Base` with the required field `status`. -/
def baseStruct : Struct :=
  { Name := "Base", Extends := "", Fields := [⟨"status", "string", false, false⟩],
    computed := [("status", ⟨"status", "string", false, false⟩)] }

/-- The schema struct `Derived`, which extends `Base` with the optional field
`name`; its computed fields are the inherited field and its own. -/
def derivedStruct : Struct :=
  { Name := "Derived", Extends := "Base", Fields := [⟨"name", "string", true, false⟩],
    computed := [("status", ⟨"status", "string", false, false⟩),
      ("name", ⟨"name", "string", true, false⟩)] }

/-- A field of type `Derived`. -/
def derivedField : Field := { Name := "", Typ := "Derived", Optional := false, IsArray := false }

/-- The schema of the examples with the structs `Base` and `Derived`. -/
def extendsIdl : Idl :=
  { Enums := [], Structs := [("Base", baseStruct), ("Derived", derivedStruct)] }

/-- A schema struct with two computed fields that both lead into the embedded
record `Base` of `Derived`: `status` to its promoted member `Status`, and
`Base` to the embedded record itself. -/
def overlapStruct : Struct :=
  { Name := "Derived", Extends := "",
    Fields := [⟨"status", "string", true, false⟩, ⟨"Base", "Base", true, false⟩],
    computed := [("status", ⟨"status", "string", true, false⟩),
      ("Base", ⟨"Base", "Base", true, false⟩)] }

/-- The schema with the struct `overlapStruct` under the name `Derived`. -/
def overlapIdl : Idl :=
  { Enums := [], Structs := [("Base", baseStruct), ("Derived", overlapStruct)] }

/-- The schema `overlapIdl` with the computed fields of `Derived` in the other
order. -/
def overlapIdlSwapped : Idl :=
  { Enums := [],
    Structs := [("Base", baseStruct),
      ("Derived", { overlapStruct with computed := overlapStruct.computed.reverse })] }

/-- The test's `arrField` with `IsArray` unset. -/
def arrFieldSingular : Field :=
  { Name := "", Typ := "float", Optional := false, IsArray := false }

/-! ## Basic facts about types -/

theorem GoType.underlying_kind : (t : GoType) → t.underlying.kind = t.kind
  | .named _ u => by
    have ih := GoType.underlying_kind u
    simpa [GoType.underlying, GoType.kind] using ih
  | .basic _ => rfl
  | .ptr _ => rfl
  | .slice _ => rfl
  | .struct _ => rfl
  | .mapStrAny => rfl
  | .any => rfl

theorem stripPtr_of_kind_ne_ptr {desired : GoType} (h : desired.kind ≠ Kind.ptr) :
    stripPtr desired = (false, desired) := by
  have hk := GoType.underlying_kind desired
  unfold stripPtr
  split
  · rename_i e he
    rw [he] at hk
    exact absurd hk.symm h
  · rfl

theorem stripPtr_of_underlying_ptr {desired e : GoType} (h : desired.underlying = GoType.ptr e) :
    stripPtr desired = (true, e) := by
  unfold stripPtr
  rw [h]

/-! ## Members of struct types and of records -/

theorem GoType.underlying_depth_le : (t : GoType) → t.underlying.depth ≤ t.depth
  | .named _ u => by
    have ih := GoType.underlying_depth_le u
    simp only [GoType.underlying, GoType.depth]
    omega
  | .basic _ => by simp [GoType.underlying]
  | .ptr _ => by simp [GoType.underlying]
  | .slice _ => by simp [GoType.underlying]
  | .struct _ => by simp [GoType.underlying]
  | .mapStrAny => by simp [GoType.underlying]
  | .any => by simp [GoType.underlying]

theorem GoType.embeddedStruct_depth {t : GoType} {fs : GoFields}
    (h : t.embeddedStruct = some fs) : fs.depth < t.depth := by
  have hu := GoType.underlying_depth_le t
  unfold GoType.embeddedStruct at h
  split at h
  · rename_i fs2 heq
    simp only [Option.some.injEq] at h
    subst h
    rw [heq, GoType.depth] at hu
    omega
  · rename_i e heq
    have hue := GoType.underlying_depth_le e
    rw [heq, GoType.depth] at hu
    split at h
    · rename_i fs2 heq2
      simp only [Option.some.injEq] at h
      subst h
      rw [heq2, GoType.depth] at hue
      omega
    · cases h
  · cases h

theorem GoFields.embedded_depth {j : Nat} {fs2 : GoFields} :
    ∀ (fs : GoFields) (i : Nat), (j, fs2) ∈ fs.embedded i → fs2.depth < fs.depth
  | .nil, i, h => by simp [GoFields.embedded] at h
  | .cons n t emb ex rest, i, h => by
    rw [GoFields.embedded] at h
    rw [GoFields.depth]
    split at h
    · rename_i fs3 heq
      simp only [List.mem_cons, Prod.mk.injEq] at h
      rcases h with ⟨_, h2⟩ | h
      · subst h2
        cases emb with
        | false => simp at heq
        | true =>
          simp only [if_true] at heq
          have := GoType.embeddedStruct_depth heq
          omega
      · have := GoFields.embedded_depth rest (i + 1) h
        omega
    · have := GoFields.embedded_depth rest (i + 1) h
      omega

/-- Below the nesting depth of a struct there are no members: the search of
`FieldByName` through the depths up to the nesting depth misses none. -/
theorem GoFields.namedAt_eq_nil (name : String) :
    ∀ (d : Nat) (fs : GoFields), fs.depth < d → fs.namedAt name d = []
  | 0, fs, h => by omega
  | d + 1, fs, h => by
    rw [GoFields.namedAt]
    simp only [List.flatten_eq_nil_iff, List.mem_map, forall_exists_index, and_imp,
      forall_apply_eq_imp_iff₂, List.map_eq_nil_iff]
    intro p hp
    have := @GoFields.embedded_depth p.1 p.2 fs 0 hp
    exact GoFields.namedAt_eq_nil name d p.2 (by omega)

theorem GoFields.fieldByName_of_namedAt_nil (name : String) (fs : GoFields) :
    ∀ (n d : Nat), (∀ d2, d ≤ d2 → fs.namedAt name d2 = []) → fs.fieldByName name n d = none
  | 0, d, _ => by rw [GoFields.fieldByName]
  | n + 1, d, h => by
    rw [GoFields.fieldByName, h d (Nat.le_refl d)]
    exact GoFields.fieldByName_of_namedAt_nil name fs n (d + 1) (fun d2 hd => h d2 (by omega))

/-- More depths than the nesting depth of the struct change nothing in the
result of the search of `FieldByName`. -/
theorem GoFields.fieldByName_more (name : String) (fs : GoFields) (k : Nat) :
    ∀ (n d : Nat), fs.depth < d + n →
      fs.fieldByName name (n + k) d = fs.fieldByName name n d
  | 0, d, h => by
    rw [GoFields.fieldByName]
    apply GoFields.fieldByName_of_namedAt_nil
    intro d2 hd
    exact GoFields.namedAt_eq_nil name d2 fs (by omega)
  | n + 1, d, h => by
    have e : n + 1 + k = (n + k) + 1 := by omega
    rw [e, GoFields.fieldByName, GoFields.fieldByName]
    rw [GoFields.fieldByName_more name fs k n (d + 1) (by omega)]

theorem apart_symm : ∀ (p q : List Nat), apart p q = apart q p
  | [], [] => rfl
  | [], _ :: _ => rfl
  | _ :: _, [] => rfl
  | i :: is, j :: js => by
    rw [apart, apart]
    by_cases h : i = j
    · subst h
      simp [apart_symm is js]
    · have h2 : ¬ j = i := fun e => h e.symm
      simp [h, h2]

theorem getElem?_lt {α : Type} {l : List α} {i : Nat} {a : α} (h : l[i]? = some a) :
    i < l.length := by
  rcases Nat.lt_or_ge i l.length with hl | hl
  · exact hl
  · rw [List.getElem?_eq_none hl] at h
    cases h

theorem GoVal.promoted_withPromoted {v : GoVal} {a ms : List (String × GoVal)}
    (h : v.promoted = some a) : (v.withPromoted ms).promoted = some ms := by
  unfold GoVal.promoted at h
  split at h
  · rfl
  · rfl
  · cases h

theorem GoVal.withPromoted_withPromoted (v : GoVal) (ms ms2 : List (String × GoVal)) :
    (v.withPromoted ms).withPromoted ms2 = v.withPromoted ms2 := by
  cases v with
  | struct t m => rfl
  | ptr t target => cases target <;> rfl
  | _ => rfl

theorem fieldByIndex_setByIndex_same (x : GoVal) :
    ∀ (p : List Nat) (ms : List (String × GoVal)) (old : GoVal),
      fieldByIndex p ms = some old → fieldByIndex p (setByIndex p x ms) = some x
  | [], ms, old, h => by simp [fieldByIndex] at h
  | [i], ms, old, h => by
    rw [fieldByIndex] at h
    rw [setByIndex]
    cases hi : ms[i]? with
    | none => simp [hi] at h
    | some nv =>
      have hlt := getElem?_lt hi
      simp [fieldByIndex, List.getElem?_set, hlt]
  | i :: j :: rest, ms, old, h => by
    rw [fieldByIndex] at h
    rw [setByIndex]
    cases hi : ms[i]? with
    | none => simp [hi] at h
    | some nv =>
      obtain ⟨n, v⟩ := nv
      have hlt := getElem?_lt hi
      simp only [hi] at h ⊢
      cases hp : v.promoted with
      | none => simp [hp] at h
      | some inner =>
        simp only [hp] at h ⊢
        rw [fieldByIndex]
        simp only [List.getElem?_set, List.length_set, hlt, ↓reduceIte,
          GoVal.promoted_withPromoted hp]
        exact fieldByIndex_setByIndex_same x (j :: rest) inner old h

theorem setByIndex_getElem?_ne (x : GoVal) {i j : Nat} (hij : ¬ i = j) (is : List Nat)
    (ms : List (String × GoVal)) : (setByIndex (i :: is) x ms)[j]? = ms[j]? := by
  cases is with
  | nil =>
    rw [setByIndex]
    split
    · rw [List.getElem?_set]
      simp [hij]
    · rfl
  | cons k rest =>
    rw [setByIndex]
    split
    · split
      · rw [List.getElem?_set]
        simp [hij]
      · rfl
    · rfl

theorem fieldByIndex_congr_getElem? {i : Nat} {ms ms2 : List (String × GoVal)}
    (h : ms2[i]? = ms[i]?) (is : List Nat) :
    fieldByIndex (i :: is) ms2 = fieldByIndex (i :: is) ms := by
  cases is with
  | nil => rw [fieldByIndex, fieldByIndex, h]
  | cons k rest => rw [fieldByIndex, fieldByIndex, h]

theorem fieldByIndex_setByIndex_apart (x : GoVal) :
    ∀ (p q : List Nat) (ms : List (String × GoVal)), apart p q = true →
      fieldByIndex q (setByIndex p x ms) = fieldByIndex q ms
  | [], q, ms, h => by simp [apart] at h
  | _ :: _, [], ms, h => by simp [apart] at h
  | i :: is, j :: js, ms, h => by
    by_cases hij : i = j
    · subst hij
      rw [apart] at h
      simp only [if_true] at h
      cases is with
      | nil => simp [apart] at h
      | cons a as =>
        cases js with
        | nil => simp [apart] at h
        | cons b bs =>
          rw [setByIndex]
          cases hi : ms[i]? with
          | none => rfl
          | some nv =>
            obtain ⟨n, v⟩ := nv
            have hlt := getElem?_lt hi
            simp only []
            cases hp : v.promoted with
            | none => rfl
            | some inner =>
              simp only []
              rw [fieldByIndex, fieldByIndex]
              simp only [List.getElem?_set, List.length_set, hlt, ↓reduceIte, hi, hp,
                GoVal.promoted_withPromoted hp]
              exact fieldByIndex_setByIndex_apart x (a :: as) (b :: bs) inner h
    · exact fieldByIndex_congr_getElem? (setByIndex_getElem?_ne x hij is ms) js

theorem setByIndex_cons_cons {ms : List (String × GoVal)} {i : Nat} {n : String} {v : GoVal}
    {inner : List (String × GoVal)} (hi : ms[i]? = some (n, v)) (hp : v.promoted = some inner)
    (j : Nat) (rest : List Nat) (x : GoVal) :
    setByIndex (i :: j :: rest) x ms =
      ms.set i (n, v.withPromoted (setByIndex (j :: rest) x inner)) := by
  rw [setByIndex]
  simp only [hi, hp]

theorem set_of_getElem? {α : Type} {l : List α} {i : Nat} {a : α} (h : l[i]? = some a) :
    l.set i a = l := by
  apply List.ext_getElem?
  intro k
  rw [List.getElem?_set]
  split
  · rename_i hk
    subst hk
    simp [getElem?_lt h, h]
  · rfl

theorem setByIndex_eq_set (i : Nat) (is : List Nat) (x : GoVal) :
    ∃ f : String × GoVal → String × GoVal, ∀ ms : List (String × GoVal),
      setByIndex (i :: is) x ms =
        match ms[i]? with
        | some nv => ms.set i (f nv)
        | none => ms := by
  cases is with
  | nil =>
    refine ⟨fun nv => (nv.1, x), fun ms => ?_⟩
    rw [setByIndex]
    cases hi : ms[i]? with
    | none => rfl
    | some nv => rfl
  | cons k rest =>
    refine ⟨fun nv =>
      match nv.2.promoted with
      | some inner => (nv.1, nv.2.withPromoted (setByIndex (k :: rest) x inner))
      | none => nv, fun ms => ?_⟩
    rw [setByIndex]
    cases hi : ms[i]? with
    | none => rfl
    | some nv =>
      obtain ⟨n, v⟩ := nv
      simp only []
      cases hp : v.promoted with
      | none =>
        simp only []
        exact (set_of_getElem? hi).symm
      | some inner => rfl

theorem setByIndex_comm (x y : GoVal) :
    ∀ (p q : List Nat) (ms : List (String × GoVal)), apart p q = true →
      setByIndex p x (setByIndex q y ms) = setByIndex q y (setByIndex p x ms)
  | [], q, ms, h => by simp [apart] at h
  | _ :: _, [], ms, h => by simp [apart] at h
  | i :: is, j :: js, ms, h => by
    by_cases hij : i = j
    · subst hij
      rw [apart] at h
      simp only [if_true] at h
      cases is with
      | nil => simp [apart] at h
      | cons a as =>
        cases js with
        | nil => simp [apart] at h
        | cons b bs =>
          cases hi : ms[i]? with
          | none => simp [setByIndex, hi]
          | some nv =>
            obtain ⟨n, v⟩ := nv
            have hlt := getElem?_lt hi
            cases hp : v.promoted with
            | none => simp [setByIndex, hi, hp]
            | some inner =>
              have hset : ∀ w : GoVal, (ms.set i (n, w))[i]? = some (n, w) := by
                intro w
                simp [List.getElem?_set, hlt]
              rw [setByIndex_cons_cons hi hp b bs y, setByIndex_cons_cons hi hp a as x,
                setByIndex_cons_cons (hset _) (GoVal.promoted_withPromoted hp) a as x,
                setByIndex_cons_cons (hset _) (GoVal.promoted_withPromoted hp) b bs y]
              simp only [List.set_set, GoVal.withPromoted_withPromoted]
              rw [setByIndex_comm x y (a :: as) (b :: bs) inner h]
    · have hji : ¬ j = i := fun e => hij e.symm
      obtain ⟨f, hf⟩ := setByIndex_eq_set i is x
      obtain ⟨g, hg⟩ := setByIndex_eq_set j js y
      simp only [hf, hg]
      cases hi : ms[i]? with
      | none =>
        cases hj : ms[j]? with
        | none => simp [hi]
        | some nw => simp [List.getElem?_set, hji, hi]
      | some nv =>
        cases hj : ms[j]? with
        | none => simp [List.getElem?_set, hij, hi, hj]
        | some nw =>
          simp only [List.getElem?_set, hij, hji, if_false, hi, hj]
          exact (List.set_comm _ _ _ hij).symm

theorem convertStructFrom_cons (field : Field) (desired : GoType) (dp : Bool) (path : String)
    (run : Field → GoType → String → Option Outcome) (fname : String) (sField : Field)
    (rest : List (String × Field)) (members : List (String × GoVal)) :
    convertStructFrom field desired dp path run ((fname, sField) :: rest) members =
      match targetMember desired fname with
      | none =>
        .error ⟨path, "Struct: " ++ desired.toString ++ " is missing required field: " ++ fname⟩
      | some (_, sf) =>
        match run sField sf.Typ fname with
        | none =>
          if !sField.Optional then
            .error ⟨path, "Struct value: " ++ field.Typ ++ " is missing required field: " ++
              fname⟩
          else convertStructFrom field desired dp path run rest members
        | some (.error e) => .error e
        | some .panic => .panic
        | some (.ok conv) =>
          match fieldByIndex sf.Index members with
          | none => .panic
          | some _ =>
            match assignMember sf.Typ sf.exported conv with
            | none => .panic
            | some v =>
              convertStructFrom field desired dp path run rest
                (setByIndex sf.Index v members) := by
  rw [convertStructFrom]
  unfold targetMember
  cases h1 : desired.fieldByName fname with
  | some sf => simp only [h1]
  | none =>
    cases h2 : desired.fieldByName (capitalize fname) with
    | none => simp only [h1, h2]
    | some sf => simp only [h1, h2]

/-! ## Null handling and the identity shortcut -/

/-- C1. Converting the nil value succeeds exactly when the field is optional
and the desired type is a pointer; the result then is the zero Value
(`reflect.ValueOf(nil)`) with no error, and for every non-optional field the
conversion fails with a `TypeError` at the caller's path. -/
theorem Run_nil (idl : Idl) (field : Field) (desired : GoType) (path : String) :
    ((∃ v, Run idl field desired GoVal.nil path = Outcome.ok v) ↔
        (field.Optional = true ∧ desired.kind = Kind.ptr)) ∧
      ((field.Optional = true ∧ desired.kind = Kind.ptr) →
        Run idl field desired GoVal.nil path = Outcome.ok RVal.invalid) ∧
      (field.Optional = false →
        ∃ msg, Run idl field desired GoVal.nil path = Outcome.error ⟨path, msg⟩) := by
  rw [Run]
  unfold runWith
  simp only [GoVal.typeOf, valueOf]
  by_cases hk : desired.kind = Kind.ptr <;> by_cases ho : field.Optional = true <;>
    simp [hk, ho]

theorem Run_of_typeOf_eq (idl : Idl) (field : Field) (desired : GoType) (actual : GoVal)
    (path : String) (h : actual.typeOf = some desired) :
    Run idl field desired actual path = Outcome.ok (RVal.val actual false) := by
  rw [Run]
  unfold runWith
  simp only [h]
  cases actual <;> simp_all [valueOf, GoVal.typeOf]

/-- C2. A non-nil value whose dynamic type is exactly the desired type is
returned as it is, with no error. -/
theorem Run_identity (idl : Idl) (field : Field) (desired : GoType) (actual : GoVal)
    (path : String) (h : actual.typeOf = some desired) :
    Run idl field desired actual path = Outcome.ok (RVal.val actual false) :=
  Run_of_typeOf_eq idl field desired actual path h

/-- Witness of C2: the test's `"hi"` against `strField`. -/
theorem Run_identity_witness :
    (GoVal.str tString "hi").typeOf = some tString ∧
      Run testIdl strField tString (GoVal.str tString "hi") "TestConvert[0]" =
        Outcome.ok (RVal.val (GoVal.str tString "hi") false) :=
  ⟨rfl, Run_identity testIdl strField tString (GoVal.str tString "hi") "TestConvert[0]" rfl⟩

/-! ## Strings and enums -/

/-- C3 (the code at the failing inputs). For a field of type `string` and any
source string `s`, the conversion to `*string` succeeds with a pointer to the
empty string, and the conversion to a named string type succeeds with the
empty string of that type: the string set at `v.SetString(s)` is not the
value returned. -/
theorem Run_string_lost (idl : Idl) (name : String) (optional isArray : Bool) (s path : String)
    (typeName : String) :
    Run idl ⟨name, "string", optional, isArray⟩ (GoType.ptr tString) (GoVal.str tString s) path =
        Outcome.ok (RVal.val (GoVal.ptr (GoType.ptr tString) (GoVal.str tString "")) false) ∧
      Run idl ⟨name, "string", optional, isArray⟩ (GoType.named typeName tString)
          (GoVal.str tString s) path =
        Outcome.ok (RVal.val (GoVal.str (GoType.named typeName tString) "") true) := by
  constructor
  · rw [Run]
    simp [runWith, GoVal.typeOf, tString, stripPtr, GoType.underlying, GoType.kind, Basic.kind,
      GoVal.asString, returnVal, convertedVal, reflectNew, zeroOf, zeroAs]
  · rw [Run]
    simp [runWith, GoVal.typeOf, tString, stripPtr, GoType.underlying, GoType.kind, Basic.kind,
      GoVal.asString, returnVal, convertedVal, reflectNew, zeroOf, zeroAs, RVal.kind, RVal.elem]

theorem returnVal_ok {field : Field} {path : String} {dp : Bool} {conv : RVal} {ty : String}
    {v : RVal} (h : returnVal field path dp conv ty = Outcome.ok v) : field.Typ = ty := by
  unfold returnVal at h
  split at h
  · cases h
  · rename_i hne
    exact not_not.mp hne

theorem convertedVal_new_store (dp : Bool) (d2 : GoType) (v : GoVal) :
    convertedVal dp ((reflectNew d2).store v) =
      Outcome.ok (if dp then RVal.val (GoVal.ptr (GoType.ptr d2) v) false else RVal.val v true) := by
  cases dp <;>
    simp [convertedVal, reflectNew, RVal.store, RVal.kind, RVal.elem, GoVal.typeOf, GoType.kind]

/-- C4. For an enum of the schema (not called like the primitive `string`),
a field whose type names it and a string `s` equal to one of its values, the
conversion of `s` to a named string type succeeds with the value of that type
whose content is `s`. -/
theorem Run_enum_accept (idl : Idl) (field : Field) (desired : GoType) (enum : List EnumValue)
    (s path : String)
    (hE : idl.Enums.lookup field.Typ = some enum) (hT : field.Typ ≠ "string")
    (hs : ∃ ev ∈ enum, ev.Value = s)
    (hk : desired.kind = Kind.string) (hd : desired ≠ tString) :
    Run idl field desired (GoVal.str tString s) path =
      Outcome.ok (RVal.val (GoVal.str desired s) true) := by
  have hsp : stripPtr desired = (false, desired) :=
    stripPtr_of_kind_ne_ptr (by rw [hk]; decide)
  have hany : enum.any (fun enumVal => enumVal.Value == s) = true := by
    obtain ⟨ev, hev, hv⟩ := hs
    exact List.any_eq_true.mpr ⟨ev, hev, by simp [hv]⟩
  have hd2 : ¬ GoType.basic Basic.string = desired := fun h => hd h.symm
  rw [Run]
  unfold runWith
  simp [GoVal.typeOf, hd2, hsp, hk, tString, GoType.kind, Basic.kind, GoVal.asString, hT, hE,
    hany, convertedVal, reflectNew, RVal.store, RVal.kind, RVal.elem]

/-- Witness of C4: the test's `"blah"` against `enumField` yields
`StringAlias("blah")`. -/
theorem Run_enum_accept_witness :
    Run testIdl enumField tStringAlias (GoVal.str tString "blah") "TestConvert[3]" =
      Outcome.ok (RVal.val (GoVal.str tStringAlias "blah") true) :=
  Run_enum_accept testIdl enumField tStringAlias [⟨"blah", ""⟩, ⟨"foo", ""⟩] "blah"
    "TestConvert[3]" rfl (by decide) ⟨⟨"blah", ""⟩, by simp, rfl⟩ rfl (by decide)

/-- C5 as stated fails: with the plain `string` as desired type the identity
shortcut returns `"invalid"` although it is not a value of the enum. -/
theorem Run_enum_plain_string_unchecked :
    testIdl.Enums.lookup enumField.Typ = some [⟨"blah", ""⟩, ⟨"foo", ""⟩] ∧
      (∀ ev ∈ [(⟨"blah", ""⟩ : EnumValue), ⟨"foo", ""⟩], ev.Value ≠ "invalid") ∧
      Run testIdl enumField tString (GoVal.str tString "invalid") "p" =
        Outcome.ok (RVal.val (GoVal.str tString "invalid") false) := by
  refine ⟨rfl, ?_, rfl⟩
  intro ev hev
  simp only [List.mem_cons, List.mem_singleton, List.not_mem_nil, or_false] at hev
  rcases hev with h | h <;> subst h <;> decide

/-- C5, amended. For a field whose type names an enum (not called `string`),
a desired type of string kind, directly or behind a pointer, other than the
plain `string`, and a string `s` that is not a value of the enum, the
conversion fails with a `TypeError` at the caller's path whose message lists
the enum's values. -/
theorem Run_enum_reject (idl : Idl) (field : Field) (desired : GoType) (enum : List EnumValue)
    (s path : String)
    (hE : idl.Enums.lookup field.Typ = some enum) (hT : field.Typ ≠ "string")
    (hs : ∀ ev ∈ enum, ev.Value ≠ s)
    (hk : (stripPtr desired).2.kind = Kind.string) (hd : desired ≠ tString) :
    Run idl field desired (GoVal.str tString s) path =
      Outcome.error ⟨path, "Value " ++ s ++ " not in enum values: " ++ fmtEnum enum⟩ := by
  have hany : enum.any (fun enumVal => enumVal.Value == s) = false := by
    rw [List.any_eq_false]
    intro ev hev
    simpa using hs ev hev
  have hd2 : ¬ GoType.basic Basic.string = desired := fun h => hd h.symm
  rw [Run]
  unfold runWith
  simp [GoVal.typeOf, hd2, hk, tString, GoType.kind, Basic.kind, GoVal.asString, hT, hE,
    hany]

/-- Witness of C5: the test's `"invalid"` against `enumField` and `StringAlias`. -/
theorem Run_enum_reject_witness :
    Run testIdl enumField tStringAlias (GoVal.str tString "invalid") "TestConvert[4]" =
      Outcome.error ⟨"TestConvert[4]",
        "Value invalid not in enum values: [\x7bblah \x7d \x7bfoo \x7d]"⟩ :=
  Run_enum_reject testIdl enumField tStringAlias [⟨"blah", ""⟩, ⟨"foo", ""⟩] "invalid"
    "TestConvert[4]" rfl (by decide)
    (by
      intro ev hev
      simp only [List.mem_cons, List.mem_singleton, List.not_mem_nil, or_false] at hev
      rcases hev with h | h <;> subst h <;> decide)
    rfl (by decide)

/-! ## Agreement with the declared type -/

/-- C6 as stated fails: a string whose type is exactly the desired `string` is
returned by the identity shortcut although the field's type is `int`, which is
neither `string` nor an enum. -/
theorem Run_identity_ignores_declared_type :
    intField.Typ ≠ "string" ∧ testIdl.Enums.lookup intField.Typ = none ∧
      Run testIdl intField tString (GoVal.str tString "hi") "p" =
        Outcome.ok (RVal.val (GoVal.str tString "hi") false) :=
  ⟨by decide, rfl, rfl⟩

/-- C6, amended. For a non-nil source whose dynamic type is not exactly the
desired type: if the conversion succeeds, the field's declared type agrees
with the kind of the desired type (pointer removed): `string` or the name of an
enum for a string kind, `int` for an integer kind, `float` for a floating
kind, `bool` for the boolean kind; and a string source converted to a desired
type of string kind, against a field whose type is neither `string` nor an
enum, fails with the type-mismatch `TypeError`. -/
theorem Run_declared_type (idl : Idl) (field : Field) (desired : GoType) (actual : GoVal)
    (path : String) (actType : GoType)
    (hT : actual.typeOf = some actType) (hne : actType ≠ desired) :
    (∀ v, Run idl field desired actual path = Outcome.ok v →
        ((stripPtr desired).2.kind = Kind.string →
          field.Typ = "string" ∨ (idl.Enums.lookup field.Typ).isSome = true) ∧
        ((stripPtr desired).2.kind.isInteger = true → field.Typ = "int") ∧
        ((stripPtr desired).2.kind.isFloat = true → field.Typ = "float") ∧
        ((stripPtr desired).2.kind = Kind.bool → field.Typ = "bool")) ∧
      (∀ s, actual = GoVal.str tString s → (stripPtr desired).2.kind = Kind.string →
        field.Typ ≠ "string" → idl.Enums.lookup field.Typ = none →
        Run idl field desired actual path =
          Outcome.error ⟨path, "Type mismatch for '" ++ path ++ "' - Expected: " ++ field.Typ ++
            " Got: " ++ "string"⟩) := by
  constructor
  · intro v h
    rw [Run] at h
    unfold runWith at h
    simp only [hT, hne, if_false] at h
    split at h
    · rename_i s hs
      have hk : (stripPtr desired).2.kind = Kind.string := by
        by_contra hc
        simp [hc] at hs
      refine ⟨fun _ => ?_, ?_, ?_, ?_⟩
      · split at h
        · split at h
          · rename_i enum hE
            right
            simp [hE]
          · exact absurd (returnVal_ok h) (by assumption)
        · rename_i hTs
          left
          exact not_not.mp hTs
      all_goals simp [hk, Kind.isInteger, Kind.isFloat]
    · split at h
      all_goals (repeat' split at h)
      all_goals first
        | exact Outcome.noConfusion h
        | (have h2 := returnVal_ok h
           simp_all [Kind.isInteger, Kind.isFloat])
        | simp_all [Kind.isInteger, Kind.isFloat]
  · intro s hs hk hTs hE
    subst hs
    have hne2 : ¬ GoType.basic Basic.string = desired := by
      intro h
      apply hne
      simp only [GoVal.typeOf, tString, Option.some.injEq] at hT
      rw [← hT]
      exact h
    rw [Run]
    unfold runWith
    simp [GoVal.typeOf, hne2, hk, tString, GoType.kind, Basic.kind, GoVal.asString, hTs, hE,
      returnVal]

/-- Witness of C6: a string converted to `StringAlias` against a field of type
`int` (no enum is called `int`) fails with the type-mismatch error. -/
theorem Run_declared_type_witness :
    Run testIdl intField tStringAlias (GoVal.str tString "hi") "p" =
      Outcome.error ⟨"p", "Type mismatch for 'p' - Expected: int Got: string"⟩ :=
  (Run_declared_type testIdl intField tStringAlias (GoVal.str tString "hi") "p" tString rfl
    (by decide)).2 "hi" rfl rfl (by decide) rfl

/-! ## Combinations that no rule handles -/

theorem Run_fail_of_not_ruleApplies (idl : Idl) (field : Field) (desired : GoType) (actual : GoVal)
    (path : String) (actType : GoType) (hT : actual.typeOf = some actType)
    (h : ruleApplies desired actual = false) :
    Run idl field desired actual path =
      Outcome.error ⟨path, "Unable to " ++ ("convert: " ++ path ++ " - " ++ actType.kind.toString ++
        " to " ++ desired.toString)⟩ := by
  unfold ruleApplies at h
  simp only [hT, Bool.or_eq_false_iff, decide_eq_false_iff_not] at h
  obtain ⟨hne, h⟩ := h
  rw [Run]
  unfold runWith
  simp only [hT, hne, if_false, goalText]
  cases hk : (stripPtr desired).2.kind <;> simp only [hk] at h ⊢ <;>
    cases actual <;> simp_all [GoVal.asString, GoVal.asInt, GoVal.asInt64, GoVal.asFloat64, GoVal.asFloat32, GoVal.asInt32, GoVal.asBool]
  rename_i t f
  by_cases ht : t = GoType.basic Basic.float64
  · subst ht
    simp only [] at h ⊢
    simp [h]
  · have : (match GoVal.float t f with
        | GoVal.float (GoType.basic Basic.float64) f => some f
        | _ => none) = none := by
      split
      · rename_i heq
        cases heq
        exact absurd rfl ht
      · rfl
    simp [this]

/-- C7. A non-nil source that is not of string kind, converted to a desired
type of string kind, fails with a `TypeError`; and every source/desired
combination that no rule of `Run` handles fails with the `TypeError` at the
caller's path whose message is made of the path, the source's kind and the
desired type. -/
theorem Run_kind_mismatch (idl : Idl) (field : Field) (desired : GoType) (actual : GoVal)
    (path : String) (actType : GoType) (hT : actual.typeOf = some actType) :
    (actType.kind ≠ Kind.string → desired.kind = Kind.string →
        Run idl field desired actual path =
          Outcome.error ⟨path, "Unable to " ++ ("convert: " ++ path ++ " - " ++
            actType.kind.toString ++ " to " ++ desired.toString)⟩) ∧
      (ruleApplies desired actual = false →
        Run idl field desired actual path =
          Outcome.error ⟨path, "Unable to " ++ ("convert: " ++ path ++ " - " ++
            actType.kind.toString ++ " to " ++ desired.toString)⟩) := by
  refine ⟨fun hak hdk => ?_, Run_fail_of_not_ruleApplies idl field desired actual path actType hT⟩
  apply Run_fail_of_not_ruleApplies idl field desired actual path actType hT
  have hsp : stripPtr desired = (false, desired) :=
    stripPtr_of_kind_ne_ptr (by rw [hdk]; decide)
  have hne : ¬ actType = desired := by
    intro h
    rw [h] at hak
    exact hak hdk
  have hstr : actual.asString = none := by
    unfold GoVal.asString
    split
    · simp only [GoVal.typeOf, Option.some.injEq] at hT
      rw [← hT] at hak
      exact absurd rfl hak
    · rfl
  unfold ruleApplies
  simp [hT, hne, hsp, hdk, hstr]

/-- Witness of C7: the test's integer `10` against `strField` and `string`. -/
theorem Run_kind_mismatch_witness :
    Run testIdl strField tString (GoVal.int tInt 10) "TestConvert[1]" =
      Outcome.error ⟨"TestConvert[1]", "Unable to convert: TestConvert[1] - int to string"⟩ :=
  (Run_kind_mismatch testIdl strField tString (GoVal.int tInt 10) "TestConvert[1]" tInt rfl).1
    (by decide) rfl

/-! ## Numbers -/

theorem F64.eq_fin_iff (m1 e1 m2 e2 c : Int) (h1 : c ≤ e1) (h2 : c ≤ e2) :
    F64.eq (.fin m1 e1) (.fin m2 e2) = true ↔
      m1 * 2 ^ (e1 - c).toNat = m2 * 2 ^ (e2 - c).toNat := by
  have hc : c ≤ min e1 e2 := le_min h1 h2
  have hx1 : (e1 - c).toNat = (e1 - min e1 e2).toNat + (min e1 e2 - c).toNat := by
    have := min_le_left e1 e2
    omega
  have hx2 : (e2 - c).toNat = (e2 - min e1 e2).toNat + (min e1 e2 - c).toNat := by
    have := min_le_right e1 e2
    omega
  have hpos : (2 : Int) ^ (min e1 e2 - c).toNat ≠ 0 := pow_ne_zero _ (by norm_num)
  unfold F64.eq
  rw [decide_eq_true_eq, hx1, hx2, pow_add, pow_add, ← mul_assoc, ← mul_assoc]
  constructor
  · intro h
    rw [h]
  · intro h
    exact mul_right_cancel₀ hpos h

theorem F64.toInt64_of_eq (m e n : Int) (hval : F64.eq (.fin m e) (.fin n 0) = true)
    (hr : minInt64 ≤ n ∧ n < 2 ^ 63) : F64.toInt64 (.fin m e) = n := by
  unfold F64.toInt64
  by_cases he : 0 ≤ e
  · have h := (F64.eq_fin_iff m e n 0 0 he le_rfl).mp hval
    simp only [sub_zero, Int.toNat_zero, pow_zero, mul_one] at h
    simp only [he, if_true, h, hr, and_self]
  · have he2 : e ≤ 0 := by omega
    have h := (F64.eq_fin_iff m e n 0 e le_rfl he2).mp hval
    simp only [sub_self, Int.toNat_zero, pow_zero, mul_one, zero_sub] at h
    have hpos : (2 : Int) ^ (-e).toNat ≠ 0 := pow_ne_zero _ (by norm_num)
    simp only [he, if_false, h, Int.mul_tdiv_cancel _ hpos, hr, and_self, if_true]

theorem F64.normShift_le (a E : Nat) (hE : a / 2 ^ E < 2 ^ 53) :
    ∀ fuel s, s ≤ E → F64.normShift a fuel s ≤ E
  | 0, s, hs => by simpa [F64.normShift] using hs
  | fuel + 1, s, hs => by
    unfold F64.normShift
    split
    · exact hs
    · rename_i hlt
      have hne : s ≠ E := by
        intro h
        rw [h] at hlt
        exact hlt hE
      exact F64.normShift_le a E hE fuel (s + 1) (by omega)

theorem F64.ofInt_exact (n : Int) (E : Nat) (hdvd : 2 ^ E ∣ n.natAbs)
    (hlt : n.natAbs / 2 ^ E < 2 ^ 53) :
    ∃ (k : Int) (sh : Nat), F64.ofInt n = .fin k (sh : Int) ∧ k * 2 ^ sh = n := by
  have hsh : F64.normShift n.natAbs 11 0 ≤ E := F64.normShift_le _ E hlt 11 0 (Nat.zero_le _)
  have hd : 2 ^ (F64.normShift n.natAbs 11 0) ∣ n.natAbs :=
    dvd_trans (pow_dvd_pow 2 hsh) hdvd
  have hr : n.natAbs % 2 ^ (F64.normShift n.natAbs 11 0) = 0 := Nat.mod_eq_zero_of_dvd hd
  have hhalf : 0 < 2 ^ (F64.normShift n.natAbs 11 0 - 1) := Nat.pow_pos (by norm_num)
  refine ⟨_, F64.normShift n.natAbs 11 0, rfl, ?_⟩
  simp only [hr]
  have hq : ¬ (2 ^ (F64.normShift n.natAbs 11 0 - 1) < 0 ∨
      (0 = 2 ^ (F64.normShift n.natAbs 11 0 - 1) ∧
        n.natAbs / 2 ^ (F64.normShift n.natAbs 11 0) % 2 = 1)) := by
    omega
  simp only [hq, if_false]
  have hmul : (n.natAbs / 2 ^ (F64.normShift n.natAbs 11 0)) * 2 ^ (F64.normShift n.natAbs 11 0)
      = n.natAbs := Nat.div_mul_cancel hd
  have hmulZ : ((n.natAbs / 2 ^ (F64.normShift n.natAbs 11 0) : Nat) : Int) *
      2 ^ (F64.normShift n.natAbs 11 0) = (n.natAbs : Int) := by
    exact_mod_cast hmul
  split
  · rw [neg_mul, hmulZ]
    omega
  · rw [hmulZ]
    omega

theorem F64.eq_of_value (k : Int) (sh : Nat) (m e n : Int) (hk : k * 2 ^ sh = n)
    (hval : F64.eq (.fin m e) (.fin n 0) = true) :
    F64.eq (.fin k (sh : Int)) (.fin m e) = true := by
  have hc1 : min e 0 ≤ e := min_le_left _ _
  have hc0 : min e 0 ≤ 0 := min_le_right _ _
  have hcs : min e 0 ≤ (sh : Int) := le_trans hc0 (Int.ofNat_nonneg _)
  have h := (F64.eq_fin_iff m e n 0 (min e 0) hc1 hc0).mp hval
  rw [F64.eq_fin_iff k sh m e (min e 0) hcs hc1, h, ← hk]
  have hx : ((sh : Int) - min e 0).toNat = sh + (0 - min e 0).toNat := by omega
  rw [hx, pow_add, mul_assoc]

theorem F64.integral_of_eq_ofInt (k : Int) (f : F64) (h : (F64.ofInt k).eq f = true) :
    ∃ n : Int, f.eq (.fin n 0) = true := by
  cases f with
  | inf b => simp [F64.ofInt, F64.eq] at h
  | nan => simp [F64.ofInt, F64.eq] at h
  | fin m e =>
    unfold F64.ofInt at h
    simp only [] at h
    generalize F64.normShift k.natAbs 11 0 = sh at h
    generalize (if k < 0 then _ else _ : Int) = k2 at h
    have hc1 : min e 0 ≤ e := min_le_left _ _
    have hc0 : min e 0 ≤ 0 := min_le_right _ _
    have hcs : min e 0 ≤ (sh : Int) := le_trans hc0 (Int.ofNat_nonneg _)
    have h2 := (F64.eq_fin_iff k2 sh m e (min e 0) hcs hc1).mp h
    refine ⟨k2 * 2 ^ sh, ?_⟩
    rw [F64.eq_fin_iff m e _ 0 (min e 0) hc1 hc0, ← h2]
    have hx : ((sh : Int) - min e 0).toNat = sh + (0 - min e 0).toNat := by omega
    rw [hx, pow_add, mul_assoc]

theorem wrapInt64_of_range (n : Int) (hr : minInt64 ≤ n ∧ n < 2 ^ 63) : wrapInt64 n = n := by
  unfold wrapInt64
  unfold minInt64 at hr
  norm_num at hr ⊢
  omega

theorem Run_float64_to_int64_kind (idl : Idl) (field : Field) (desired : GoType) (path : String)
    (m e n : Int) (hF : field.Typ = "int") (hk : (stripPtr desired).2.kind = Kind.int64)
    (hm : m.natAbs < 2 ^ 53) (hval : F64.eq (.fin m e) (.fin n 0) = true)
    (hr : minInt64 ≤ n ∧ n < 2 ^ 63) :
    Run idl field desired (GoVal.float tFloat64 (.fin m e)) path =
      Outcome.ok (if (stripPtr desired).1
        then RVal.val (GoVal.ptr (GoType.ptr (stripPtr desired).2) (GoVal.int (stripPtr desired).2 n)) false
        else RVal.val (GoVal.int (stripPtr desired).2 n) true) := by
  have hto := F64.toInt64_of_eq m e n hval hr
  have hex : ∃ (k : Int) (sh : Nat), F64.ofInt n = .fin k (sh : Int) ∧ k * 2 ^ sh = n := by
    by_cases he : 0 ≤ e
    · have h := (F64.eq_fin_iff m e n 0 0 he le_rfl).mp hval
      simp only [sub_zero, Int.toNat_zero, pow_zero, mul_one] at h
      apply F64.ofInt_exact n e.toNat
      · rw [← h, Int.natAbs_mul, Int.natAbs_pow]
        exact Dvd.intro_left _ rfl
      · rw [← h, Int.natAbs_mul, Int.natAbs_pow]
        have h2 : Int.natAbs 2 = 2 := rfl
        rw [h2, Nat.mul_div_cancel _ (Nat.pow_pos (by norm_num))]
        exact hm
    · have he2 : e ≤ 0 := by omega
      have h := (F64.eq_fin_iff m e n 0 e le_rfl he2).mp hval
      simp only [sub_self, Int.toNat_zero, pow_zero, mul_one, zero_sub] at h
      apply F64.ofInt_exact n 0
      · simp
      · simp only [pow_zero, Nat.div_one]
        have h3 : m.natAbs = n.natAbs * 2 ^ (-e).toNat := by
          rw [h, Int.natAbs_mul, Int.natAbs_pow]
          rfl
        have h4 : 1 ≤ 2 ^ (-e).toNat := Nat.one_le_two_pow
        calc n.natAbs = n.natAbs * 1 := (Nat.mul_one _).symm
          _ ≤ n.natAbs * 2 ^ (-e).toNat := Nat.mul_le_mul_left _ h4
          _ = m.natAbs := h3.symm
          _ < 2 ^ 53 := hm
  obtain ⟨k, sh, hof, hk2⟩ := hex
  have heq : (F64.ofInt n).eq (.fin m e) = true := by
    rw [hof]
    exact F64.eq_of_value k sh m e n hk2 hval
  have hne : ¬ tFloat64 = desired := by
    intro h
    rw [← h] at hk
    simp [stripPtr, tFloat64, GoType.underlying, GoType.kind, Basic.kind] at hk
  rw [Run]
  unfold runWith
  simp only [GoVal.typeOf, hne, if_false, hk]
  simp [GoVal.asInt64, GoVal.asInt, GoVal.asFloat64, tFloat64, hto, heq, returnVal, hF,
    convertedVal_new_store]

/-- C8 as stated fails: `Run` has no rule for a desired type of kind `int32`
(nor `int8`, `int16`), for which the float `3.0` is rejected like the integer
`3`; and the rule for the kind `int64` accepts a `float64`, not a `float32`. -/
theorem Run_float_to_int32_rejected :
    Run testIdl intField tInt32 (GoVal.float tFloat64 (F64.fin 3 0)) "p" =
        Outcome.error ⟨"p", "Unable to convert: p - float64 to int32"⟩ ∧
      Run testIdl intField tInt32 (GoVal.int tInt 3) "p" =
        Outcome.error ⟨"p", "Unable to convert: p - int to int32"⟩ ∧
      Run testIdl intField tInt64 (GoVal.float tFloat32 (F64.fin 3 0)) "p" =
        Outcome.error ⟨"p", "Unable to convert: p - float32 to int64"⟩ :=
  ⟨rfl, rfl, rfl⟩

/-- The case `reflect.Int` of `Run` has no `float64` branch: for the desired type
`int` the float `3.0` is rejected, which the sibling case `reflect.Int64`
accepts. -/
theorem Run_float_to_int_rejected :
    Run testIdl intField tInt (GoVal.float tFloat64 (F64.fin 3 0)) "p" =
      Outcome.error ⟨"p", "Unable to convert: p - float64 to int"⟩ :=
  rfl

/-- C8, amended. Against a field of type `int`: for a desired type of kind
`int64`, directly or behind a pointer, a `float64` source whose value is an
integer `n` of the `int64` range is accepted and the result holds `n`; and for
a desired type of any signed integer kind, a `float64` or `float32` source
whose value is not an integer is rejected with a `TypeError` at the caller's
path. -/
theorem Run_float_to_integer (idl : Idl) (field : Field) (desired : GoType) (path : String)
    (hF : field.Typ = "int") :
    (∀ m e n : Int, (stripPtr desired).2.kind = Kind.int64 → m.natAbs < 2 ^ 53 →
        F64.eq (.fin m e) (.fin n 0) = true → (minInt64 ≤ n ∧ n < 2 ^ 63) →
        ∃ r, Run idl field desired (GoVal.float tFloat64 (.fin m e)) path = Outcome.ok r ∧
          r.intValue = some n) ∧
      (∀ (t : GoType) (g : F64), (t = tFloat64 ∨ t = tFloat32) →
        (stripPtr desired).2.kind.isSignedInt = true → (∀ n : Int, g.eq (.fin n 0) = false) →
        Run idl field desired (GoVal.float t g) path =
          Outcome.error ⟨path, "Unable to " ++ ("convert: " ++ path ++ " - " ++
            t.kind.toString ++ " to " ++ desired.toString)⟩) := by
  constructor
  · intro m e n hk hm hval hr
    refine ⟨_, Run_float64_to_int64_kind idl field desired path m e n hF hk hm hval hr, ?_⟩
    split <;> rfl
  · intro t g ht hk hg
    apply Run_fail_of_not_ruleApplies idl field desired (GoVal.float t g) path t rfl
    have hne : ¬ t = desired := by
      intro h
      rw [← h] at hk
      rcases ht with ht | ht <;> subst ht <;>
        simp [stripPtr, tFloat64, tFloat32, GoType.underlying, GoType.kind, Basic.kind,
          Kind.isSignedInt] at hk
    have hrej : (F64.ofInt g.toInt64).eq g = false := by
      cases hc : (F64.ofInt g.toInt64).eq g
      · rfl
      · obtain ⟨n, hn⟩ := F64.integral_of_eq_ofInt _ _ hc
        rw [hg n] at hn
        cases hn
    unfold ruleApplies
    simp only [GoVal.typeOf, hne, decide_False, Bool.false_or]
    rcases ht with ht | ht <;> subst ht <;>
      cases hkk : (stripPtr desired).2.kind <;>
      simp_all [Kind.isSignedInt, GoVal.asInt, GoVal.asInt64, GoVal.asFloat64, tFloat64,
        tFloat32]

/-- Witness of C8: against a field of type `int` and the desired `int64`, `30.0`
yields `30` and `3.5` is rejected. -/
theorem Run_float_to_integer_witness :
    (∃ r, Run testIdl intField tInt64 (GoVal.float tFloat64 (.fin 30 0)) "p" = Outcome.ok r ∧
        r.intValue = some 30) ∧
      Run testIdl intField tInt64 (GoVal.float tFloat64 (.fin 7 (-1))) "p" =
        Outcome.error ⟨"p", "Unable to " ++ ("convert: " ++ "p" ++ " - " ++
          tFloat64.kind.toString ++ " to " ++ tInt64.toString)⟩ :=
  ⟨(Run_float_to_integer testIdl intField tInt64 "p" rfl).1 30 0 30 rfl (by decide)
      (by decide) (by decide),
    (Run_float_to_integer testIdl intField tInt64 "p" rfl).2 tFloat64 (.fin 7 (-1)) (Or.inl rfl)
      rfl (by
        intro n
        simp only [F64.eq, decide_eq_false_iff_not]
        norm_num
        omega)⟩

/-- C9 as stated fails: an `int32` source is rejected for the desired `int64`. -/
theorem Run_int32_to_int64_rejected :
    Run testIdl intField tInt64 (GoVal.int tInt32 5) "p" =
      Outcome.error ⟨"p", "Unable to convert: p - int32 to int64"⟩ :=
  rfl

/-- C9, amended. Against a field of type `int`, for a desired type of kind
`int` or `int64`, directly or behind a pointer, every `int` or `int64` source
whose value fits 64 bits is accepted and the result holds the same number. -/
theorem Run_int_to_int (idl : Idl) (field : Field) (desired : GoType) (path : String)
    (t : GoType) (n : Int) (hF : field.Typ = "int") (ht : t = tInt ∨ t = tInt64)
    (hk : (stripPtr desired).2.kind = Kind.int ∨ (stripPtr desired).2.kind = Kind.int64)
    (hr : minInt64 ≤ n ∧ n < 2 ^ 63) :
    ∃ r, Run idl field desired (GoVal.int t n) path = Outcome.ok r ∧ r.intValue = some n := by
  by_cases hid : t = desired
  · exact ⟨_, Run_of_typeOf_eq idl field desired (GoVal.int t n) path (by simp [GoVal.typeOf, hid]),
      rfl⟩
  · have hw := wrapInt64_of_range n hr
    have hres : Run idl field desired (GoVal.int t n) path =
        Outcome.ok (if (stripPtr desired).1
          then RVal.val (GoVal.ptr (GoType.ptr (stripPtr desired).2)
            (GoVal.int (stripPtr desired).2 n)) false
          else RVal.val (GoVal.int (stripPtr desired).2 n) true) := by
      rw [Run]
      unfold runWith
      simp only [GoVal.typeOf, hid, if_false]
      rcases ht with ht | ht <;> subst ht <;> rcases hk with hk | hk <;>
        simp [hk, GoVal.asInt64, GoVal.asInt, tInt, tInt64, GoType.kind, Basic.kind, returnVal,
          hF, hw, convertedVal_new_store]
    refine ⟨_, hres, ?_⟩
    split <;> rfl

/-- Witness of C9: the `int` 30 converted to `int64` holds 30. -/
theorem Run_int_to_int_witness :
    ∃ r, Run testIdl intField tInt64 (GoVal.int tInt 30) "p" = Outcome.ok r ∧
      r.intValue = some 30 :=
  Run_int_to_int testIdl intField tInt64 "p" tInt 30 rfl (Or.inl rfl) (Or.inr rfl)
    (by decide)

/-! ## Arrays -/

theorem Run_slice (idl : Idl) (field : Field) (desired : GoType) (path : String) (t : GoType)
    (elems : List GoVal) (hne : t ≠ desired) (hk : (stripPtr desired).2.kind = Kind.slice) :
    Run idl field desired (GoVal.slice t elems) path =
      convertSlice idl field (stripPtr desired).2 (stripPtr desired).1 path elems := by
  rw [Run]
  unfold runWith convertSlice
  simp only [GoVal.typeOf, hne, if_false, hk]
  cases hel : (stripPtr desired).2.elem <;> simp

theorem Run_struct (idl : Idl) (field : Field) (desired : GoType) (path : String)
    (m : List (String × GoVal)) (hk : (stripPtr desired).2.kind = Kind.struct) :
    Run idl field desired (GoVal.map GoType.mapStrAny m) path =
      convertStruct idl field (stripPtr desired).2 (stripPtr desired).1 path
        (runMember idl path m) := by
  have hne : ¬ GoType.mapStrAny = desired := by
    intro h
    rw [← h] at hk
    simp [stripPtr, GoType.underlying, GoType.kind] at hk
  rw [Run]
  unfold runWith
  simp only [GoVal.typeOf, hne, if_false, hk]
  simp
  rfl

theorem ElemsConvert.length_eq {idl : Idl} {elemField : Field} {sliceType : GoType}
    {path : String} {x : Nat} {elems vs : List GoVal}
    (h : ElemsConvert idl elemField sliceType path x elems vs) : vs.length = elems.length := by
  induction h with
  | nil x => rfl
  | cons x el v a vt rest vs hrun htype hassign hrest ih => simp [ih]

theorem convertSliceFrom_of_elemsConvert (idl : Idl) (elemField : Field) (sliceType : GoType)
    (desirePtr : Bool) (path : String) (t : GoType) (ht : t.elem = some sliceType)
    {x : Nat} {elems vs : List GoVal}
    (h : ElemsConvert idl elemField sliceType path x elems vs) :
    ∀ (acc : List GoVal) (a0 : Bool),
      convertSliceFrom idl elemField sliceType desirePtr path elems x
          (RVal.val (GoVal.slice t acc) a0) =
        convertedVal desirePtr (RVal.val (GoVal.slice t (acc ++ vs)) (a0 && elems.isEmpty)) := by
  induction h with
  | nil x =>
    intro acc a0
    simp [convertSliceFrom]
  | cons x el v a vt rest vs hrun htype hassign hrest ih =>
    intro acc a0
    rw [convertSliceFrom]
    simp only [hrun, reflectAppend, ht, htype, hassign, if_true]
    rw [ih (acc ++ [v]) false]
    simp

/-- The test's array: `[1, 2.1, 3]` against a field of type `float` converts to
`[]float64{1, 2.1, 3}`, and the empty sequence to the empty sequence. -/
theorem convertSlice_floats_example :
    convertSlice testIdl arrField (GoType.slice tFloat64) false "TestConvert[2]"
        [GoVal.int tInt 1, GoVal.float tFloat64 (F64.fin 4728779608739021 (-51)),
          GoVal.int tInt 3] =
        Outcome.ok (RVal.val (GoVal.slice (GoType.slice tFloat64)
          [GoVal.float tFloat64 (F64.fin 1 0),
            GoVal.float tFloat64 (F64.fin 4728779608739021 (-51)),
            GoVal.float tFloat64 (F64.fin 3 0)]) false) ∧
      convertSlice testIdl arrField (GoType.slice tFloat64) false "TestConvert[2]" [] =
        Outcome.ok (RVal.val (GoVal.slice (GoType.slice tFloat64) []) true) :=
  ⟨rfl, rfl⟩

/-- C10 (the code at the failing input). For the optional, singular field
`optStrField` (its own element field) and the desired type `[]*string`, the nil
element of the one-element source converts with no error (to the zero Value),
yet `convertSlice` does not return a sequence of length one: `reflect.Append`
panics on the zero Value. -/
theorem convertSlice_nil_element_panics (idl : Idl) (path : String) :
    Run idl optStrField (GoType.ptr tString) GoVal.nil (path ++ "[" ++ toString 0 ++ "]") =
        Outcome.ok RVal.invalid ∧
      convertSlice idl optStrField (GoType.slice (GoType.ptr tString)) false path [GoVal.nil] =
        Outcome.panic ∧
      Run idl optStrField (GoType.slice (GoType.ptr tString))
          (GoVal.slice (GoType.slice GoType.any) [GoVal.nil]) path = Outcome.panic :=
  ⟨rfl, rfl, rfl⟩

/-! ## Error paths -/

theorem convertedVal_ne_error (dp : Bool) (c : RVal) (e : TypeError) :
    convertedVal dp c ≠ Outcome.error e := by
  unfold convertedVal
  split
  · simp
  · split <;> simp

theorem returnVal_error {field : Field} {path : String} {dp : Bool} {conv : RVal} {ty : String}
    {e : TypeError} (h : returnVal field path dp conv ty = Outcome.error e) : e.path = path := by
  unfold returnVal at h
  split at h
  · cases h
    rfl
  · exact absurd h (convertedVal_ne_error _ _ _)

theorem runWith_error {idl : Idl} {field : Field} {desired : GoType} {actual : GoVal}
    {path : String} {cs cst : GoType → Bool → Option Outcome} {e : TypeError}
    (h : runWith idl field desired actual path cs cst = Outcome.error e) :
    e.path = path ∨
      ((stripPtr desired).2.kind = Kind.slice ∧
        cs (stripPtr desired).2 (stripPtr desired).1 = some (Outcome.error e)) ∨
      ((stripPtr desired).2.kind = Kind.struct ∧
        cst (stripPtr desired).2 (stripPtr desired).1 = some (Outcome.error e)) := by
  unfold runWith at h
  cases hT : actual.typeOf with
  | none =>
    simp only [hT] at h
    split at h
    · split at h
      · exact Outcome.noConfusion h
      · cases h
        exact Or.inl rfl
    · cases h
      exact Or.inl rfl
  | some actType =>
    by_cases hne : actType = desired
    · simp only [hT, hne, if_true] at h
      exact Outcome.noConfusion h
    · simp only [hT, hne, if_false] at h
      split at h
      · split at h
        · split at h
          · split at h
            · exact absurd h (convertedVal_ne_error _ _ _)
            · cases h
              exact Or.inl rfl
          · exact Or.inl (returnVal_error h)
        · exact Or.inl (returnVal_error h)
      · split at h
        all_goals (repeat' split at h)
        all_goals first
          | exact Or.inl (returnVal_error h)
          | (right; left; exact ⟨by assumption, by rw [← h]; assumption⟩)
          | (right; right; exact ⟨by assumption, by rw [← h]; assumption⟩)
          | (cases h; exact Or.inl rfl)

theorem convertSliceFrom_error (idl : Idl) (elemField : Field) (sliceType : GoType) (dp : Bool)
    (path : String) (e : TypeError) :
    ∀ (elems : List GoVal) (x : Nat) (slice : RVal),
      convertSliceFrom idl elemField sliceType dp path elems x slice = Outcome.error e →
      ∃ i el, elems[i]? = some el ∧
        Run idl elemField sliceType el (path ++ "[" ++ toString (x + i) ++ "]") =
          Outcome.error e ∧
        offendingElem idl elemField sliceType path elems x =
          Seg.index (x + i) ::
            offending idl elemField sliceType el (path ++ "[" ++ toString (x + i) ++ "]")
  | [], x, slice, h => by
    rw [convertSliceFrom] at h
    exact absurd h (convertedVal_ne_error _ _ _)
  | el :: rest, x, slice, h => by
    rw [convertSliceFrom] at h
    rw [offendingElem]
    cases hrun : Run idl elemField sliceType el (path ++ "[" ++ toString x ++ "]") with
    | error err =>
      simp only [hrun] at h
      cases h
      exact ⟨0, el, by simp, by simpa using hrun, by simp⟩
    | panic => simp [hrun] at h
    | ok conv =>
      simp only [hrun] at h ⊢
      split at h
      · exact Outcome.noConfusion h
      · obtain ⟨i, el2, hi, hrun2, hoff⟩ :=
          convertSliceFrom_error idl elemField sliceType dp path e rest (x + 1) _ h
        have e1 : x + 1 + i = x + (i + 1) := by omega
        rw [e1] at hrun2 hoff
        exact ⟨i + 1, el2, by simpa using hi, hrun2, hoff⟩

theorem convertStructFrom_error (field : Field) (desired : GoType) (dp : Bool) (path : String)
    (run : Field → GoType → String → Option Outcome)
    (sub : Field → GoType → String → List Seg) (e : TypeError) :
    ∀ (fields : List (String × Field)) (members : List (String × GoVal)),
      convertStructFrom field desired dp path run fields members = Outcome.error e →
      (e.path = path ∧ offendingFrom desired run sub fields = []) ∨
        ∃ fname sField type, run sField type fname = some (Outcome.error e) ∧
          offendingFrom desired run sub fields = Seg.member fname :: sub sField type fname
  | [], members, h => by
    rw [convertStructFrom] at h
    exact absurd h (convertedVal_ne_error _ _ _)
  | (fname, sField) :: rest, members, h => by
    rw [convertStructFrom_cons] at h
    rw [offendingFrom]
    cases htm : targetMember desired fname with
    | none =>
      simp only [htm] at h ⊢
      cases h
      exact Or.inl ⟨rfl, trivial⟩
    | some gt =>
      obtain ⟨goName, sf⟩ := gt
      simp only [htm] at h ⊢
      cases hrun : run sField sf.Typ fname with
      | none =>
        simp only [hrun] at h ⊢
        cases hopt : sField.Optional with
        | false =>
          simp only [hopt, Bool.not_false, if_true] at h
          cases h
          exact Or.inl ⟨rfl, by simp⟩
        | true =>
          simp only [hopt, Bool.not_true, Bool.false_eq_true, if_false, if_true] at h ⊢
          exact convertStructFrom_error field desired dp path run sub e rest members h
      | some out =>
        cases out with
        | error e2 =>
          simp only [hrun] at h ⊢
          cases h
          exact Or.inr ⟨fname, sField, sf.Typ, hrun, rfl⟩
        | panic => simp [hrun] at h
        | ok conv =>
          simp only [hrun] at h ⊢
          split at h
          · exact Outcome.noConfusion h
          · split at h
            · exact Outcome.noConfusion h
            · exact convertStructFrom_error field desired dp path run sub e rest _ h

theorem runKey_eq_lookup (idl : Idl) (sField : Field) (type : GoType) (path fname : String) :
    ∀ m : List (String × GoVal),
      runKey idl sField type path fname m =
        (m.lookup fname).map (fun v => Run idl sField type v path)
  | [] => by simp [runKey, List.lookup]
  | (k, v) :: rest => by
    rw [runKey, List.lookup]
    by_cases hk : (fname == k) = true
    · simp [hk]
    · have hk2 : (fname == k) = false := by simpa using hk
      simp only [hk2]
      simpa using runKey_eq_lookup idl sField type path fname rest

theorem sizeOf_lt_of_lookup {k : String} {v : GoVal} :
    ∀ {m : List (String × GoVal)}, m.lookup k = some v → sizeOf v < sizeOf m
  | [], h => by simp [List.lookup] at h
  | (k2, v2) :: rest, h => by
    rw [List.lookup] at h
    split at h
    · cases h
      simp
      omega
    · have := sizeOf_lt_of_lookup (m := rest) h
      simp
      omega

theorem sizeOf_lt_of_getElem? {el : GoVal} :
    ∀ {elems : List GoVal} {i : Nat}, elems[i]? = some el → sizeOf el < sizeOf elems
  | [], i, h => by simp at h
  | a :: rest, 0, h => by
    simp at h
    subst h
    simp
    omega
  | a :: rest, i + 1, h => by
    simp at h
    have := @sizeOf_lt_of_getElem? el rest i h
    simp
    omega

theorem offendingKey_eq_lookup (idl : Idl) (sField : Field) (type : GoType)
    (path fname : String) :
    ∀ m : List (String × GoVal),
      offendingKey idl sField type path fname m =
        match m.lookup fname with
        | some v => offending idl sField type v path
        | none => []
  | [] => by simp [offendingKey, List.lookup]
  | (k, v) :: rest => by
    rw [offendingKey, List.lookup]
    by_cases hk : (fname == k) = true
    · simp [hk]
    · have hk2 : (fname == k) = false := by simpa using hk
      simp only [hk2]
      simpa using offendingKey_eq_lookup idl sField type path fname rest

theorem offending_slice (idl : Idl) (field : Field) (desired : GoType) (t : GoType)
    (elems : List GoVal) (path : String) :
    offending idl field desired (GoVal.slice t elems) path =
      if t ≠ desired ∧ (stripPtr desired).2.kind = Kind.slice then
        match (stripPtr desired).2.elem with
        | some sliceType =>
          offendingElem idl
            { Name := field.Name, Typ := field.Typ, Optional := field.Optional, IsArray := false }
            sliceType path elems 0
        | none => []
      else [] := by
  rw [offending]

theorem offending_map (idl : Idl) (field : Field) (desired : GoType) (t : GoType)
    (m : List (String × GoVal)) (path : String) :
    offending idl field desired (GoVal.map t m) path =
      if t = GoType.mapStrAny ∧ t ≠ desired ∧ (stripPtr desired).2.kind = Kind.struct then
        match idl.Structs.lookup field.Typ with
        | some idlStruct =>
          offendingFrom (stripPtr desired).2
            (fun sField type fname => runKey idl sField type (path ++ "." ++ fname) fname m)
            (fun sField type fname =>
              offendingKey idl sField type (path ++ "." ++ fname) fname m)
            idlStruct.computed
        | none => []
      else [] := by
  rw [offending]

theorem Run_error_here {idl : Idl} {field : Field} {desired : GoType} {actual : GoVal}
    {p : String} {e : TypeError} (h : Run idl field desired actual p = Outcome.error e)
    (hp : e.path = p) (hoff : offending idl field desired actual p = []) :
    e.path = p ++ segsText (offending idl field desired actual p) ∧
      ∃ (sub : GoVal) (f : Field) (d : GoType),
        subValue (offending idl field desired actual p) actual = some sub ∧
        Run idl f d sub (p ++ segsText (offending idl field desired actual p)) =
          Outcome.error e ∧
        offending idl f d sub (p ++ segsText (offending idl field desired actual p)) = [] := by
  rw [hoff]
  simp only [segsText, String.append_empty, subValue]
  exact ⟨hp, actual, field, desired, rfl, h, hoff⟩

theorem Run_error_path_aux : ∀ (n : Nat) (actual : GoVal), sizeOf actual < n →
    ∀ (idl : Idl) (field : Field) (desired : GoType) (p : String) (e : TypeError),
      Run idl field desired actual p = Outcome.error e →
      e.path = p ++ segsText (offending idl field desired actual p) ∧
        ∃ (sub : GoVal) (f : Field) (d : GoType),
          subValue (offending idl field desired actual p) actual = some sub ∧
          Run idl f d sub (p ++ segsText (offending idl field desired actual p)) =
            Outcome.error e ∧
          offending idl f d sub (p ++ segsText (offending idl field desired actual p)) = []
  | 0, _, hn => by omega
  | n + 1, actual, hn => by
    intro idl field desired p e h
    have hrun := h
    rw [Run] at h
    have hcases := runWith_error h
    cases actual with
    | slice t elems =>
      by_cases hc : t ≠ desired ∧ (stripPtr desired).2.kind = Kind.slice
      · rw [Run_slice idl field desired p t elems hc.1 hc.2] at hrun
        have hoff := offending_slice idl field desired t elems p
        rw [if_pos hc] at hoff
        unfold convertSlice at hrun
        cases hel : (stripPtr desired).2.elem with
        | none => simp [hel] at hrun
        | some sliceType =>
          simp only [hel] at hrun hoff
          obtain ⟨i, el, hi, herr, hoff2⟩ := convertSliceFrom_error _ _ _ _ _ _ _ _ _ hrun
          simp only [Nat.zero_add] at herr hoff2
          have hlt : sizeOf el < n := by
            have := sizeOf_lt_of_getElem? hi
            simp at hn
            omega
          obtain ⟨hpath, sub, f, d, hsub, hsubrun, hsuboff⟩ :=
            Run_error_path_aux n el hlt _ _ _ _ _ herr
          have htext : p ++ segsText (offending idl field desired (GoVal.slice t elems) p) =
              p ++ "[" ++ toString i ++ "]" ++
                segsText (offending idl
                  { Name := field.Name, Typ := field.Typ, Optional := field.Optional,
                    IsArray := false }
                  sliceType el (p ++ "[" ++ toString i ++ "]")) := by
            rw [hoff, hoff2]
            simp [segsText, Seg.text, String.append_assoc]
          rw [htext]
          refine ⟨hpath, sub, f, d, ?_, hsubrun, hsuboff⟩
          rw [hoff, hoff2]
          simp only [subValue, hi]
          exact hsub
      · have hoff := offending_slice idl field desired t elems p
        rw [if_neg hc] at hoff
        refine Run_error_here hrun ?_ hoff
        rcases hcases with hp | ⟨hk, _⟩ | ⟨_, hs⟩
        · exact hp
        · by_cases ht : t = desired
          · rw [Run_of_typeOf_eq idl field desired _ p (by rw [← ht]; rfl)] at hrun
            cases hrun
          · exact absurd ⟨ht, hk⟩ hc
        · simp at hs
    | map t m =>
      by_cases hc : t = GoType.mapStrAny ∧ t ≠ desired ∧ (stripPtr desired).2.kind = Kind.struct
      · obtain ⟨ht, hne, hk⟩ := hc
        subst ht
        rw [Run_struct idl field desired p m hk] at hrun
        have hoff := offending_map idl field desired GoType.mapStrAny m p
        rw [if_pos ⟨rfl, hne, hk⟩] at hoff
        unfold convertStruct at hrun
        cases hS : idl.Structs.lookup field.Typ with
        | none =>
          simp only [hS] at hrun hoff
          cases hrun
          refine Run_error_here ?_ rfl hoff
          rw [Run_struct idl field desired p m hk]
          unfold convertStruct
          simp only [hS]
        | some S =>
          simp only [hS] at hrun hoff
          have hoff : offending idl field desired (GoVal.map GoType.mapStrAny m) p =
              offendingFrom (stripPtr desired).2 (runMember idl p m)
                (fun sField type fname =>
                  offendingKey idl sField type (p ++ "." ++ fname) fname m) S.computed := hoff
          split at hrun
          · rcases convertStructFrom_error _ _ _ _ _
              (fun sField type fname =>
                offendingKey idl sField type (p ++ "." ++ fname) fname m) _ _ _ hrun with
              ⟨hp, ho⟩ | ⟨fname, sField, type, hr, ho⟩
            · refine Run_error_here (by rw [Run]; exact h) hp ?_
              rw [hoff]
              exact ho
            · simp only [runMember] at hr
              rw [runKey_eq_lookup] at hr
              cases hl : m.lookup fname with
              | none => simp [hl] at hr
              | some v =>
                simp only [hl, Option.map_some', Option.some.injEq] at hr
                have hlt : sizeOf v < n := by
                  have := sizeOf_lt_of_lookup hl
                  simp at hn
                  omega
                obtain ⟨hpath, sub, f, d, hsub, hsubrun, hsuboff⟩ :=
                  Run_error_path_aux n v hlt _ _ _ _ _ hr
                have hoff3 : offending idl field desired (GoVal.map GoType.mapStrAny m) p =
                    Seg.member fname :: offending idl sField type v (p ++ "." ++ fname) := by
                  rw [hoff, ho, offendingKey_eq_lookup, hl]
                have htext : p ++ segsText
                      (offending idl field desired (GoVal.map GoType.mapStrAny m) p) =
                    p ++ "." ++ fname ++
                      segsText (offending idl sField type v (p ++ "." ++ fname)) := by
                  rw [hoff3]
                  simp [segsText, Seg.text, String.append_assoc]
                rw [htext]
                refine ⟨hpath, sub, f, d, ?_, hsubrun, hsuboff⟩
                rw [hoff3]
                simp only [subValue, hl]
                exact hsub
          · exact Outcome.noConfusion hrun
      · have hoff := offending_map idl field desired t m p
        rw [if_neg hc] at hoff
        refine Run_error_here hrun ?_ hoff
        rcases hcases with hp | ⟨_, hs⟩ | ⟨hk, hs⟩
        · exact hp
        · simp at hs
        · by_cases ht : t = GoType.mapStrAny
          · by_cases hd : t = desired
            · rw [Run_of_typeOf_eq idl field desired _ p (by rw [← hd]; rfl)] at hrun
              cases hrun
            · exact absurd ⟨ht, hd, hk⟩ hc
          · simp [ht] at hs
    | nil =>
      refine Run_error_here hrun ?_ rfl
      rcases hcases with hp | ⟨_, hs⟩ | ⟨_, hs⟩
      · exact hp
      · simp at hs
      · simp at hs
    | bool t b =>
      refine Run_error_here hrun ?_ rfl
      rcases hcases with hp | ⟨_, hs⟩ | ⟨_, hs⟩
      · exact hp
      · simp at hs
      · simp at hs
    | int t b =>
      refine Run_error_here hrun ?_ rfl
      rcases hcases with hp | ⟨_, hs⟩ | ⟨_, hs⟩
      · exact hp
      · simp at hs
      · simp at hs
    | float t b =>
      refine Run_error_here hrun ?_ rfl
      rcases hcases with hp | ⟨_, hs⟩ | ⟨_, hs⟩
      · exact hp
      · simp at hs
      · simp at hs
    | str t b =>
      refine Run_error_here hrun ?_ rfl
      rcases hcases with hp | ⟨_, hs⟩ | ⟨_, hs⟩
      · exact hp
      · simp at hs
      · simp at hs
    | ptr t b =>
      refine Run_error_here hrun ?_ rfl
      rcases hcases with hp | ⟨_, hs⟩ | ⟨_, hs⟩
      · exact hp
      · simp at hs
      · simp at hs
    | nilPtr t =>
      refine Run_error_here hrun ?_ rfl
      rcases hcases with hp | ⟨_, hs⟩ | ⟨_, hs⟩
      · exact hp
      · simp at hs
      · simp at hs
    | struct t b =>
      refine Run_error_here hrun ?_ rfl
      rcases hcases with hp | ⟨_, hs⟩ | ⟨_, hs⟩
      · exact hp
      · simp at hs
      · simp at hs

/-! ## Structs -/

theorem DistinctTargets.apart {desired : GoType} {p q : String × Field} {i j : List Nat}
    (h : DistinctTargets desired p q) (hp : targetIndex desired p.1 = some i)
    (hq : targetIndex desired q.1 = some j) : apart i j = true := by
  unfold DistinctTargets at h
  simpa only [hp, hq] using h

theorem targetIndex_of_targetMember {desired : GoType} {fname goName : String}
    {sf : StructField} (h : targetMember desired fname = some (goName, sf)) :
    targetIndex desired fname = some sf.Index := by
  simp [targetIndex, h]

theorem convertStructFrom_ok (field : Field) (desired : GoType) (dp : Bool) (path : String)
    (run : Field → GoType → String → Option Outcome) (r : RVal) :
    ∀ (fields : List (String × Field)) (members : List (String × GoVal)),
      convertStructFrom field desired dp path run fields members = Outcome.ok r →
      NoSharedMember desired fields →
      ∃ members2 : List (String × GoVal),
        convertedVal dp (.val (.ptr (.ptr desired) (.struct desired members2)) false) =
          Outcome.ok r ∧
        (∀ fname sField, (fname, sField) ∈ fields →
          ∃ goName sf, targetMember desired fname = some (goName, sf) ∧
            ((run sField sf.Typ fname = none ∧ sField.Optional = true ∧
                fieldByIndex sf.Index members2 = fieldByIndex sf.Index members) ∨
              (∃ conv v, run sField sf.Typ fname = some (Outcome.ok conv) ∧
                assignMember sf.Typ sf.exported conv = some v ∧
                fieldByIndex sf.Index members2 = some v))) ∧
        (∀ index, (∀ p ∈ fields, ∀ j, targetIndex desired p.1 = some j → apart j index = true) →
          fieldByIndex index members2 = fieldByIndex index members)
  | [], members, h, _ => by
    rw [convertStructFrom] at h
    exact ⟨members, h, by simp, by simp⟩
  | (fname, sField) :: rest, members, h, hnd => by
    rw [convertStructFrom_cons] at h
    unfold NoSharedMember at hnd
    rw [List.pairwise_cons] at hnd
    obtain ⟨hhead, hndrest⟩ := hnd
    cases htm : targetMember desired fname with
    | none => simp [htm] at h
    | some gt =>
      obtain ⟨goName, sf⟩ := gt
      have hti := targetIndex_of_targetMember htm
      have hfresh : ∀ p ∈ rest, ∀ j, targetIndex desired p.1 = some j →
          apart j sf.Index = true := by
        intro p hp j hj
        rw [apart_symm]
        exact DistinctTargets.apart (hhead p hp) hti hj
      simp only [htm] at h
      cases hrun : run sField sf.Typ fname with
      | none =>
        simp only [hrun] at h
        cases hopt : sField.Optional with
        | false => simp [hopt] at h
        | true =>
          simp only [hopt, Bool.not_true, Bool.false_eq_true, if_false] at h
          obtain ⟨members2, hres, hfields, hother⟩ :=
            convertStructFrom_ok field desired dp path run r rest members h hndrest
          refine ⟨members2, hres, ?_, ?_⟩
          · intro f2 s2 hmem
            simp only [List.mem_cons, Prod.mk.injEq] at hmem
            rcases hmem with ⟨hf, hs⟩ | hmem
            · subst hf
              subst hs
              exact ⟨goName, sf, htm, Or.inl ⟨hrun, hopt, hother sf.Index hfresh⟩⟩
            · exact hfields f2 s2 hmem
          · intro index hindex
            exact hother index (fun p hp => hindex p (List.mem_cons_of_mem _ hp))
      | some out =>
        cases out with
        | error e => simp [hrun] at h
        | panic => simp [hrun] at h
        | ok conv =>
          simp only [hrun] at h
          cases hl : fieldByIndex sf.Index members with
          | none => simp [hl] at h
          | some old =>
            simp only [hl] at h
            cases ha : assignMember sf.Typ sf.exported conv with
            | none => simp [ha] at h
            | some v =>
              simp only [ha] at h
              obtain ⟨members2, hres, hfields, hother⟩ :=
                convertStructFrom_ok field desired dp path run r rest _ h hndrest
              refine ⟨members2, hres, ?_, ?_⟩
              · intro f2 s2 hmem
                simp only [List.mem_cons, Prod.mk.injEq] at hmem
                rcases hmem with ⟨hf, hs⟩ | hmem
                · subst hf
                  subst hs
                  refine ⟨goName, sf, htm, Or.inr ⟨conv, v, hrun, ha, ?_⟩⟩
                  rw [hother sf.Index hfresh]
                  exact fieldByIndex_setByIndex_same v sf.Index members old hl
                · obtain ⟨g2, sf2, htm2, hcase⟩ := hfields f2 s2 hmem
                  refine ⟨g2, sf2, htm2, ?_⟩
                  rcases hcase with ⟨h1, h2, h3⟩ | hcase
                  · left
                    refine ⟨h1, h2, ?_⟩
                    rw [h3]
                    apply fieldByIndex_setByIndex_apart
                    exact DistinctTargets.apart (hhead (f2, s2) hmem) hti
                      (targetIndex_of_targetMember htm2)
                  · exact Or.inr hcase
              · intro index hindex
                rw [hother index (fun p hp => hindex p (List.mem_cons_of_mem _ hp))]
                apply fieldByIndex_setByIndex_apart
                exact hindex (fname, sField) (List.mem_cons_self _ _) sf.Index hti

theorem zeroAs_of_underlying_struct (tag : GoType) (fs : GoFields) :
    ∀ t : GoType, t.underlying = GoType.struct fs → zeroAs tag t = GoVal.struct tag (zeroMembers fs)
  | .named _ u, h => by
    rw [zeroAs]
    exact zeroAs_of_underlying_struct tag fs u (by simpa [GoType.underlying] using h)
  | .struct fs2, h => by
    simp only [GoType.underlying, GoType.struct.injEq] at h
    subst h
    rw [zeroAs]
  | .basic _, h => by simp [GoType.underlying] at h
  | .ptr _, h => by simp [GoType.underlying] at h
  | .slice _, h => by simp [GoType.underlying] at h
  | .mapStrAny, h => by simp [GoType.underlying] at h
  | .any, h => by simp [GoType.underlying] at h

theorem zeroAs_typeOf_eq (tag : GoType) :
    ∀ (t tag2 : GoType), (zeroAs tag t).typeOf = some tag2 → tag2 = tag
  | .named _ u, tag2, h => by
    rw [zeroAs] at h
    exact zeroAs_typeOf_eq tag u tag2 h
  | .basic b, tag2, h => by
    cases b <;> simp only [zeroAs, GoVal.typeOf, Option.some.injEq] at h <;> exact h.symm
  | .ptr _, tag2, h => by
    simp only [zeroAs, GoVal.typeOf, Option.some.injEq] at h
    exact h.symm
  | .slice _, tag2, h => by
    simp only [zeroAs, GoVal.typeOf, Option.some.injEq] at h
    exact h.symm
  | .struct _, tag2, h => by
    simp only [zeroAs, GoVal.typeOf, Option.some.injEq] at h
    exact h.symm
  | .mapStrAny, tag2, h => by
    simp only [zeroAs, GoVal.typeOf, Option.some.injEq] at h
    exact h.symm
  | .any, tag2, h => by simp [zeroAs, GoVal.typeOf] at h

theorem zeroAs_of_underlying_ptr (tag e : GoType) :
    ∀ t : GoType, t.underlying = GoType.ptr e → zeroAs tag t = GoVal.nilPtr tag
  | .named _ u, h => by
    rw [zeroAs]
    exact zeroAs_of_underlying_ptr tag e u (by simpa [GoType.underlying] using h)
  | .ptr _, _ => rfl
  | .basic _, h => by simp [GoType.underlying] at h
  | .struct _, h => by simp [GoType.underlying] at h
  | .slice _, h => by simp [GoType.underlying] at h
  | .mapStrAny, h => by simp [GoType.underlying] at h
  | .any, h => by simp [GoType.underlying] at h

theorem zeroMembers_named (name : String) :
    ∀ (fs : GoFields) (i : Nat) (sf : StructField), sf ∈ fs.named name i →
      ∃ k, sf.Index = [i + k] ∧ (zeroMembers fs)[k]? = some (sf.Name, zeroOf sf.Typ)
  | .nil, i, sf, h => by simp [GoFields.named] at h
  | .cons n t emb ex rest, i, sf, h => by
    rw [GoFields.named] at h
    have hrest : sf ∈ rest.named name (i + 1) →
        ∃ k, sf.Index = [i + k] ∧
          (zeroMembers (GoFields.cons n t emb ex rest))[k]? = some (sf.Name, zeroOf sf.Typ) := by
      intro h2
      obtain ⟨k, hk, hz⟩ := zeroMembers_named name rest (i + 1) sf h2
      refine ⟨k + 1, ?_, ?_⟩
      · rw [hk]
        congr 1
        omega
      · rw [zeroMembers]
        simpa using hz
    split at h
    · simp only [List.mem_cons] at h
      rcases h with h | h
      · subst h
        exact ⟨0, rfl, by simp [zeroMembers, zeroOf]⟩
      · exact hrest h
    · exact hrest h

theorem zeroMembers_embedded :
    ∀ (fs : GoFields) (i j : Nat) (fs2 : GoFields), (j, fs2) ∈ fs.embedded i →
      ∃ k n t, j = i + k ∧ (zeroMembers fs)[k]? = some (n, zeroOf t) ∧
        t.embeddedStruct = some fs2
  | .nil, i, j, fs2, h => by simp [GoFields.embedded] at h
  | .cons n t emb ex rest, i, j, fs2, h => by
    rw [GoFields.embedded] at h
    have hrest : (j, fs2) ∈ rest.embedded (i + 1) →
        ∃ k n2 t2, j = i + k ∧
          (zeroMembers (GoFields.cons n t emb ex rest))[k]? = some (n2, zeroOf t2) ∧
          t2.embeddedStruct = some fs2 := by
      intro h2
      obtain ⟨k, n2, t2, hk, hz, he⟩ := zeroMembers_embedded rest (i + 1) j fs2 h2
      refine ⟨k + 1, n2, t2, by omega, ?_, he⟩
      rw [zeroMembers]
      simpa using hz
    split at h
    · rename_i fs3 heq
      simp only [List.mem_cons, Prod.mk.injEq] at h
      rcases h with ⟨h1, h2⟩ | h
      · subst h1
        subst h2
        cases emb with
        | false => simp at heq
        | true =>
          simp only [if_true] at heq
          exact ⟨0, n, t, rfl, by simp [zeroMembers, zeroOf], heq⟩
      · exact hrest h
    · exact hrest h

theorem zeroOf_embeddedStruct {t : GoType} {fs : GoFields} (h : t.embeddedStruct = some fs) :
    (zeroOf t).promoted = some (zeroMembers fs) ∨ (zeroOf t).promoted = none := by
  unfold GoType.embeddedStruct at h
  split at h
  · rename_i fs2 heq
    simp only [Option.some.injEq] at h
    subst h
    left
    rw [zeroOf, zeroAs_of_underlying_struct t fs2 t heq]
    rfl
  · rename_i e heq
    right
    rw [zeroOf, zeroAs_of_underlying_ptr t e t heq]
    rfl
  · cases h

theorem GoFields.namedAt_index_ne_nil (name : String) :
    ∀ (d : Nat) (fs : GoFields) (sf : StructField), sf ∈ fs.namedAt name d → sf.Index ≠ []
  | 0, fs, sf, h => by
    rw [GoFields.namedAt] at h
    obtain ⟨k, hk, _⟩ := zeroMembers_named name fs 0 sf h
    rw [hk]
    simp
  | d + 1, fs, sf, h => by
    rw [GoFields.namedAt] at h
    simp only [List.mem_flatten, List.mem_map, exists_exists_and_eq_and] at h
    obtain ⟨p, _, sf2, _, hsf⟩ := h
    rw [← hsf]
    simp

/-- In the zero value of a struct, the member that `FieldByName` finds holds the
zero value of its type, unless it lies behind a nil pointer to an embedded
struct, where `FieldByIndex` panics. -/
theorem fieldByIndex_zeroMembers (name : String) :
    ∀ (d : Nat) (fs : GoFields) (sf : StructField), sf ∈ fs.namedAt name d →
      fieldByIndex sf.Index (zeroMembers fs) = some (zeroOf sf.Typ) ∨
        fieldByIndex sf.Index (zeroMembers fs) = none
  | 0, fs, sf, h => by
    rw [GoFields.namedAt] at h
    obtain ⟨k, hk, hz⟩ := zeroMembers_named name fs 0 sf h
    left
    rw [hk, Nat.zero_add, fieldByIndex, hz]
  | d + 1, fs, sf, h => by
    rw [GoFields.namedAt] at h
    simp only [List.mem_flatten, List.mem_map, exists_exists_and_eq_and] at h
    obtain ⟨p, hp, sf2, hsf2, hsf⟩ := h
    obtain ⟨k, n, t, hk, hz, he⟩ := zeroMembers_embedded fs 0 p.1 p.2 hp
    have hne := GoFields.namedAt_index_ne_nil name d p.2 sf2 hsf2
    rw [← hsf]
    simp only [Nat.zero_add] at hk
    cases hidx : sf2.Index with
    | nil => exact absurd hidx hne
    | cons a as =>
      simp only [hk]
      rw [fieldByIndex, hz]
      simp only []
      rcases zeroOf_embeddedStruct he with hpr | hpr
      · rw [hpr]
        simp only []
        have ih := fieldByIndex_zeroMembers name d p.2 sf2 hsf2
        rw [hidx] at ih
        exact ih
      · rw [hpr]
        exact Or.inr rfl

theorem GoFields.fieldByName_mem (name : String) (fs : GoFields) :
    ∀ (n d : Nat) (sf : StructField), fs.fieldByName name n d = some sf →
      ∃ d2, sf ∈ fs.namedAt name d2
  | 0, d, sf, h => by simp [GoFields.fieldByName] at h
  | n + 1, d, sf, h => by
    rw [GoFields.fieldByName] at h
    split at h
    · exact GoFields.fieldByName_mem name fs n (d + 1) sf h
    · rename_i sf2 heq
      simp only [Option.some.injEq] at h
      subst h
      exact ⟨d, by simp [heq]⟩
    · rename_i sf2 a b heq
      split at h
      · simp only [Option.some.injEq] at h
        subst h
        exact ⟨d, by simp [heq]⟩
      · cases h

theorem targetMember_fieldByName {desired : GoType} {fname goName : String} {sf : StructField}
    (h : targetMember desired fname = some (goName, sf)) :
    desired.fieldByName goName = some sf := by
  unfold targetMember at h
  split at h
  · rename_i t ht
    simp only [Option.some.injEq, Prod.mk.injEq] at h
    rw [← h.1, ← h.2]
    exact ht
  · split at h
    · rename_i t ht
      simp only [Option.some.injEq, Prod.mk.injEq] at h
      rw [← h.1, ← h.2]
      exact ht
    · cases h

/-- The member of the zero record that a schema field is converted into holds
the zero value of its type, unless it lies behind a nil pointer to an embedded
struct. -/
theorem fieldByIndex_zero_of_targetMember {desired : GoType} {fname goName : String}
    {sf : StructField} {zero : List (String × GoVal)} {tag : GoType}
    (h : targetMember desired fname = some (goName, sf))
    (hz : zeroOf desired = GoVal.struct tag zero) :
    fieldByIndex sf.Index zero = some (zeroOf sf.Typ) ∨ fieldByIndex sf.Index zero = none := by
  have hfb := targetMember_fieldByName h
  unfold GoType.fieldByName at hfb
  split at hfb
  · rename_i fs hu
    have hz2 : zeroOf desired = GoVal.struct desired (zeroMembers fs) :=
      zeroAs_of_underlying_struct desired fs desired hu
    rw [hz2] at hz
    simp only [GoVal.struct.injEq] at hz
    rw [← hz.2]
    obtain ⟨d, hd⟩ := GoFields.fieldByName_mem goName fs _ _ sf hfb
    exact fieldByIndex_zeroMembers goName d fs sf hd
  · cases hfb

theorem convertedVal_ptr (dp : Bool) (t : GoType) (v : GoVal) (a : Bool) :
    convertedVal dp (RVal.val (GoVal.ptr (GoType.ptr t) v) a) =
      Outcome.ok (if dp then RVal.val (GoVal.ptr (GoType.ptr t) v) a else RVal.val v true) := by
  cases dp <;> simp [convertedVal, RVal.kind, RVal.elem, GoVal.typeOf, GoType.kind]

theorem reflectSet_eq {ft : GoType} {ex : Bool} {x : RVal} {v : GoVal}
    (h : reflectSet ft ex x = some v) : ∃ a, x = RVal.val v a := by
  unfold reflectSet at h
  split at h
  · cases h
  · split at h
    · split at h
      · simp only [Option.some.injEq] at h
        subst h
        exact ⟨_, rfl⟩
      · cases h
    · cases h

theorem assignMember_holds {ft : GoType} {ex : Bool} {conv : RVal} {v : GoVal}
    (h : assignMember ft ex conv = some v) : MemberHolds conv v := by
  unfold assignMember at h
  split at h
  · split at h
    · obtain ⟨a, ha⟩ := reflectSet_eq h
      rw [ha]
      exact MemberHolds.same v a
    · split at h
      · rename_i x hx
        obtain ⟨a, ha⟩ := reflectSet_eq h
        subst ha
        unfold RVal.addr at hx
        split at hx
        · split at hx
          · simp only [Option.some.injEq, RVal.val.injEq] at hx
            rw [← hx.1]
            exact MemberHolds.addr _ _
          · cases hx
        · cases hx
      · cases h
  · split at h
    · split at h
      · rename_i x hx
        obtain ⟨a, ha⟩ := reflectSet_eq h
        subst ha
        unfold RVal.elem at hx
        split at hx
        · simp only [Option.some.injEq, RVal.val.injEq] at hx
          rw [← hx.1]
          exact MemberHolds.elem _ _ _
        · cases hx
        · cases hx
      · cases h
    · obtain ⟨a, ha⟩ := reflectSet_eq h
      rw [ha]
      exact MemberHolds.same v a

theorem convertStruct_ok_members (idl : Idl) (field : Field) (desired : GoType) (dp : Bool)
    (path : String) (m : List (String × GoVal)) (S : Struct) (r : RVal)
    (hS : idl.Structs.lookup field.Typ = some S)
    (hns : NoSharedMember desired S.computed)
    (hok : convertStruct idl field desired dp path (runMember idl path m) = Outcome.ok r) :
    ∃ members zero : List (String × GoVal),
      zeroOf desired = GoVal.struct desired zero ∧
      r = (if dp then RVal.val (GoVal.ptr (GoType.ptr desired) (GoVal.struct desired members)) false
        else RVal.val (GoVal.struct desired members) true) ∧
      ∀ fname sField, (fname, sField) ∈ S.computed →
        ∃ goName sf, targetMember desired fname = some (goName, sf) ∧
          match m.lookup fname with
          | some mval =>
            ∃ conv v, Run idl sField sf.Typ mval (path ++ "." ++ fname) = Outcome.ok conv ∧
              MemberHolds conv v ∧ fieldByIndex sf.Index members = some v
          | none =>
            sField.Optional = true ∧
              fieldByIndex sf.Index members = fieldByIndex sf.Index zero ∧
              (fieldByIndex sf.Index zero = some (zeroOf sf.Typ) ∨
                fieldByIndex sf.Index zero = none) := by
  unfold convertStruct at hok
  simp only [hS] at hok
  split at hok
  · rename_i tag members0 hz
    have htag : tag = desired := by
      have h1 : (zeroOf desired).typeOf = some tag := by rw [hz]; rfl
      exact zeroAs_typeOf_eq desired desired tag (by rw [← zeroOf, h1])
    subst htag
    obtain ⟨members, hres, hfields, _⟩ :=
      convertStructFrom_ok field tag dp path _ r _ _ hok hns
    rw [convertedVal_ptr] at hres
    refine ⟨members, members0, hz, (Outcome.ok.inj hres).symm, ?_⟩
    intro fname sField hmem
    obtain ⟨goName, sf, htm, hcase⟩ := hfields fname sField hmem
    refine ⟨goName, sf, htm, ?_⟩
    simp only [runMember, runKey_eq_lookup] at hcase
    cases hl : m.lookup fname with
    | none =>
      simp only [hl, Option.map_none', true_and, reduceCtorEq, false_and, exists_false,
        or_false] at hcase
      exact ⟨hcase.1, hcase.2, fieldByIndex_zero_of_targetMember htm hz⟩
    | some mval =>
      simp only [hl, Option.map_some', reduceCtorEq, false_and, Option.some.injEq,
        false_or] at hcase
      obtain ⟨conv, v, hrun, ha, hlk⟩ := hcase
      exact ⟨conv, v, hrun, assignMember_holds ha, hlk⟩
  · cases hok

/-- C19. When `Run`, started with the path `p`, returns an error, that error is
a `TypeError` whose path is `p` followed by the `[i]` and `.fieldName` steps of
the position of the offending sub-value: the position reached by going, from
the source value down, into the first element (in index order) or the value
under the first computed field (in the order of the loop) whose conversion
fails. The sub-value at that position exists; its own conversion, at that path,
is what fails with this error, and it fails for the sub-value itself, not for a
value nested in it. -/
theorem Run_error_path (idl : Idl) (field : Field) (desired : GoType) (actual : GoVal)
    (p : String) (e : TypeError) (h : Run idl field desired actual p = Outcome.error e) :
    e.path = p ++ segsText (offending idl field desired actual p) ∧
      ∃ (sub : GoVal) (f : Field) (d : GoType),
        subValue (offending idl field desired actual p) actual = some sub ∧
        Run idl f d sub (p ++ segsText (offending idl field desired actual p)) =
          Outcome.error e ∧
        offending idl f d sub (p ++ segsText (offending idl field desired actual p)) = [] :=
  Run_error_path_aux (sizeOf actual + 1) actual (Nat.lt_succ_self _) idl field desired p e h

/-- Witness of C19: the test's `{"a": "hi", "b": "foo"}` against `NoNesting`
fails at the path `TestConvert[6].b`, the position of the string under `b`,
which does not convert to `int64`. -/
theorem Run_error_path_witness :
    "TestConvert[6].b" = "TestConvert[6]" ++ segsText [Seg.member "b"] ∧
      ∃ (sub : GoVal) (f : Field) (d : GoType),
        subValue [Seg.member "b"] (GoVal.map GoType.mapStrAny
          [("a", GoVal.str tString "hi"), ("b", GoVal.str tString "foo")]) = some sub ∧
        Run structIdl f d sub ("TestConvert[6]" ++ segsText [Seg.member "b"]) =
          Outcome.error ⟨"TestConvert[6].b",
            "Unable to convert: TestConvert[6].b - string to int64"⟩ ∧
        offending structIdl f d sub ("TestConvert[6]" ++ segsText [Seg.member "b"]) = [] :=
  Run_error_path structIdl noNestField tNoNesting
    (GoVal.map GoType.mapStrAny [("a", GoVal.str tString "hi"), ("b", GoVal.str tString "foo")])
    "TestConvert[6]" ⟨"TestConvert[6].b", "Unable to convert: TestConvert[6].b - string to int64"⟩
    rfl

theorem convertSliceFrom_first_error (idl : Idl) (elemField : Field) (sliceType : GoType)
    (dp : Bool) (path : String) (t : GoType) (ht : t.elem = some sliceType)
    {x : Nat} {pre vs : List GoVal} (hpre : ElemsConvert idl elemField sliceType path x pre vs) :
    ∀ (el : GoVal) (post : List GoVal) (e : TypeError) (acc : List GoVal) (a0 : Bool),
      Run idl elemField sliceType el (path ++ "[" ++ toString (x + pre.length) ++ "]") =
        Outcome.error e →
      convertSliceFrom idl elemField sliceType dp path (pre ++ el :: post) x
        (RVal.val (GoVal.slice t acc) a0) = Outcome.error e := by
  induction hpre with
  | nil x =>
    intro el post e acc a0 hrun
    rw [List.nil_append, convertSliceFrom]
    simp only [List.length_nil, Nat.add_zero] at hrun
    simp [hrun]
  | cons x el0 v a vt rest vs hrun0 htype hassign hrest ih =>
    intro el post e acc a0 hrun
    rw [List.cons_append, convertSliceFrom]
    simp only [hrun0, reflectAppend, ht, htype, hassign, if_true]
    apply ih
    have : x + 1 + rest.length = x + (el0 :: rest).length := by
      simp only [List.length_cons]
      omega
    rw [this]
    exact hrun

/-- C11 (the code at the failing input). For the optional field `optStrField`
and the desired type `[]*string`, the source `[nil, 10]` has one failing
element, the second; `convertSlice` does not return its error: the first
element converts to the zero Value, on which `reflect.Append` panics. -/
theorem convertSlice_error_after_nil_panics (idl : Idl) (path : String) :
    Run idl optStrField (GoType.ptr tString) GoVal.nil (path ++ "[" ++ toString 0 ++ "]") =
        Outcome.ok RVal.invalid ∧
      Run idl optStrField (GoType.ptr tString) (GoVal.int tInt 10)
          (path ++ "[" ++ toString 1 ++ "]") =
        Outcome.error ⟨path ++ "[" ++ toString 1 ++ "]", "Unable to " ++
          goalText (path ++ "[" ++ toString 1 ++ "]") tInt (GoType.ptr tString)⟩ ∧
      convertSlice idl optStrField (GoType.slice (GoType.ptr tString)) false path
          [GoVal.nil, GoVal.int tInt 10] = Outcome.panic :=
  ⟨rfl, rfl, rfl⟩

theorem convertStructFrom_congr (field : Field) (desired : GoType) (dp : Bool) (path : String)
    (run run2 : Field → GoType → String → Option Outcome) :
    ∀ (fields : List (String × Field)) (members : List (String × GoVal)),
      (∀ p ∈ fields, ∀ sField ft, run sField ft p.1 = run2 sField ft p.1) →
      convertStructFrom field desired dp path run fields members =
        convertStructFrom field desired dp path run2 fields members
  | [], members, _ => by rw [convertStructFrom, convertStructFrom]
  | (fname, sField) :: rest, members, h => by
    have hrest : ∀ p ∈ rest, ∀ sField ft, run sField ft p.1 = run2 sField ft p.1 :=
      fun p hp => h p (List.mem_cons_of_mem _ hp)
    have hhead : ∀ s ft, run s ft fname = run2 s ft fname :=
      fun s ft => h (fname, sField) (List.mem_cons_self _ _) s ft
    rw [convertStructFrom_cons, convertStructFrom_cons]
    cases targetMember desired fname with
    | none => rfl
    | some gt =>
      obtain ⟨goName, sf⟩ := gt
      simp only [hhead]
      cases run2 sField sf.Typ fname with
      | none =>
        simp only [convertStructFrom_congr field desired dp path run run2 rest members hrest]
      | some out =>
        cases out with
        | error e => rfl
        | panic => rfl
        | ok conv =>
          simp only []
          cases fieldByIndex sf.Index members with
          | none => rfl
          | some old =>
            simp only []
            cases assignMember sf.Typ sf.exported conv with
            | none => rfl
            | some v =>
              exact convertStructFrom_congr field desired dp path run run2 rest _ hrest

theorem convertStruct_congr (idl : Idl) (field : Field) (desired : GoType) (dp : Bool)
    (path : String) (run run2 : Field → GoType → String → Option Outcome)
    (h : ∀ S, idl.Structs.lookup field.Typ = some S →
      ∀ p ∈ S.computed, ∀ sField ft, run sField ft p.1 = run2 sField ft p.1) :
    convertStruct idl field desired dp path run = convertStruct idl field desired dp path run2 := by
  unfold convertStruct
  cases hS : idl.Structs.lookup field.Typ with
  | none => rfl
  | some S =>
    simp only []
    split
    · exact convertStructFrom_congr field desired dp path run run2 _ _ (h S hS)
    · rfl

theorem lookup_insert {k fname : String} (hne : fname ≠ k) (v : GoVal)
    (post : List (String × GoVal)) :
    ∀ pre : List (String × GoVal),
      List.lookup fname (pre ++ (k, v) :: post) = List.lookup fname (pre ++ post)
  | [] => by
    have hk : (fname == k) = false := by simpa using hne
    simp [List.lookup, hk]
  | (k2, v2) :: pre => by
    have ih := lookup_insert hne v post pre
    simp only [List.cons_append, List.lookup]
    cases fname == k2
    · exact ih
    · rfl

theorem convertStructFrom_not_ok (field : Field) (desired : GoType) (dp : Bool) (path : String)
    (run : Field → GoType → String → Option Outcome) (fname : String) (sField : Field)
    (hopt : sField.Optional = false) (habs : ∀ ft, run sField ft fname = none) (r : RVal) :
    ∀ (fields : List (String × Field)) (members : List (String × GoVal)),
      (fname, sField) ∈ fields →
      convertStructFrom field desired dp path run fields members ≠ Outcome.ok r
  | [], members, hmem => by simp at hmem
  | (f2, s2) :: rest, members, hmem => by
    rw [convertStructFrom_cons]
    simp only [List.mem_cons, Prod.mk.injEq] at hmem
    cases targetMember desired f2 with
    | none => simp
    | some gt =>
      obtain ⟨goName, sf⟩ := gt
      simp only []
      rcases hmem with ⟨hf, hs⟩ | hmem
      · subst hf
        subst hs
        simp [habs sf.Typ, hopt]
      · cases run s2 sf.Typ f2 with
        | none =>
          simp only []
          split
          · simp
          · exact convertStructFrom_not_ok field desired dp path run fname sField hopt habs r
              rest members hmem
        | some out =>
          cases out with
          | error e => simp
          | panic => simp
          | ok conv =>
            simp only []
            cases fieldByIndex sf.Index members with
            | none => simp
            | some old =>
              simp only []
              cases assignMember sf.Typ sf.exported conv with
              | none => simp
              | some v =>
                exact convertStructFrom_not_ok field desired dp path run fname sField hopt habs
                  r rest _ hmem

theorem convertStruct_not_ok_of_missing (idl : Idl) (field : Field) (desired : GoType)
    (dp : Bool) (path : String) (m : List (String × GoVal)) (S : Struct) (fname : String)
    (sField : Field) (hS : idl.Structs.lookup field.Typ = some S)
    (hmem : (fname, sField) ∈ S.computed) (hopt : sField.Optional = false)
    (habs : m.lookup fname = none) (r : RVal) :
    convertStruct idl field desired dp path (runMember idl path m) ≠ Outcome.ok r := by
  unfold convertStruct
  simp only [hS]
  split
  · apply convertStructFrom_not_ok field desired dp path _ fname sField hopt _ r _ _ hmem
    intro ft
    simp [runMember, runKey_eq_lookup, habs]
  · simp

/-- The test's struct conversions: `{"a": "hi", "b": 30}` converts to
`NoNesting{A: "hi", B: 30}`, and the nested `{"name": "hi", "Nest": {"b": 30.0}}`
to `Nested{Name: "hi", Nest: NoNesting{B: 30}}`. -/
theorem convertStruct_test_examples :
    Run structIdl noNestField tNoNesting
        (GoVal.map GoType.mapStrAny [("a", GoVal.str tString "hi"), ("b", GoVal.int tInt 30)])
        "TestConvert[5]" =
      Outcome.ok (RVal.val (GoVal.struct tNoNesting
        [("A", GoVal.str tString "hi"), ("B", GoVal.int tInt64 30),
          ("C", GoVal.float tFloat64 (F64.fin 0 0)), ("D", GoVal.bool tBool false),
          ("E", GoVal.slice (GoType.slice tString) [])]) true) ∧
      Run structIdl nestField tNested
        (GoVal.map GoType.mapStrAny [("name", GoVal.str tString "hi"),
          ("Nest", GoVal.map GoType.mapStrAny [("b", GoVal.float tFloat64 (F64.fin 30 0))])])
        "TestConvert[10]" =
      Outcome.ok (RVal.val (GoVal.struct tNested
        [("Name", GoVal.str tString "hi"),
          ("Nest", GoVal.struct tNoNesting
            [("A", GoVal.str tString ""), ("B", GoVal.int tInt64 30),
              ("C", GoVal.float tFloat64 (F64.fin 0 0)), ("D", GoVal.bool tBool false),
              ("E", GoVal.slice (GoType.slice tString) [])])]) true) :=
  ⟨rfl, rfl⟩

/-- C12 as stated fails: the schema fields `a` and `A` share the member `A` of
the target record; the conversion succeeds, and the member for `a` holds the
conversion of `m["A"]`, not of `m["a"]`. -/
theorem convertStruct_shared_member :
    targetMember tBoth "a" = some ("A", ⟨"A", tString, [0], true⟩) ∧
      Run structIdl ⟨"a", "string", true, false⟩ tString (GoVal.str tString "x")
          ("p" ++ "." ++ "a") = Outcome.ok (RVal.val (GoVal.str tString "x") false) ∧
      convertStruct structIdl bothField tBoth false "p"
          (runMember structIdl "p"
            [("a", GoVal.str tString "x"), ("A", GoVal.str tString "y")]) =
        Outcome.ok (RVal.val (GoVal.struct tBoth [("A", GoVal.str tString "y")]) true) :=
  ⟨by decide, rfl, rfl⟩

/-- C12, amended. For a field whose type resolves to the schema struct `S`, no
two computed fields of which share storage of the target record (their members
are different members, and neither lies inside an embedded struct that is the
other): if `convertStruct` succeeds on the source map `m`, the result is the
target record (or a pointer to it) in which, for every computed field `f`, the
member for `f` (found under the name `f` or `capitalize f`, in the record itself
or promoted from an embedded record) holds the conversion of `m[f]` against `f`
and the member's type when `m` has the key `f`; when `m` has not, `f` is
optional and the member is as in the zero value of the record, where it holds
the zero value of its type (or cannot be reached, behind a nil pointer to an
embedded record). -/
theorem convertStruct_result (idl : Idl) (field : Field) (desired : GoType) (dp : Bool)
    (path : String) (m : List (String × GoVal)) (S : Struct) (r : RVal)
    (hS : idl.Structs.lookup field.Typ = some S)
    (hns : NoSharedMember desired S.computed)
    (hok : convertStruct idl field desired dp path (runMember idl path m) = Outcome.ok r) :
    ∃ members zero : List (String × GoVal),
      zeroOf desired = GoVal.struct desired zero ∧
      r = (if dp then RVal.val (GoVal.ptr (GoType.ptr desired) (GoVal.struct desired members)) false
        else RVal.val (GoVal.struct desired members) true) ∧
      ∀ fname sField, (fname, sField) ∈ S.computed →
        ∃ goName sf, targetMember desired fname = some (goName, sf) ∧
          match m.lookup fname with
          | some mval =>
            ∃ conv v, Run idl sField sf.Typ mval (path ++ "." ++ fname) = Outcome.ok conv ∧
              MemberHolds conv v ∧ fieldByIndex sf.Index members = some v
          | none =>
            sField.Optional = true ∧
              fieldByIndex sf.Index members = fieldByIndex sf.Index zero ∧
              (fieldByIndex sf.Index zero = some (zeroOf sf.Typ) ∨
                fieldByIndex sf.Index zero = none) :=
  convertStruct_ok_members idl field desired dp path m S r hS hns hok

/-- Witness of C12: the source `{"status": "ok"}` against the record `Derived`,
which embeds the record `Base` of its parent; the inherited field `status` is
converted into the promoted member `Status`. -/
theorem convertStruct_result_witness :
    ∃ members zero : List (String × GoVal),
      zeroOf tDerived = GoVal.struct tDerived zero ∧
      RVal.val (GoVal.struct tDerived
          [("Base", GoVal.struct tBase [("Status", GoVal.str tString "ok")]),
            ("Name", GoVal.str tString "")]) true =
        (if false then
          RVal.val (GoVal.ptr (GoType.ptr tDerived) (GoVal.struct tDerived members)) false
        else RVal.val (GoVal.struct tDerived members) true) ∧
      ∀ fname sField, (fname, sField) ∈ derivedStruct.computed →
        ∃ goName sf, targetMember tDerived fname = some (goName, sf) ∧
          match List.lookup fname [("status", GoVal.str tString "ok")] with
          | some mval =>
            ∃ conv v, Run extendsIdl sField sf.Typ mval ("p" ++ "." ++ fname) =
                Outcome.ok conv ∧
              MemberHolds conv v ∧ fieldByIndex sf.Index members = some v
          | none =>
            sField.Optional = true ∧
              fieldByIndex sf.Index members = fieldByIndex sf.Index zero ∧
              (fieldByIndex sf.Index zero = some (zeroOf sf.Typ) ∨
                fieldByIndex sf.Index zero = none) :=
  convertStruct_result extendsIdl derivedField tDerived false "p"
    [("status", GoVal.str tString "ok")] derivedStruct _ rfl
    (by
      unfold NoSharedMember DistinctTargets
      decide) rfl

/-- C13 (the code at the failing input). The schema struct `PtrRec` has the
required field `r`, for which the source `{"p": nil}` has no key; the
conversion does not fail with a `TypeError`: the optional pointer member `p`,
visited first, converts to the zero Value, on which `conv.Addr()` panics. -/
theorem convertStruct_missing_required_panics :
    ptrRecStruct.computed = [("p", ⟨"p", "string", true, false⟩),
        ("r", ⟨"r", "string", false, false⟩)] ∧
      List.lookup "r" [("p", GoVal.nil)] = none ∧
      convertStruct structIdl ptrRecField tPtrRec false "p"
        (runMember structIdl "p" [("p", GoVal.nil)]) = Outcome.panic ∧
      Run structIdl ptrRecField tPtrRec (GoVal.map GoType.mapStrAny [("p", GoVal.nil)]) "p" =
        Outcome.panic :=
  ⟨rfl, rfl, rfl, rfl⟩

/-- C14 as stated fails: the source has no key `d` but the key `D`; the
required field `d` counts as missing. -/
theorem convertStruct_capital_key_missing :
    List.lookup "d" [("D", GoVal.bool tBool true)] = none ∧
      List.lookup (capitalize "d") [("D", GoVal.bool tBool true)] = some (GoVal.bool tBool true) ∧
      convertStruct structIdl flagField tFlag false "p"
          (runMember structIdl "p" [("D", GoVal.bool tBool true)]) =
        Outcome.error ⟨"p", "Struct value: Flag is missing required field: d"⟩ :=
  ⟨rfl, rfl, rfl⟩

/-- C14, amended. The source map is read under the exact name of a schema field
only. For a computed field `f` of `S` and a source map without the key `f`,
whether or not it has the key `capitalize f`: a required `f` counts as missing
and the conversion does not succeed; for an optional `f`, when no two computed
fields share storage of the target record and the conversion succeeds, the
member for `f` is as in the zero value of the record, where it holds the zero
value of its type (or cannot be reached, behind a nil pointer to an embedded
record). -/
theorem convertStruct_exact_key (idl : Idl) (field : Field) (desired : GoType) (dp : Bool)
    (path : String) (m : List (String × GoVal)) (S : Struct) (fname : String) (sField : Field)
    (hS : idl.Structs.lookup field.Typ = some S) (hmem : (fname, sField) ∈ S.computed)
    (habs : m.lookup fname = none) :
    (sField.Optional = false →
        ∀ r, convertStruct idl field desired dp path (runMember idl path m) ≠ Outcome.ok r) ∧
      (sField.Optional = true →
        NoSharedMember desired S.computed →
        ∀ r, convertStruct idl field desired dp path (runMember idl path m) = Outcome.ok r →
          ∃ (members zero : List (String × GoVal)) (goName : String) (sf : StructField),
            zeroOf desired = GoVal.struct desired zero ∧
            r = (if dp then
                RVal.val (GoVal.ptr (GoType.ptr desired) (GoVal.struct desired members)) false
              else RVal.val (GoVal.struct desired members) true) ∧
            targetMember desired fname = some (goName, sf) ∧
            fieldByIndex sf.Index members = fieldByIndex sf.Index zero ∧
            (fieldByIndex sf.Index zero = some (zeroOf sf.Typ) ∨
              fieldByIndex sf.Index zero = none)) := by
  constructor
  · intro hopt r
    exact convertStruct_not_ok_of_missing idl field desired dp path m S fname sField hS hmem hopt
      habs r
  · intro _ hns r hok
    obtain ⟨members, zero, hz, hr, hfields⟩ :=
      convertStruct_ok_members idl field desired dp path m S r hS hns hok
    obtain ⟨goName, sf, htm, hcase⟩ := hfields fname sField hmem
    rw [habs] at hcase
    exact ⟨members, zero, goName, sf, hz, hr, htm, hcase.2.1, hcase.2.2⟩

/-- Witness of C14: with the only key `D`, the required field `d` of `Flag`
makes the conversion fail, and the optional field `d` of `OptFlag` leaves the
member `D` at `false`. -/
theorem convertStruct_exact_key_witness :
    (∀ r, convertStruct structIdl flagField tFlag false "p"
        (runMember structIdl "p" [("D", GoVal.bool tBool true)]) ≠ Outcome.ok r) ∧
      ∃ (members zero : List (String × GoVal)) (goName : String) (sf : StructField),
        zeroOf tFlag = GoVal.struct tFlag zero ∧
        RVal.val (GoVal.struct tFlag [("D", GoVal.bool tBool false)]) true =
          (if false then
            RVal.val (GoVal.ptr (GoType.ptr tFlag) (GoVal.struct tFlag members)) false
          else RVal.val (GoVal.struct tFlag members) true) ∧
        targetMember tFlag "d" = some (goName, sf) ∧
        fieldByIndex sf.Index members = fieldByIndex sf.Index zero ∧
        (fieldByIndex sf.Index zero = some (zeroOf sf.Typ) ∨
          fieldByIndex sf.Index zero = none) :=
  ⟨(convertStruct_exact_key structIdl flagField tFlag false "p" [("D", GoVal.bool tBool true)]
      flagStruct "d" ⟨"d", "bool", false, false⟩ rfl (by simp [flagStruct]) rfl).1 rfl,
    (convertStruct_exact_key structIdl optFlagField tFlag false "p"
      [("D", GoVal.bool tBool true)] optFlagStruct "d" ⟨"d", "bool", true, false⟩ rfl
      (by simp [optFlagStruct]) rfl).2 rfl
      (by
        unfold NoSharedMember DistinctTargets
        decide) _ rfl⟩

/-- C15. A key `k` that is not the name of a computed field of the schema
struct is ignored: struct conversion of the source map with an entry for `k`
added gives the same outcome as without it, for `convertStruct` and for `Run`
on a desired type of struct kind. -/
theorem convertStruct_unknown_key (idl : Idl) (field : Field) (desired : GoType) (dp : Bool)
    (path : String) (pre post : List (String × GoVal)) (k : String) (v : GoVal)
    (hk : ∀ S, idl.Structs.lookup field.Typ = some S → ∀ p ∈ S.computed, p.1 ≠ k) :
    convertStruct idl field desired dp path (runMember idl path (pre ++ (k, v) :: post)) =
        convertStruct idl field desired dp path (runMember idl path (pre ++ post)) ∧
      ((stripPtr desired).2.kind = Kind.struct →
        Run idl field desired (GoVal.map GoType.mapStrAny (pre ++ (k, v) :: post)) path =
          Run idl field desired (GoVal.map GoType.mapStrAny (pre ++ post)) path) := by
  have hc : ∀ (d : GoType) (b : Bool),
      convertStruct idl field d b path (runMember idl path (pre ++ (k, v) :: post)) =
        convertStruct idl field d b path (runMember idl path (pre ++ post)) := by
    intro d b
    apply convertStruct_congr
    intro S hS p hp sField ft
    simp only [runMember, runKey_eq_lookup]
    rw [lookup_insert (hk S hS p hp) v post pre]
  refine ⟨hc desired dp, fun hkind => ?_⟩
  rw [Run_struct idl field desired path _ hkind, Run_struct idl field desired path _ hkind]
  exact hc _ _

/-- Witness of C15: the test's `{"a": "hi", "b": 30}` with the unknown key
`zzz` added converts like the map without it. -/
theorem convertStruct_unknown_key_witness :
    Run structIdl noNestField tNoNesting (GoVal.map GoType.mapStrAny
        ([("a", GoVal.str tString "hi")] ++ ("zzz", GoVal.int tInt 1) ::
          [("b", GoVal.int tInt 30)])) "p" =
      Run structIdl noNestField tNoNesting (GoVal.map GoType.mapStrAny
        ([("a", GoVal.str tString "hi")] ++ [("b", GoVal.int tInt 30)])) "p" :=
  (convertStruct_unknown_key structIdl noNestField tNoNesting false "p"
    [("a", GoVal.str tString "hi")] [("b", GoVal.int tInt 30)] "zzz" (GoVal.int tInt 1)
    (by
      intro S hS p hp
      have hS2 : S = noNestStruct := by
        have : structIdl.Structs.lookup noNestField.Typ = some noNestStruct := rfl
        rw [this] at hS
        exact (Option.some.inj hS).symm
      subst hS2
      simp only [noNestStruct, noNestFields, List.map_cons, List.map_nil, List.mem_cons,
        List.mem_singleton, List.not_mem_nil, or_false] at hp
      rcases hp with h | h | h | h | h <;> subst h <;> decide)).2 rfl

/-! ## The error text -/

/-- C16 as stated fails: the error string of `TypeError{"p", "m"}` is
`barrister: p: m`, not `p: m`. -/
theorem TypeError_Error_has_prefix :
    (TypeError.mk "p" "m").Error = "barrister: p: m" ∧
      (TypeError.mk "p" "m").Error ≠ "p" ++ ": " ++ "m" := by
  constructor
  · rfl
  · decide

/-- C16, amended. The error string of `TypeError{path: p, msg: m}` is
`barrister: ` followed by `p`, `: ` and `m`. -/
theorem TypeError_Error_format (p m : String) :
    (TypeError.mk p m).Error = "barrister: " ++ (p ++ ": " ++ m) := by
  simp [TypeError.Error, String.append_assoc]

/-! ## Panics and the shape of results -/

/-- C17 (the code at the failing inputs). `Run` panics on a nil element of a
sequence whose element type is a pointer, for an optional field
(`reflect.Append` of the zero Value), and on an explicit nil for an optional
member of pointer type (`conv.Addr()` on the zero Value). -/
theorem Run_panics_on_nil (idl : Idl) (path : String) :
    Run idl optStrField (GoType.slice (GoType.ptr tString)) (GoVal.slice tAnySlice [GoVal.nil])
        path = Outcome.panic ∧
      Run structIdl ptrRecField tPtrRec
        (GoVal.map GoType.mapStrAny [("p", GoVal.nil), ("r", GoVal.str tString "x")]) path =
        Outcome.panic :=
  ⟨rfl, rfl⟩

theorem zeroAs_typeOf (tag : GoType) :
    ∀ t : GoType, t.kind ≠ Kind.interface → (zeroAs tag t).typeOf = some tag
  | .named _ u, h => by
    rw [zeroAs]
    exact zeroAs_typeOf tag u (by simpa [GoType.kind] using h)
  | .basic b, _ => by cases b <;> rfl
  | .ptr _, _ => rfl
  | .slice _, _ => rfl
  | .struct _, _ => rfl
  | .mapStrAny, _ => rfl
  | .any, h => by simp [GoType.kind] at h

theorem zeroAs_of_underlying_slice (tag e : GoType) :
    ∀ t : GoType, t.underlying = GoType.slice e → zeroAs tag t = GoVal.slice tag []
  | .named _ u, h => by
    rw [zeroAs]
    exact zeroAs_of_underlying_slice tag e u (by simpa [GoType.underlying] using h)
  | .slice _, _ => rfl
  | .basic _, h => by simp [GoType.underlying] at h
  | .ptr _, h => by simp [GoType.underlying] at h
  | .struct _, h => by simp [GoType.underlying] at h
  | .mapStrAny, h => by simp [GoType.underlying] at h
  | .any, h => by simp [GoType.underlying] at h

theorem stripPtr_snd_of_fst_false {desired : GoType} (h : (stripPtr desired).1 = false) :
    (stripPtr desired).2 = desired := by
  unfold stripPtr at h ⊢
  split
  · rename_i e he
    simp [he] at h
  · rfl

theorem resultShape_of_ite {desired : GoType} {v : GoVal} {r : RVal} {a : Bool}
    (hv : v.typeOf = some (stripPtr desired).2)
    (hr : r = (if (stripPtr desired).1
      then RVal.val (GoVal.ptr (GoType.ptr (stripPtr desired).2) v) a
      else RVal.val v true)) : ResultShape desired r := by
  cases hdp : (stripPtr desired).1 with
  | true =>
    right
    refine ⟨hdp, Or.inl ?_⟩
    simp [hr, hdp, RVal.type, GoVal.typeOf]
  | false =>
    left
    simp [hr, hdp, RVal.type, hv, stripPtr_snd_of_fst_false hdp]

theorem resultShape_of_convertedVal {desired : GoType} {v : GoVal} {r : RVal}
    (hv : v.typeOf = some (stripPtr desired).2)
    (h : convertedVal (stripPtr desired).1 ((reflectNew (stripPtr desired).2).store v) =
      Outcome.ok r) : ResultShape desired r := by
  rw [convertedVal_new_store] at h
  exact resultShape_of_ite hv (Outcome.ok.inj h).symm

theorem returnVal_ok_conv {field : Field} {path : String} {dp : Bool} {conv : RVal}
    {ty : String} {v : RVal} (h : returnVal field path dp conv ty = Outcome.ok v) :
    convertedVal dp conv = Outcome.ok v := by
  unfold returnVal at h
  split at h
  · cases h
  · exact h

theorem resultShape_of_returnVal {desired : GoType} {field : Field} {path ty : String}
    {v : GoVal} {r : RVal} (hv : v.typeOf = some (stripPtr desired).2)
    (h : returnVal field path (stripPtr desired).1 ((reflectNew (stripPtr desired).2).store v) ty =
      Outcome.ok r) : ResultShape desired r :=
  resultShape_of_convertedVal hv (returnVal_ok_conv h)

theorem convertSliceFrom_ok_shape (idl : Idl) (elemField : Field) (sliceType : GoType)
    (dp : Bool) (path : String) (t : GoType) (ht : t.kind = Kind.slice) (r : RVal) :
    ∀ (elems : List GoVal) (x : Nat) (acc : List GoVal) (a : Bool),
      convertSliceFrom idl elemField sliceType dp path elems x (RVal.val (GoVal.slice t acc) a) =
        Outcome.ok r →
      r.type = some t
  | [], x, acc, a, h => by
    rw [convertSliceFrom] at h
    simp [convertedVal, RVal.kind, GoVal.typeOf, ht] at h
    rw [← h]
    rfl
  | el :: rest, x, acc, a, h => by
    rw [convertSliceFrom] at h
    split at h
    · cases h
    · cases h
    · rename_i conv hrun
      split at h
      · cases h
      · rename_i slice2 happ
        cases conv with
        | invalid => simp [reflectAppend] at happ
        | val v av =>
          simp only [reflectAppend] at happ
          split at happ
          · split at happ
            · simp only [Option.some.injEq] at happ
              subst happ
              exact convertSliceFrom_ok_shape idl elemField sliceType dp path t ht r rest _ _ _ h
            · cases happ
          · cases happ

theorem convertStructFrom_ok_shape (field : Field) (desired : GoType) (dp : Bool) (path : String)
    (run : Field → GoType → String → Option Outcome) (r : RVal) :
    ∀ (fields : List (String × Field)) (members : List (String × GoVal)),
      convertStructFrom field desired dp path run fields members = Outcome.ok r →
      ∃ members2 : List (String × GoVal),
        r = (if dp then
            RVal.val (GoVal.ptr (GoType.ptr desired) (GoVal.struct desired members2)) false
          else RVal.val (GoVal.struct desired members2) true)
  | [], members, h => by
    rw [convertStructFrom, convertedVal_ptr] at h
    exact ⟨members, (Outcome.ok.inj h).symm⟩
  | (fname, sField) :: rest, members, h => by
    rw [convertStructFrom_cons] at h
    repeat' split at h
    all_goals first
      | exact Outcome.noConfusion h
      | exact convertStructFrom_ok_shape field desired dp path run r rest _ h


theorem Run_ok_shape (idl : Idl) (field : Field) (desired : GoType) (actual : GoVal)
    (path : String) (actType : GoType) (r : RVal) (hT : actual.typeOf = some actType)
    (h : Run idl field desired actual path = Outcome.ok r) : ResultShape desired r := by
  rw [Run] at h
  unfold runWith at h
  by_cases hne : actType = desired
  · simp only [hT, hne, if_true] at h
    left
    have hr : r = RVal.val actual false := by
      cases actual <;> simp_all [valueOf, GoVal.typeOf]
    rw [hr]
    simp only [RVal.type, hT, hne]
  · simp only [hT, hne, if_false] at h
    split at h
    · rename_i s hs
      have hk : (stripPtr desired).2.kind = Kind.string := by
        by_contra hc
        simp [hc] at hs
      have hz : (zeroOf (stripPtr desired).2).typeOf = some (stripPtr desired).2 :=
        zeroAs_typeOf _ _ (by rw [hk]; decide)
      have hunstored : ∀ ty, returnVal field path (stripPtr desired).1
          (reflectNew (stripPtr desired).2) ty = Outcome.ok r → ResultShape desired r :=
        fun ty h2 => resultShape_of_returnVal (v := zeroOf (stripPtr desired).2) hz h2
      split at h
      · split at h
        · split at h
          · exact resultShape_of_convertedVal (by rfl) h
          · cases h
        · exact hunstored _ h
      · exact hunstored _ h
    · split at h
      · rename_i hk
        have hz : (zeroOf (stripPtr desired).2).typeOf = some (stripPtr desired).2 :=
          zeroAs_typeOf _ _ (by rw [hk]; decide)
        split at h
        · exact resultShape_of_returnVal (v := zeroOf (stripPtr desired).2) hz h
        · cases h
      all_goals (repeat' split at h)
      all_goals first
        | exact Outcome.noConfusion h
        | exact resultShape_of_returnVal (by rfl) h
        | skip
      · -- slice
        rename_i hk _ r2 hcs
        subst h
        cases actual with
        | slice t elems =>
          simp only [] at hcs
          split at hcs
          · rename_i sliceType hel
            simp only [Option.some.injEq] at hcs
            have hu : ∃ e, (stripPtr desired).2.underlying = GoType.slice e := by
              unfold GoType.elem at hel
              split at hel
              · rename_i e he
                have := GoType.underlying_kind (stripPtr desired).2
                rw [he, hk] at this
                simp [GoType.kind] at this
              · exact ⟨_, by assumption⟩
              · cases hel
            obtain ⟨e, he⟩ := hu
            have hz : zeroOf (stripPtr desired).2 = GoVal.slice (stripPtr desired).2 [] :=
              zeroAs_of_underlying_slice _ e _ he
            rw [hz] at hcs
            have hty := convertSliceFrom_ok_shape _ _ _ _ _ _ hk _ _ _ _ _ hcs
            cases hdp : (stripPtr desired).1 with
            | true => exact Or.inr ⟨hdp, Or.inr ⟨hk, hty⟩⟩
            | false =>
              left
              rw [hty, stripPtr_snd_of_fst_false hdp]
          · simp at hcs
        | _ => simp at hcs
      · -- struct
        rename_i hk _ r2 hcs
        subst h
        cases actual with
        | map t m =>
          simp only [] at hcs
          split at hcs
          · simp only [Option.some.injEq] at hcs
            unfold convertStruct at hcs
            split at hcs
            · cases hcs
            · split at hcs
              · rename_i tag members0 hz
                obtain ⟨members2, hr⟩ := convertStructFrom_ok_shape _ _ _ _ _ _ _ _ hcs
                exact resultShape_of_ite (v := GoVal.struct (stripPtr desired).2 members2) rfl hr
              · cases hcs
          · simp at hcs
        | _ => simp at hcs

/-- C18 (the code at the failing input). For the desired type `*[]string` the
conversion of `["a"]` succeeds with a value of type `[]string`: a slice, not a
pointer to one. -/
theorem Run_ptr_to_slice_returns_slice (idl : Idl) (path : String) :
    Run idl strField (GoType.ptr (GoType.slice tString))
        (GoVal.slice tAnySlice [GoVal.str tString "a"]) path =
        Outcome.ok (RVal.val (GoVal.slice (GoType.slice tString) [GoVal.str tString "a"]) false) ∧
      (RVal.val (GoVal.slice (GoType.slice tString) [GoVal.str tString "a"]) false).type =
        some (GoType.slice tString) ∧
      (RVal.val (GoVal.slice (GoType.slice tString) [GoVal.str tString "a"]) false).kind =
        Kind.slice :=
  ⟨rfl, rfl, rfl⟩

/-! ## `capitalize` -/

theorem Char.ascii_toUpper_facts :
    ∀ n : Nat, n < 128 → (Char.ofNat n).val < 128 ∧ (Char.ofNat n).toUpper.val < 128 ∧
      (Char.ofNat n).toUpper.toUpper = (Char.ofNat n).toUpper := by
  decide

theorem Char.isAlpha_lt (c : Char) (hc : c.isAlpha = true) : c.toNat < 128 := by
  simp only [Char.isAlpha, Char.isUpper, Char.isLower, Bool.or_eq_true, Bool.and_eq_true,
    decide_eq_true_eq] at hc
  have e1 : (90 : UInt32).toNat = 90 := rfl
  have e2 : (122 : UInt32).toNat = 122 := rfl
  rcases hc with ⟨_, h⟩ | ⟨_, h⟩
  · have h2 : c.val.toNat ≤ (90 : UInt32).toNat := h
    rw [e1] at h2
    show c.val.toNat < 128
    omega
  · have h2 : c.val.toNat ≤ (122 : UInt32).toNat := h
    rw [e2] at h2
    show c.val.toNat < 128
    omega

theorem capitalize_ascii (c : Char) (rest : List Char) (hc : c.toNat < 128) :
    capitalize ⟨c :: rest⟩ = ⟨c.toUpper :: rest⟩ ∧
      capitalize (capitalize ⟨c :: rest⟩) = capitalize ⟨c :: rest⟩ := by
  have hf := Char.ascii_toUpper_facts c.toNat hc
  rw [Char.ofNat_toNat] at hf
  obtain ⟨h1, h2, h3⟩ := hf
  have hcap : capitalize ⟨c :: rest⟩ = ⟨c.toUpper :: rest⟩ := by
    simp [capitalize, h1]
  refine ⟨hcap, ?_⟩
  rw [hcap]
  simp [capitalize, h2, h3]

/-- C20. `capitalize "" = ""`; for a string whose first character `c` is an
ASCII letter, `capitalize` gives the upper case of `c` followed by the rest
unchanged, the length is kept, and capitalizing again changes nothing. -/
theorem capitalize_letter (c : Char) (rest : List Char) (hc : c.isAlpha = true) :
    capitalize "" = "" ∧
      capitalize ⟨c :: rest⟩ = ⟨c.toUpper :: rest⟩ ∧
      (capitalize ⟨c :: rest⟩).length = (String.mk (c :: rest)).length ∧
      capitalize (capitalize ⟨c :: rest⟩) = capitalize ⟨c :: rest⟩ := by
  have h := capitalize_ascii c rest (Char.isAlpha_lt c hc)
  refine ⟨rfl, h.1, ?_, h.2⟩
  rw [h.1]
  simp [String.length]

/-- Witness of C20: `capitalize "d" = "D"`. -/
theorem capitalize_letter_witness :
    capitalize "" = "" ∧ capitalize "d" = "D" ∧ (capitalize "d").length = "d".length ∧
      capitalize (capitalize "d") = capitalize "d" :=
  capitalize_letter 'd' [] (by decide)

/-! ## Independence of the order of the computed fields -/

theorem convertStructFrom_ok_iff_action (field : Field) (desired : GoType) (dp : Bool)
    (path : String) (run : Field → GoType → String → Option Outcome) (p : String × Field)
    (rest : List (String × Field)) (members : List (String × GoVal)) (r : RVal) :
    convertStructFrom field desired dp path run (p :: rest) members = Outcome.ok r ↔
      ∃ a members2, fieldAction desired run p = some a ∧ applyAction members a = some members2 ∧
        convertStructFrom field desired dp path run rest members2 = Outcome.ok r := by
  obtain ⟨fname, sField⟩ := p
  rw [convertStructFrom_cons]
  unfold fieldAction
  cases htm : targetMember desired fname with
  | none => simp
  | some gt =>
    obtain ⟨goName, sf⟩ := gt
    simp only []
    cases hrun : run sField sf.Typ fname with
    | none =>
      cases hopt : sField.Optional <;> simp [applyAction]
    | some out =>
      cases out with
      | error e => simp
      | panic => simp
      | ok conv =>
        simp only []
        cases ha : assignMember sf.Typ sf.exported conv with
        | none =>
          cases hl : fieldByIndex sf.Index members <;> simp
        | some v =>
          cases hl : fieldByIndex sf.Index members <;> simp [applyAction, hl]

theorem fieldAction_index {desired : GoType} {run : Field → GoType → String → Option Outcome}
    {p : String × Field} {index : List Nat} {v : GoVal}
    (h : fieldAction desired run p = some (some (index, v))) :
    targetIndex desired p.1 = some index := by
  unfold fieldAction at h
  unfold targetIndex
  cases htm : targetMember desired p.1 with
  | none => simp [htm] at h
  | some gt =>
    obtain ⟨goName, sf⟩ := gt
    simp only [htm] at h
    split at h
    · split at h <;> simp at h
    · split at h
      · simp only [Option.some.injEq, Prod.mk.injEq] at h
        simp [h.1]
      · cases h
    · cases h

theorem applyAction_comm (a b : Option (List Nat × GoVal))
    (hne : ∀ i1 v1 i2 v2, a = some (i1, v1) → b = some (i2, v2) → apart i1 i2 = true)
    (m m1 m2 : List (String × GoVal)) (h1 : applyAction m a = some m1)
    (h2 : applyAction m1 b = some m2) :
    ∃ m3, applyAction m b = some m3 ∧ applyAction m3 a = some m2 := by
  cases a with
  | none =>
    simp only [applyAction, Option.some.injEq] at h1
    subst h1
    exact ⟨m2, h2, rfl⟩
  | some ga =>
    obtain ⟨i1, v1⟩ := ga
    cases b with
    | none =>
      simp only [applyAction, Option.some.injEq] at h2
      subst h2
      exact ⟨m, rfl, h1⟩
    | some gb =>
      obtain ⟨i2, v2⟩ := gb
      have hg : apart i1 i2 = true := hne i1 v1 i2 v2 rfl rfl
      have hg2 : apart i2 i1 = true := by rw [apart_symm]; exact hg
      simp only [applyAction] at h1 h2 ⊢
      cases hl1 : fieldByIndex i1 m with
      | none => simp [hl1] at h1
      | some o1 =>
        simp only [hl1, Option.some.injEq] at h1
        subst h1
        rw [fieldByIndex_setByIndex_apart v1 i1 i2 m hg] at h2
        cases hl2 : fieldByIndex i2 m with
        | none => simp [hl2] at h2
        | some o2 =>
          simp only [hl2, Option.some.injEq] at h2
          subst h2
          refine ⟨setByIndex i2 v2 m, rfl, ?_⟩
          rw [fieldByIndex_setByIndex_apart v2 i2 i1 m hg2, hl1]
          simp only [Option.some.injEq]
          exact (setByIndex_comm v2 v1 i2 i1 m hg2).symm

theorem DistinctTargets.symm {desired : GoType} {p q : String × Field}
    (h : DistinctTargets desired p q) : DistinctTargets desired q p := by
  unfold DistinctTargets at h ⊢
  cases hp : targetIndex desired p.1 with
  | none => cases hq : targetIndex desired q.1 <;> rfl
  | some i =>
    cases hq : targetIndex desired q.1 with
    | none => rfl
    | some j =>
      simp only [hp, hq] at h ⊢
      rw [apart_symm]
      exact h

theorem convertStructFrom_perm (field : Field) (desired : GoType) (dp : Bool) (path : String)
    (run : Field → GoType → String → Option Outcome) (r : RVal)
    {l1 l2 : List (String × Field)} (hperm : l1.Perm l2) :
    NoSharedMember desired l1 → ∀ members : List (String × GoVal),
      convertStructFrom field desired dp path run l1 members = Outcome.ok r →
      convertStructFrom field desired dp path run l2 members = Outcome.ok r := by
  induction hperm with
  | nil => exact fun _ _ h => h
  | cons x _ ih =>
    intro hns members h
    rw [convertStructFrom_ok_iff_action] at h ⊢
    obtain ⟨a, m2, ha, hm, hrest⟩ := h
    exact ⟨a, m2, ha, hm, ih (List.Pairwise.of_cons hns) m2 hrest⟩
  | swap x y l =>
    intro hns members h
    rw [convertStructFrom_ok_iff_action] at h
    obtain ⟨ay, m1, hay, hm1, h⟩ := h
    rw [convertStructFrom_ok_iff_action] at h
    obtain ⟨ax, m2, hax, hm2, hrest⟩ := h
    have hxy : DistinctTargets desired y x := by
      unfold NoSharedMember at hns
      rw [List.pairwise_cons] at hns
      exact hns.1 x (List.mem_cons_self _ _)
    have hne : ∀ i1 v1 i2 v2, ay = some (i1, v1) → ax = some (i2, v2) →
        apart i1 i2 = true := by
      intro i1 v1 i2 v2 e1 e2
      subst e1
      subst e2
      exact DistinctTargets.apart hxy (fieldAction_index hay) (fieldAction_index hax)
    obtain ⟨m3, hm3, hm4⟩ := applyAction_comm ay ax hne members m1 m2 hm1 hm2
    rw [convertStructFrom_ok_iff_action]
    refine ⟨ax, m3, hax, hm3, ?_⟩
    rw [convertStructFrom_ok_iff_action]
    exact ⟨ay, m2, hay, hm4, hrest⟩
  | trans h12 _ ih1 ih2 =>
    intro hns members h
    have hns2 := (List.Perm.pairwise_iff (fun hpq => DistinctTargets.symm hpq) h12).mp hns
    exact ih2 hns2 members (ih1 hns members h)

theorem convertStruct_perm (idl1 idl2 : Idl) (field : Field) (desired : GoType) (dp : Bool)
    (path : String) (run : Field → GoType → String → Option Outcome) (S1 S2 : Struct)
    (h1 : idl1.Structs.lookup field.Typ = some S1) (h2 : idl2.Structs.lookup field.Typ = some S2)
    (hperm : S1.computed.Perm S2.computed) (hns : NoSharedMember desired S1.computed) (r : RVal) :
    convertStruct idl1 field desired dp path run = Outcome.ok r ↔
      convertStruct idl2 field desired dp path run = Outcome.ok r := by
  have hns2 : NoSharedMember desired S2.computed :=
    (List.Perm.pairwise_iff (fun hpq => DistinctTargets.symm hpq) hperm).mp hns
  unfold convertStruct
  simp only [h1, h2]
  split
  · exact ⟨convertStructFrom_perm field desired dp path run r hperm hns _,
      convertStructFrom_perm field desired dp path run r hperm.symm hns2 _⟩
  · simp

/-- Members of different names can share storage: the schema field `status` is
converted into the member `Status` promoted from the embedded record `Base`,
and the schema field `Base` into the embedded record itself. The conversion
succeeds under both orders of the two fields, and the field visited last
decides what `Status` holds. -/
theorem convertStruct_embedded_overlap :
    targetIndex tDerived "status" = some [0, 0] ∧ targetIndex tDerived "Base" = some [0] ∧
      convertStruct overlapIdl derivedField tDerived false "p"
          (runMember overlapIdl "p"
            [("status", GoVal.str tString "s"),
              ("Base", GoVal.map GoType.mapStrAny [("status", GoVal.str tString "t")])]) =
        Outcome.ok (RVal.val (GoVal.struct tDerived
          [("Base", GoVal.struct tBase [("Status", GoVal.str tString "t")]),
            ("Name", GoVal.str tString "")]) true) ∧
      convertStruct overlapIdlSwapped derivedField tDerived false "p"
          (runMember overlapIdl "p"
            [("status", GoVal.str tString "s"),
              ("Base", GoVal.map GoType.mapStrAny [("status", GoVal.str tString "t")])]) =
        Outcome.ok (RVal.val (GoVal.struct tDerived
          [("Base", GoVal.struct tBase [("Status", GoVal.str tString "s")]),
            ("Name", GoVal.str tString "")]) true) :=
  ⟨by decide, by decide, rfl, rfl⟩

/-- C21 as stated fails: the schema fields `a` and `A` share the member `A`;
the conversion succeeds under both orders of the computed fields, with
different records. -/
theorem convertStruct_order_changes_record :
    bothStruct.computed.Perm bothStructSwapped.computed ∧
      convertStruct structIdl bothField tBoth false "p"
          (runMember structIdl "p"
            [("a", GoVal.str tString "x"), ("A", GoVal.str tString "y")]) =
        Outcome.ok (RVal.val (GoVal.struct tBoth [("A", GoVal.str tString "y")]) true) ∧
      convertStruct swappedIdl bothField tBoth false "p"
          (runMember structIdl "p"
            [("a", GoVal.str tString "x"), ("A", GoVal.str tString "y")]) =
        Outcome.ok (RVal.val (GoVal.struct tBoth [("A", GoVal.str tString "x")]) true) :=
  ⟨List.Perm.swap _ _ _, rfl, rfl⟩

/-- C21, amended. For two orders of the same computed fields, no two of which
share storage of the target record (their members are different members, and
neither lies inside an embedded struct that is the other), and the same nested
conversions, `convertStruct` succeeds under both orders with the same result or
succeeds under neither. -/
theorem convertStruct_order_independent (idl1 idl2 : Idl) (field : Field) (desired : GoType)
    (dp : Bool) (path : String) (run : Field → GoType → String → Option Outcome)
    (S1 S2 : Struct) (h1 : idl1.Structs.lookup field.Typ = some S1)
    (h2 : idl2.Structs.lookup field.Typ = some S2) (hperm : S1.computed.Perm S2.computed)
    (hns : NoSharedMember desired S1.computed) :
    ∀ r, convertStruct idl1 field desired dp path run = Outcome.ok r ↔
      convertStruct idl2 field desired dp path run = Outcome.ok r :=
  fun r => convertStruct_perm idl1 idl2 field desired dp path run S1 S2 h1 h2 hperm hns r

/-- Witness of C21: the test's `{"a": "hi", "b": 30}` against `NoNesting`, with
the computed fields in the order of the test and in the reverse order. -/
theorem convertStruct_order_independent_witness :
    convertStruct structIdl noNestField tNoNesting false "p"
        (runMember structIdl "p" [("a", GoVal.str tString "hi"), ("b", GoVal.int tInt 30)]) =
        Outcome.ok (RVal.val (GoVal.struct tNoNesting
          [("A", GoVal.str tString "hi"), ("B", GoVal.int tInt64 30),
            ("C", GoVal.float tFloat64 (F64.fin 0 0)), ("D", GoVal.bool tBool false),
            ("E", GoVal.slice (GoType.slice tString) [])]) true) ↔
      convertStruct swappedIdl noNestField tNoNesting false "p"
        (runMember structIdl "p" [("a", GoVal.str tString "hi"), ("b", GoVal.int tInt 30)]) =
        Outcome.ok (RVal.val (GoVal.struct tNoNesting
          [("A", GoVal.str tString "hi"), ("B", GoVal.int tInt64 30),
            ("C", GoVal.float tFloat64 (F64.fin 0 0)), ("D", GoVal.bool tBool false),
            ("E", GoVal.slice (GoType.slice tString) [])]) true) :=
  convertStruct_order_independent structIdl swappedIdl noNestField tNoNesting false "p"
    (runMember structIdl "p" [("a", GoVal.str tString "hi"), ("b", GoVal.int tInt 30)])
    noNestStruct { noNestStruct with computed := noNestStruct.computed.reverse } rfl rfl
    (List.reverse_perm _).symm
    (by
      unfold NoSharedMember DistinctTargets
      decide) _

/-! ## Independence of `IsArray` -/

theorem convertStructFrom_field_eq (f1 f2 : Field) (hT : f1.Typ = f2.Typ) (desired : GoType)
    (dp : Bool) (path : String) (run : Field → GoType → String → Option Outcome) :
    ∀ (fields : List (String × Field)) (members : List (String × GoVal)),
      convertStructFrom f1 desired dp path run fields members =
        convertStructFrom f2 desired dp path run fields members
  | [], members => by rw [convertStructFrom, convertStructFrom]
  | (fname, sField) :: rest, members => by
    have ih := convertStructFrom_field_eq f1 f2 hT desired dp path run rest
    simp only [convertStructFrom_cons, hT, ih]

theorem convertStruct_field_eq (idl : Idl) (f1 f2 : Field) (hT : f1.Typ = f2.Typ)
    (desired : GoType) (dp : Bool) (path : String)
    (run : Field → GoType → String → Option Outcome) :
    convertStruct idl f1 desired dp path run = convertStruct idl f2 desired dp path run := by
  simp only [convertStruct, hT, convertStructFrom_field_eq f1 f2 hT]

theorem runWith_field_eq (idl : Idl) (f1 f2 : Field) (hT : f1.Typ = f2.Typ)
    (hO : f1.Optional = f2.Optional) (desired : GoType) (actual : GoVal) (path : String)
    (cs cst : GoType → Bool → Option Outcome) :
    runWith idl f1 desired actual path cs cst = runWith idl f2 desired actual path cs cst := by
  simp only [runWith, returnVal, hT, hO]

theorem Run_field_eq (idl : Idl) (f1 f2 : Field) (hN : f1.Name = f2.Name)
    (hT : f1.Typ = f2.Typ) (hO : f1.Optional = f2.Optional) (desired : GoType)
    (actual : GoVal) (path : String) :
    Run idl f1 desired actual path = Run idl f2 desired actual path := by
  rw [Run, Run, runWith_field_eq idl f1 f2 hT hO]
  simp only [hN, hT, hO, convertStruct_field_eq idl f1 f2 hT]

/-- C22. Two fields that differ only in `IsArray` give the same outcome of
`Run`; a source sequence whose type is not the desired type is converted by
`convertSlice` when the desired type (pointer removed) is of slice kind, and is
rejected with a `TypeError` when it is not, whatever `IsArray` says. -/
theorem Run_ignores_IsArray (idl : Idl) (f1 f2 : Field) (desired : GoType) (actual : GoVal)
    (path : String) (hN : f1.Name = f2.Name) (hT : f1.Typ = f2.Typ)
    (hO : f1.Optional = f2.Optional) :
    Run idl f1 desired actual path = Run idl f2 desired actual path ∧
      (∀ t elems, actual = GoVal.slice t elems → t ≠ desired →
        ((stripPtr desired).2.kind = Kind.slice →
          Run idl f1 desired actual path =
            convertSlice idl f1 (stripPtr desired).2 (stripPtr desired).1 path elems) ∧
        ((stripPtr desired).2.kind ≠ Kind.slice →
          Run idl f1 desired actual path =
            Outcome.error ⟨path, "Unable to " ++ ("convert: " ++ path ++ " - " ++
              t.kind.toString ++ " to " ++ desired.toString)⟩)) := by
  refine ⟨Run_field_eq idl f1 f2 hN hT hO desired actual path, ?_⟩
  intro t elems ha hne
  subst ha
  refine ⟨fun hk => Run_slice idl f1 desired path t elems hne hk, fun hk => ?_⟩
  apply Run_fail_of_not_ruleApplies idl f1 desired (GoVal.slice t elems) path t rfl
  unfold ruleApplies
  simp only [GoVal.typeOf, hne, decide_False, Bool.false_or]
  cases hkk : (stripPtr desired).2.kind <;>
    simp_all [GoVal.asString, GoVal.asInt, GoVal.asInt64, GoVal.asFloat64, GoVal.asFloat32,
      GoVal.asInt32, GoVal.asBool]

/-- Witness of C22: the test's `[1, 2.1, 3]` converts alike against `arrField`
and against the same field with `IsArray` unset. -/
theorem Run_ignores_IsArray_witness :
    Run testIdl arrField (GoType.slice tFloat64)
        (GoVal.slice tAnySlice [GoVal.int tInt 1,
          GoVal.float tFloat64 (F64.fin 4728779608739021 (-51)), GoVal.int tInt 3])
        "TestConvert[2]" =
      Run testIdl arrFieldSingular (GoType.slice tFloat64)
        (GoVal.slice tAnySlice [GoVal.int tInt 1,
          GoVal.float tFloat64 (F64.fin 4728779608739021 (-51)), GoVal.int tInt 3])
        "TestConvert[2]" :=
  (Run_ignores_IsArray testIdl arrField arrFieldSingular (GoType.slice tFloat64) _
    "TestConvert[2]" rfl rfl rfl).1

/-! ## The generator -/

theorem escReservedFrom_of_mem (s : String) :
    ∀ ws : List String, s ∈ ws → escReservedFrom s ws = "_" ++ s
  | [], h => by simp at h
  | w :: rest, h => by
    rw [escReservedFrom]
    by_cases hw : w = s
    · simp [hw]
    · simp only [hw, if_false]
      apply escReservedFrom_of_mem s rest
      simp only [List.mem_cons] at h
      rcases h with h | h
      · exact absurd h.symm hw
      · exact h

theorem escReservedFrom_of_not_mem (s : String) :
    ∀ ws : List String, s ∉ ws → escReservedFrom s ws = s
  | [], _ => rfl
  | w :: rest, h => by
    rw [escReservedFrom]
    simp only [List.mem_cons, not_or] at h
    have hw : ¬ w = s := fun e => h.1 e.symm
    simp only [hw, if_false]
    exact escReservedFrom_of_not_mem s rest h.2

theorem reservedWords_no_underscore :
    ∀ w ∈ reservedWords, w.data.head? ≠ some '_' := by
  decide

theorem underscore_not_reserved (s : String) : "_" ++ s ∉ reservedWords := by
  intro h
  apply reservedWords_no_underscore _ h
  simp [String.data_append]

/-- C23. `reservedWords` has 25 entries; `escReserved s` is `"_" + s` when `s` is
one of them and `s` otherwise; the result for a reserved word is not a reserved
word, and `escReserved` applied twice gives the same as applied once. -/
theorem escReserved_spec (s : String) :
    reservedWords.length = 25 ∧
      (s ∈ reservedWords → escReserved s = "_" ++ s) ∧
      (s ∉ reservedWords → escReserved s = s) ∧
      (s ∈ reservedWords → escReserved s ∉ reservedWords) ∧
      escReserved (escReserved s) = escReserved s := by
  refine ⟨rfl, escReservedFrom_of_mem s _, escReservedFrom_of_not_mem s _, ?_, ?_⟩
  · intro h
    have he : escReserved s = "_" ++ s := escReservedFrom_of_mem s _ h
    rw [he]
    exact underscore_not_reserved s
  · by_cases h : s ∈ reservedWords
    · have he : escReserved s = "_" ++ s := escReservedFrom_of_mem s _ h
      rw [he]
      exact escReservedFrom_of_not_mem _ _ (underscore_not_reserved s)
    · have he : escReserved s = s := escReservedFrom_of_not_mem s _ h
      rw [he, he]

theorem handler_ident_of_not_reserved (name : String) (h : toLower name ∉ reservedWords) :
    escReserved (toLower name) = toLower name :=
  escReservedFrom_of_not_mem _ _ h

set_option maxRecDepth 100000 in
/-- C24 (the code at the failing input). For the interface `Map` the emitted
`NewServer` declares the parameter `_map` and passes the identifier `map` to
`_svr.AddHandler`: the second loop lower-cases the name without `escReserved`. -/
theorem generateNewServer_reserved_name :
    escReserved (toLower "Map") = "_map" ∧ toLower "Map" = "map" ∧
      generateNewServer [("Map", [])] "" =
        "func NewJSONServer(idl *barrister.Idl, forceASCII bool, _map Map) barrister.Server \x7b\n" ++
        "\treturn NewServer(idl, &barrister.JsonSerializer\x7bforceASCII\x7d, _map)\n" ++
        "\x7d\n\n" ++
        "func NewServer(idl *barrister.Idl, ser barrister.Serializer, _map Map) barrister.Server \x7b\n" ++
        "\t_svr := barrister.NewServer(idl, ser)\n" ++
        "\t_svr.AddHandler(\x22Map\x22, map)\n" ++
        "\treturn _svr\n" ++
        "\x7d\n" :=
  ⟨rfl, rfl, rfl⟩

end Barrister
